import Mathlib

/-!
# Ledger, loan book and transaction log of `banksystem.cpp`

A shallow embedding of the account, loan and transaction operations of
`src/banksystem.cpp`, with the theorems that settle the specification's claims
about them.

Modelling conventions.

* The three global vectors `accounts`, `loanBook` and `transactions` are the
  fields of the record `Bank`; every operation is a function from the state
  before the call to the state after it.
* Values the source reads from `cin` are arguments of the operation; the line
  the source writes to `cout` is returned as an `Outcome`.
* `getCurrentDateTime()` is an argument too (one per call in the source).
* `int` is `Int`; an `int` addition that overflows is undefined behaviour in
  C++ and outside the model.
* `double` is IEEE 754 binary64, evaluated in double precision with the
  default rounding mode. A finite double is the rational number it denotes,
  so the fields and arguments of type `double` have type `ℚ`, and `IsDouble v`
  says that `v` is the value of a finite double. Comparisons are those of the
  rationals. Every arithmetic operation of the source (`+=`, `-=`, `*`, `/`)
  is the exact operation followed by `roundDouble`, the rounding to the
  nearest double with ties to even (53 significant bits, subnormal spacing
  `2 ^ -1074`). The section "Rounding to binary64" proves that `roundDouble`
  is that rounding: its values are doubles, it leaves the doubles as they are,
  it is monotone and odd, no double is nearer to `q` than `roundDouble q`, and
  the positive doubles are the multiples `k * 2 ^ (e - 52)`, `k ≤ 2 ^ 53`, of
  the spacing of their binade. A result beyond `DBL_MAX` (an infinity in the
  source) and NaN have no counterpart in `ℚ`: the statements about computed
  balances assume that the operands are doubles and, where the source can
  overflow, that the exact result is within `InDoubleRange`.
* In the text conversions of the backing files a value stands for the double
  nearest to it: `operator<<` writes its six significant digits and
  `operator>>` stores the value of the digits it reads, without the rounding
  to binary64.
* `findAccountIndexByNumber` and `findLoanByID` return `Option Nat` (the index
  of the element found) for `-1` / `nullptr` and the index / pointer.
* A line of a backing file is a `List Char`. The stream operations the source
  calls are modelled after the C++ library: `operator<<` writes an `int` in
  decimal and a `double` as `%g` at precision 6 (the default flags);
  `operator>>`, `ignore` and `getline` work on an `IStream` that carries
  `eofbit` and `failbit`; a failed conversion stores 0, an extraction from a
  stream that is not good leaves its variable as it was.
* The contents of uninitialised locals (`Account acc; int frozenInt;` in
  `loadAccounts`) are arguments of the decoding functions.
-/

namespace BankSystem

/-! ## Records (`struct Account`, `struct Transaction`, `struct Loan`) -/

/-- Record `struct Account` (banksystem.cpp, lines 22-28). -/
structure Account where
  accountNumber : Int
  customerName : String
  balance : ℚ
  interestRate : ℚ
  isFrozen : Bool
deriving DecidableEq, Repr

/-- Record `struct Transaction` (banksystem.cpp, lines 31-38); `type` is `type_`. -/
structure Transaction where
  transactionID : Int
  accountNumber : Int
  dateTime : String
  type_ : String
  amount : ℚ
  balanceAfter : ℚ
deriving DecidableEq, Repr

/-- Record `struct Loan` (banksystem.cpp, lines 41-48). -/
structure Loan where
  loanID : Int
  customerName : String
  loanAmount : ℚ
  interestRate : ℚ
  duration : Int
  remainingBalance : ℚ
deriving DecidableEq, Repr

/-- The global vectors `accounts`, `loanBook`, `transactions` (lines 51-53). -/
structure Bank where
  accounts : List Account
  loanBook : List Loan
  transactions : List Transaction
deriving DecidableEq, Repr

/-- The state of a run that loaded no file: three empty vectors. -/
def Bank.empty : Bank := ⟨[], [], []⟩

/-- The line an operation writes to `cout` before it returns. -/
inductive Outcome where
  | success
  | accountNotFound
  | sourceNotFound
  | destNotFound
  | accountFrozen
  | sourceFrozen
  | destFrozen
  | invalidAmount
  | insufficientFunds
  | alreadyFrozen
  | notFrozen
  | loanNotFound
  | exceedsBalance
deriving DecidableEq, Repr

/-! ## Helpers -/

/-- Source function `trim` (lines 14-19): drop the leading and the trailing spaces. -/
def trim (str : String) : String :=
  String.mk (((str.toList.dropWhile (· == ' ')).reverse.dropWhile (· == ' ')).reverse)

/-- The assignment `v[idx] = f (v[idx])` on a vector. -/
def modifyAt {α : Type} (f : α → α) : List α → Nat → List α
  | [], _ => []
  | x :: xs, 0 => f x :: xs
  | x :: xs, i + 1 => x :: modifyAt f xs i

/-- Rounding of `num / den` to the nearest natural number, ties to even. -/
def roundHalfEven (num den : Nat) : Nat :=
  if 2 * (num % den) < den then num / den
  else if den < 2 * (num % den) then num / den + 1
  else if (num / den) % 2 = 0 then num / den else num / den + 1

/-- The number of binary digits of `n`, with `fuel` bounding the recursion. -/
def bitLengthAux : Nat → Nat → Nat
  | 0, _ => 0
  | fuel + 1, n => if n = 0 then 0 else bitLengthAux fuel (n / 2) + 1

/-- The number of binary digits of `n` (0 for 0): `2 ^ (bitLength n - 1) ≤ n < 2 ^ bitLength n`. -/
def bitLength (n : Nat) : Nat := bitLengthAux n n

/-- The binary exponent of `num / den` for positive `num` and `den`: the `e` with
`2 ^ e ≤ num / den < 2 ^ (e + 1)`. The difference of the bit lengths is `e` or `e + 1`. -/
def binaryExponent (num den : Nat) : Int :=
  if (if bitLength den ≤ bitLength num
      then den * 2 ^ (bitLength num - bitLength den) ≤ num
      else den ≤ num * 2 ^ (bitLength den - bitLength num))
  then (bitLength num : Int) - (bitLength den : Int)
  else (bitLength num : Int) - (bitLength den : Int) - 1

/-- The exponent of the binade of `q` in binary64: the binary exponent of `|q|`, and the least
normal exponent -1022 for the subnormal values below it. -/
def doubleExponent (q : ℚ) : Int := max (binaryExponent q.num.natAbs q.den) (-1022)

/-- The binary64 value nearest to `q`, ties to even: the rounding every `double` operation of
the source applies to its exact result. With `e` the exponent of the binade of `q`, the doubles
there are the multiples of `2 ^ (e - 52)`, and the result is the one nearest to `q`. -/
def roundDouble (q : ℚ) : ℚ :=
  if q = 0 then 0
  else
    let e := doubleExponent q
    let v : ℚ :=
      if 52 ≤ e then
        (roundHalfEven q.num.natAbs (q.den * 2 ^ (e - 52).toNat) : ℚ) * (2 ^ (e - 52).toNat : ℚ)
      else
        (roundHalfEven (q.num.natAbs * 2 ^ (52 - e).toNat) q.den : ℚ) / (2 ^ (52 - e).toNat : ℚ)
    if q < 0 then -v else v

/-- The update `acc.balance += amount` on doubles. -/
def addToBalance (amount : ℚ) (acc : Account) : Account :=
  { acc with balance := roundDouble (acc.balance + amount) }

/-- The update `acc.balance -= amount` on doubles. -/
def subFromBalance (amount : ℚ) (acc : Account) : Account :=
  { acc with balance := roundDouble (acc.balance - amount) }

/-- The update `acc.isFrozen = flag`. -/
def setFrozen (flag : Bool) (acc : Account) : Account :=
  { acc with isFrozen := flag }

/-- The update `loan->remainingBalance -= repayment` on doubles. -/
def subFromRemaining (repayment : ℚ) (loan : Loan) : Loan :=
  { loan with remainingBalance := roundDouble (loan.remainingBalance - repayment) }

/-- Source function `accountNumberExists` (lines 221-226). -/
def accountNumberExists : List Account → Int → Bool
  | [], _ => false
  | acc :: rest, accountNumber =>
    if acc.accountNumber = accountNumber then true else accountNumberExists rest accountNumber

/-- Source function `findAccountIndexByNumber` (lines 228-233): the first index whose account
has the number, `none` for `-1`. -/
def findAccountIndexByNumber : List Account → Int → Option Nat
  | [], _ => none
  | acc :: rest, accountNumber =>
    if acc.accountNumber = accountNumber then some 0
    else (findAccountIndexByNumber rest accountNumber).map (· + 1)

/-- The read `accounts[idx].isFrozen`. -/
def isFrozenAt (accounts : List Account) (idx : Nat) : Bool :=
  match accounts[idx]? with
  | some acc => acc.isFrozen
  | none => false

/-- The read `accounts[idx].balance`. -/
def balanceAt (accounts : List Account) (idx : Nat) : ℚ :=
  match accounts[idx]? with
  | some acc => acc.balance
  | none => 0

/-- The read `accounts[idx].interestRate`. -/
def interestRateAt (accounts : List Account) (idx : Nat) : ℚ :=
  match accounts[idx]? with
  | some acc => acc.interestRate
  | none => 0

/-- Source function `generateTransactionID` (lines 679-685). -/
def generateTransactionID (transactions : List Transaction) : Int :=
  transactions.foldl (fun maxID t => if t.transactionID > maxID then t.transactionID else maxID) 0 + 1

/-- Source function `generateUniqueLoanID` (lines 728-734). -/
def generateUniqueLoanID (loanBook : List Loan) : Int :=
  loanBook.foldl (fun maxID loan => if loan.loanID > maxID then loan.loanID else maxID) 0 + 1

/-- Source function `findLoanByID` (lines 736-741): the index of the first loan with the ID,
`none` for `nullptr`. -/
def findLoanByID : List Loan → Int → Option Nat
  | [], _ => none
  | loan :: rest, id =>
    if loan.loanID = id then some 0 else (findLoanByID rest id).map (· + 1)

/-- The read `loan->remainingBalance` through the pointer `findLoanByID` gave. -/
def remainingBalanceAt (loanBook : List Loan) (idx : Nat) : ℚ :=
  match loanBook[idx]? with
  | some loan => loan.remainingBalance
  | none => 0

/-! ## Account operations -/

/-- The `do ... while (accountNumberExists(accNum))` loop of `createAccount`
(lines 245-252) over the numbers typed: the first one that is not taken, and
`none` when the input ends before the loop does. -/
def readAccountNumber (accounts : List Account) : List Int → Option Int
  | [] => none
  | accNum :: rest =>
    if accountNumberExists accounts accNum then readAccountNumber accounts rest else some accNum

/-- Source function `createAccount` (lines 242-277). `accNums` are the numbers typed at the
prompt in order; `none` when the loop never leaves. -/
def createAccount (s : Bank) (accNums : List Int) (name : String) (balance interestRate : ℚ) :
    Option (Outcome × Bank) :=
  match readAccountNumber s.accounts accNums with
  | none => none
  | some accNum =>
    let newAcc : Account :=
      { accountNumber := accNum, customerName := trim name, balance := balance,
        interestRate := interestRate, isFrozen := false }
    some (.success, { s with accounts := s.accounts ++ [newAcc] })

/-- Source function `depositFunds` (lines 279-322). -/
def depositFunds (s : Bank) (accNum : Int) (amount : ℚ) (now : String) : Outcome × Bank :=
  match findAccountIndexByNumber s.accounts accNum with
  | none => (.accountNotFound, s)
  | some idx =>
    if isFrozenAt s.accounts idx then (.accountFrozen, s)
    else if amount ≤ 0 then (.invalidAmount, s)
    else
      let accounts1 := modifyAt (addToBalance amount) s.accounts idx
      let t : Transaction :=
        { transactionID := generateTransactionID s.transactions, accountNumber := accNum,
          dateTime := now, type_ := "deposit", amount := amount,
          balanceAfter := balanceAt accounts1 idx }
      (.success, { s with accounts := accounts1, transactions := s.transactions ++ [t] })

/-- Source function `withdrawFunds` (lines 324-372). -/
def withdrawFunds (s : Bank) (accNum : Int) (amount : ℚ) (now : String) : Outcome × Bank :=
  match findAccountIndexByNumber s.accounts accNum with
  | none => (.accountNotFound, s)
  | some idx =>
    if isFrozenAt s.accounts idx then (.accountFrozen, s)
    else if amount ≤ 0 then (.invalidAmount, s)
    else if amount > balanceAt s.accounts idx then (.insufficientFunds, s)
    else
      let accounts1 := modifyAt (subFromBalance amount) s.accounts idx
      let t : Transaction :=
        { transactionID := generateTransactionID s.transactions, accountNumber := accNum,
          dateTime := now, type_ := "withdrawal", amount := amount,
          balanceAfter := balanceAt accounts1 idx }
      (.success, { s with accounts := accounts1, transactions := s.transactions ++ [t] })

/-- Source function `transferFunds` (lines 374-450). `now1` and `now2` are the two calls of
`getCurrentDateTime()`. -/
def transferFunds (s : Bank) (srcAccNum destAccNum : Int) (amount : ℚ) (now1 now2 : String) :
    Outcome × Bank :=
  match findAccountIndexByNumber s.accounts srcAccNum with
  | none => (.sourceNotFound, s)
  | some srcIdx =>
    if isFrozenAt s.accounts srcIdx then (.sourceFrozen, s)
    else
      match findAccountIndexByNumber s.accounts destAccNum with
      | none => (.destNotFound, s)
      | some destIdx =>
        if isFrozenAt s.accounts destIdx then (.destFrozen, s)
        else if amount ≤ 0 then (.invalidAmount, s)
        else if amount > balanceAt s.accounts srcIdx then (.insufficientFunds, s)
        else
          let accounts1 := modifyAt (subFromBalance amount) s.accounts srcIdx
          let accounts2 := modifyAt (addToBalance amount) accounts1 destIdx
          let tOut : Transaction :=
            { transactionID := generateTransactionID s.transactions, accountNumber := srcAccNum,
              dateTime := now1, type_ := "transfer_out", amount := amount,
              balanceAfter := balanceAt accounts2 srcIdx }
          let transactions1 := s.transactions ++ [tOut]
          let tIn : Transaction :=
            { transactionID := generateTransactionID transactions1, accountNumber := destAccNum,
              dateTime := now2, type_ := "transfer_in", amount := amount,
              balanceAfter := balanceAt accounts2 destIdx }
          (.success, { s with accounts := accounts2, transactions := transactions1 ++ [tIn] })

/-- Source function `calculateAndAddInterest` (lines 467-484). -/
def calculateAndAddInterest (s : Bank) (accNum : Int) : Outcome × Bank :=
  match findAccountIndexByNumber s.accounts accNum with
  | none => (.accountNotFound, s)
  | some idx =>
    let interest :=
      roundDouble (balanceAt s.accounts idx * roundDouble (interestRateAt s.accounts idx / 100))
    let accounts1 := modifyAt (addToBalance interest) s.accounts idx
    (.success, { s with accounts := accounts1 })

/-- The loop of `closeAccount` (lines 492-499): erase the first account with
the number; `none` when the loop ends without finding one. -/
def eraseAccount : List Account → Int → Option (List Account)
  | [], _ => none
  | acc :: rest, accNum =>
    if acc.accountNumber = accNum then some rest
    else (eraseAccount rest accNum).map (acc :: ·)

/-- Source function `closeAccount` (lines 486-501). -/
def closeAccount (s : Bank) (accNum : Int) : Outcome × Bank :=
  match eraseAccount s.accounts accNum with
  | some accounts1 => (.success, { s with accounts := accounts1 })
  | none => (.accountNotFound, s)

/-- Source function `deleteAllAccounts` (lines 523-527). -/
def deleteAllAccounts (s : Bank) : Outcome × Bank :=
  (.success, { s with accounts := [] })

/-- Source function `freezeAccount` (lines 578-598). -/
def freezeAccount (s : Bank) (accNum : Int) : Outcome × Bank :=
  match findAccountIndexByNumber s.accounts accNum with
  | none => (.accountNotFound, s)
  | some idx =>
    if isFrozenAt s.accounts idx then (.alreadyFrozen, s)
    else
      let accounts1 := modifyAt (setFrozen true) s.accounts idx
      (.success, { s with accounts := accounts1 })

/-- Source function `unfreezeAccount` (lines 600-620). -/
def unfreezeAccount (s : Bank) (accNum : Int) : Outcome × Bank :=
  match findAccountIndexByNumber s.accounts accNum with
  | none => (.accountNotFound, s)
  | some idx =>
    if !isFrozenAt s.accounts idx then (.notFrozen, s)
    else
      let accounts1 := modifyAt (setFrozen false) s.accounts idx
      (.success, { s with accounts := accounts1 })

/-! ## Loan operations -/

/-- Source function `createLoanAgreement` (lines 743-778). -/
def createLoanAgreement (s : Bank) (name : String) (loanAmount interestRate : ℚ)
    (duration : Int) : Outcome × Bank :=
  let newLoan : Loan :=
    { loanID := generateUniqueLoanID s.loanBook, customerName := trim name,
      loanAmount := loanAmount, interestRate := interestRate, duration := duration,
      remainingBalance := loanAmount }
  (.success, { s with loanBook := s.loanBook ++ [newLoan] })

/-- Source function `makeMonthlyRepayment` (lines 780-806). -/
def makeMonthlyRepayment (s : Bank) (id : Int) (repayment : ℚ) : Outcome × Bank :=
  match findLoanByID s.loanBook id with
  | none => (.loanNotFound, s)
  | some idx =>
    if repayment > remainingBalanceAt s.loanBook idx then (.exceedsBalance, s)
    else
      let loanBook1 := modifyAt (subFromRemaining repayment) s.loanBook idx
      (.success, { s with loanBook := loanBook1 })

/-! ## Sequences of calls -/

/-- One menu selection of `main` together with what the user types for it. -/
inductive Op where
  | createAccount (accNums : List Int) (name : String) (balance interestRate : ℚ)
  | depositFunds (accNum : Int) (amount : ℚ) (now : String)
  | withdrawFunds (accNum : Int) (amount : ℚ) (now : String)
  | transferFunds (srcAccNum destAccNum : Int) (amount : ℚ) (now1 now2 : String)
  | calculateAndAddInterest (accNum : Int)
  | closeAccount (accNum : Int)
  | deleteAllAccounts
  | freezeAccount (accNum : Int)
  | unfreezeAccount (accNum : Int)
  | createLoanAgreement (name : String) (loanAmount interestRate : ℚ) (duration : Int)
  | makeMonthlyRepayment (id : Int) (repayment : ℚ)

/-- The state after one call; `none` when the call does not return. -/
def step (s : Bank) : Op → Option Bank
  | .createAccount accNums name balance interestRate =>
    (createAccount s accNums name balance interestRate).map Prod.snd
  | .depositFunds accNum amount now => some (depositFunds s accNum amount now).2
  | .withdrawFunds accNum amount now => some (withdrawFunds s accNum amount now).2
  | .transferFunds src dest amount now1 now2 => some (transferFunds s src dest amount now1 now2).2
  | .calculateAndAddInterest accNum => some (calculateAndAddInterest s accNum).2
  | .closeAccount accNum => some (closeAccount s accNum).2
  | .deleteAllAccounts => some (deleteAllAccounts s).2
  | .freezeAccount accNum => some (freezeAccount s accNum).2
  | .unfreezeAccount accNum => some (unfreezeAccount s accNum).2
  | .createLoanAgreement name loanAmount interestRate duration =>
    some (createLoanAgreement s name loanAmount interestRate duration).2
  | .makeMonthlyRepayment id repayment => some (makeMonthlyRepayment s id repayment).2

/-- The state after a sequence of calls, in order. -/
def run (s : Bank) : List Op → Option Bank
  | [] => some s
  | op :: ops => (step s op).bind (fun s1 => run s1 ops)

/-! ## Observations used in the statements -/

/-- The balance of the account a lookup by number finds, `none` when there is
no account with the number. -/
def balanceOf (accounts : List Account) (accountNumber : Int) : Option ℚ :=
  (findAccountIndexByNumber accounts accountNumber).map (balanceAt accounts)

/-- Account numbers are pairwise distinct. -/
def UniqueNumbers (accounts : List Account) : Prop :=
  (accounts.map Account.accountNumber).Nodup

/-- The largest finite double, `(2 ^ 53 - 1) * 2 ^ 971`. -/
def DBL_MAX : ℚ := (2 ^ 53 - 1) * 2 ^ 971

/-- The exact result `q` of an operation rounds to a finite double. -/
def InDoubleRange (q : ℚ) : Prop := -DBL_MAX ≤ q ∧ q ≤ DBL_MAX

/-- The rational `q` is the value of a finite double: rounding leaves it as it is. -/
def IsDouble (q : ℚ) : Prop := roundDouble q = q ∧ InDoubleRange q

/-- The spacing of the doubles at `q`, one unit in the last place: `2 ^ (e - 52)` for the
exponent `e` of the binade of `q`. -/
def ulp (q : ℚ) : ℚ := (2 : ℚ) ^ (doubleExponent q - 52)

/-- The natural number `r` is the integer nearest to `t`, the even one of the two when `t` is
half way between them. -/
def NearestEven (r : Nat) (t : ℚ) : Prop :=
  (r : ℚ) ≤ t + 1 / 2 ∧ t ≤ (r : ℚ) + 1 / 2 ∧
    ((r : ℚ) = t + 1 / 2 → r % 2 = 0) ∧ (t = (r : ℚ) + 1 / 2 → r % 2 = 0)

/-! ## Sample states -/

/-- Account 101 of the specification's scenarios, after its deposit. -/
def alice : Account := ⟨101, "Alice", 150, 5, false⟩

/-- Account 102 of the transfer scenario. -/
def bob : Account := ⟨102, "Bob", 0, 5, false⟩

/-- The two scenario accounts, no loans, an empty log. -/
def sampleBank : Bank := ⟨[alice, bob], [], []⟩

/-- The scenario loan: amount 1000, rate 10, twelve months, nothing repaid. -/
def bobLoan : Loan := ⟨1, "Bob", 1000, 10, 12, 1000⟩

/-- A loan book holding the scenario loan only. -/
def sampleLoans : Bank := ⟨[], [bobLoan], []⟩

/-- An account whose balance is below zero. -/
def overdrawn : Account := ⟨7, "Carol", -100, 0, false⟩

/-- A ledger holding the overdrawn account only. -/
def overdrawnBank : Bank := ⟨[overdrawn], [], []⟩

/-- A timestamp in the format of `getCurrentDateTime`. -/
def noon : String := "2025-01-01 12:00:00"

/-- Loan IDs are strictly increasing in list order. -/
def IncreasingLoanIDs (loanBook : List Loan) : Prop :=
  (loanBook.map Loan.loanID).Pairwise (· < ·)

/-- Transaction IDs are strictly increasing in list order. -/
def IncreasingTransactionIDs (transactions : List Transaction) : Prop :=
  (transactions.map Transaction.transactionID).Pairwise (· < ·)

/-- A loan as a damaged or hand-edited `loanbook.txt` can hold it: ID `-5`. -/
def strayLoan : Loan := ⟨-5, "Dan", 200, 3, 6, 200⟩

/-- A log entry as a damaged or hand-edited `transactions.txt` can hold it: ID `-5`. -/
def strayEntry : Transaction := ⟨-5, 101, noon, "deposit", 50, 150⟩

/-- A log of two entries, IDs 1 and 2. -/
def sampleLog : List Transaction :=
  [⟨1, 101, noon, "transfer_out", 30, 120⟩, ⟨2, 102, noon, "transfer_in", 30, 30⟩]

/-- A sequence of calls: two loans, a deposit, a transfer, a refused withdrawal. -/
def sampleOps : List Op :=
  [Op.createLoanAgreement "Bob" 1000 10 12, Op.createLoanAgreement "Eve" 500 4 6,
   Op.depositFunds 101 50 noon, Op.transferFunds 101 102 30 noon noon,
   Op.withdrawFunds 102 1000 noon]

/-- The state `sampleOps` leads to from the scenario ledger. -/
def sampleAfterOps : Bank :=
  { accounts := [⟨101, "Alice", 170, 5, false⟩, ⟨102, "Bob", 30, 5, false⟩],
    loanBook := [⟨1, "Bob", 1000, 10, 12, 1000⟩, ⟨2, "Eve", 500, 4, 6, 500⟩],
    transactions :=
      [⟨1, 101, noon, "deposit", 50, 200⟩, ⟨2, 101, noon, "transfer_out", 30, 170⟩,
       ⟨3, 102, noon, "transfer_in", 30, 30⟩] }

/-! ## Text of the backing files (`operator<<`, `operator>>`, `getline`) -/

/-- The character `operator<<` writes for one decimal digit. -/
def digitChar (d : Nat) : Char :=
  match d with
  | 0 => '0' | 1 => '1' | 2 => '2' | 3 => '3' | 4 => '4'
  | 5 => '5' | 6 => '6' | 7 => '7' | 8 => '8' | _ => '9'

/-- The value of a decimal digit character, `none` for any other character. -/
def digitValue (c : Char) : Option Nat :=
  if c = '0' then some 0 else if c = '1' then some 1 else if c = '2' then some 2
  else if c = '3' then some 3 else if c = '4' then some 4 else if c = '5' then some 5
  else if c = '6' then some 6 else if c = '7' then some 7 else if c = '8' then some 8
  else if c = '9' then some 9 else none

/-- The decimal digits of a natural number, most significant first, with
`fuel` bounding the number of digits. -/
def natDigitsAux : Nat → Nat → List Nat → List Nat
  | 0, _, acc => acc
  | fuel + 1, n, acc =>
    if n < 10 then n :: acc else natDigitsAux fuel (n / 10) (n % 10 :: acc)

/-- The decimal digits of a natural number, most significant first (`0` is `[0]`). -/
def natDigits (n : Nat) : List Nat := natDigitsAux (n + 1) n []

/-- The number a list of decimal digits, most significant first, denotes. -/
def digitsValue (ds : List Nat) : Nat := ds.foldl (fun v d => 10 * v + d) 0

/-- The text `operator<<` writes for an `int`. -/
def renderInt (n : Int) : List Char :=
  if n < 0 then '-' :: (natDigits n.natAbs).map digitChar else (natDigits n.natAbs).map digitChar

/-- The least `k` from the start value on with `den ≤ num * 10 ^ k`, with `fuel`
bounding the search. -/
def scaleUp : Nat → Nat → Nat → Nat → Nat
  | 0, _, _, k => k
  | fuel + 1, num, den, k => if den ≤ num * 10 ^ k then k else scaleUp fuel num den (k + 1)

/-- The decimal exponent `X` of the positive number `num / den`:
`10 ^ X ≤ num / den < 10 ^ (X + 1)`. -/
def decimalExponent (num den : Nat) : Int :=
  if den ≤ num then ((natDigits (num / den)).length : Int) - 1
  else -(scaleUp den num den 1 : Int)

/-- The six significant digits `m` (as a number from 100000 to 999999) and the
decimal exponent `X` with which `%g` at precision 6 writes the positive number
`num / den`: the nearest `m * 10 ^ (X - 5)`, ties to even. -/
def sixDigits (num den : Nat) : Nat × Int :=
  let x0 := decimalExponent num den
  let m0 :=
    if x0 ≤ 5 then roundHalfEven (num * 10 ^ (5 - x0).toNat) den
    else roundHalfEven num (den * 10 ^ (x0 - 5).toNat)
  if m0 = 1000000 then (100000, x0 + 1) else (m0, x0)

/-- Removal of the trailing zeros of a digit list. -/
def stripZeros (ds : List Nat) : List Nat :=
  (ds.reverse.dropWhile (· == 0)).reverse

/-- An integer part and a fractional part as text, the point left out when
the fractional part is empty. -/
def withPoint (ip fp : List Nat) : List Char :=
  if fp = [] then ip.map digitChar else ip.map digitChar ++ '.' :: fp.map digitChar

/-- The exponent field of `%g`: sign and at least two digits. -/
def renderExponent (x : Int) : List Char :=
  (if x < 0 then '-' else '+') ::
    (if x.natAbs < 10 then '0' :: (natDigits x.natAbs).map digitChar
     else (natDigits x.natAbs).map digitChar)

/-- The text `%g` at precision 6 writes for six digits `ds` and exponent `x`:
scientific style when `x < -4` or `x ≥ 6`, fixed style otherwise, trailing
zeros of the fraction removed. -/
def renderSixDigits (ds : List Nat) (x : Int) : List Char :=
  if x < -4 ∨ 6 ≤ x then
    withPoint (ds.take 1) (stripZeros (ds.drop 1)) ++ 'e' :: renderExponent x
  else if 0 ≤ x then
    withPoint (ds.take (x.toNat + 1)) (stripZeros (ds.drop (x.toNat + 1)))
  else
    withPoint [0] (stripZeros (List.replicate ((-x).toNat - 1) 0 ++ ds))

/-- The text `operator<<` writes for a `double` with the stream's default
format flags: `%g` at precision 6. -/
def renderDouble (q : ℚ) : List Char :=
  if q = 0 then ['0']
  else
    let body :=
      renderSixDigits (natDigits (sixDigits q.num.natAbs q.den).1) (sixDigits q.num.natAbs q.den).2
    if q < 0 then '-' :: body else body

/-- Character class `isspace` of the C locale. -/
def isSpace (c : Char) : Bool :=
  c = ' ' || c = '\t' || c = '\n' || c = '\r' || c = Char.ofNat 11 || c = Char.ofNat 12

/-- The leading decimal digits of a text, and the text after them. -/
def takeDigits : List Char → List Nat × List Char
  | [] => ([], [])
  | c :: cs =>
    match digitValue c with
    | some d => (d :: (takeDigits cs).1, (takeDigits cs).2)
    | none => ([], c :: cs)

/-- An optional `+` or `-`: whether it was `-`, and the text after it. -/
def takeSign : List Char → Bool × List Char
  | [] => (false, [])
  | c :: cs => if c = '-' then (true, cs) else if c = '+' then (false, cs) else (false, c :: cs)

/-- Largest `int`. -/
def INT_MAX : Int := 2147483647

/-- Smallest `int`. -/
def INT_MIN : Int := -2147483648

/-- The conversion `operator>>` makes for an `int`, after the whitespace:
optional sign, decimal digits. Result: the value stored, whether `failbit` is
raised, the text left. Without a digit 0 is stored; out of range the nearest
bound is stored; both raise `failbit`. -/
def scanInt (cs : List Char) : Int × Bool × List Char :=
  let ds := (takeDigits (takeSign cs).2).1
  let rest := (takeDigits (takeSign cs).2).2
  if ds = [] then (0, true, rest)
  else
    let v : Int := if (takeSign cs).1 then -(digitsValue ds : Int) else (digitsValue ds : Int)
    if INT_MAX < v then (INT_MAX, true, rest)
    else if v < INT_MIN then (INT_MIN, true, rest)
    else (v, false, rest)

/-- The fraction digits after an optional decimal point, and the text after them. -/
def takeFraction : List Char → List Nat × List Char
  | [] => ([], [])
  | c :: cs => if c = '.' then takeDigits cs else ([], c :: cs)

/-- The value of a decimal number given by its sign, integer digits, fraction
digits and exponent. -/
def decimalValue (neg : Bool) (ip fp : List Nat) (eneg : Bool) (e : Nat) : ℚ :=
  let mant : ℚ := (digitsValue ip : ℚ) + (digitsValue fp : ℚ) / (10 ^ fp.length : ℚ)
  let scaled : ℚ := if eneg then mant / (10 ^ e : ℚ) else mant * (10 ^ e : ℚ)
  if neg then -scaled else scaled

/-- The conversion `operator>>` makes for a `double`, after the whitespace:
optional sign, digits, optional point and digits, and after a mantissa an
optional `e` or `E` with optional sign and digits. Result: the value stored,
whether `failbit` is raised, the text left. Without a mantissa digit, or with
an `e` that no digit follows, 0 is stored and `failbit` raised. -/
def scanDouble (cs : List Char) : ℚ × Bool × List Char :=
  let neg := (takeSign cs).1
  let ip := (takeDigits (takeSign cs).2).1
  let afterInt := (takeDigits (takeSign cs).2).2
  let fp := (takeFraction afterInt).1
  let afterFrac := (takeFraction afterInt).2
  if ip = [] ∧ fp = [] then (0, true, afterFrac)
  else
    match afterFrac with
    | [] => (decimalValue neg ip fp false 0, false, [])
    | c :: cs1 =>
      if c = 'e' ∨ c = 'E' then
        let eneg := (takeSign cs1).1
        let ed := (takeDigits (takeSign cs1).2).1
        let rest := (takeDigits (takeSign cs1).2).2
        if ed = [] then (0, true, rest)
        else (decimalValue neg ip fp eneg (digitsValue ed), false, rest)
      else (decimalValue neg ip fp false 0, false, c :: cs1)

/-- An `istringstream`: the text not read yet, `eofbit` and `failbit`. -/
structure IStream where
  rest : List Char
  eof : Bool
  fail : Bool
deriving DecidableEq, Repr

/-- The stream `istringstream iss(line)`. -/
def IStream.ofLine (line : List Char) : IStream := ⟨line, false, false⟩

/-- Stream test `good()`: neither flag raised. -/
def IStream.good (st : IStream) : Bool := !st.eof && !st.fail

/-- Extraction `iss >> x` for an `int` `x` holding `cur`: the stream after it
and the new content of `x`. A stream that is not good raises `failbit` and
leaves `x`; whitespace is skipped, and if nothing follows it both flags are
raised and `x` is left; otherwise `scanInt` decides, and `eofbit` is raised when
the conversion reached the end of the text. -/
def extractInt (st : IStream) (cur : Int) : IStream × Int :=
  if !st.good then ({ st with fail := true }, cur)
  else
    match st.rest.dropWhile isSpace with
    | [] => (⟨[], true, true⟩, cur)
    | c :: cs =>
      (⟨(scanInt (c :: cs)).2.2, (scanInt (c :: cs)).2.2.isEmpty, (scanInt (c :: cs)).2.1⟩,
        (scanInt (c :: cs)).1)

/-- Extraction `iss >> x` for a `double` `x` holding `cur`, as `extractInt`
with `scanDouble`. -/
def extractDouble (st : IStream) (cur : ℚ) : IStream × ℚ :=
  if !st.good then ({ st with fail := true }, cur)
  else
    match st.rest.dropWhile isSpace with
    | [] => (⟨[], true, true⟩, cur)
    | c :: cs =>
      (⟨(scanDouble (c :: cs)).2.2, (scanDouble (c :: cs)).2.2.isEmpty,
          (scanDouble (c :: cs)).2.1⟩,
        (scanDouble (c :: cs)).1)

/-- Extraction `iss >> x` for a `std::string` `x` holding `cur`: whitespace is
skipped, then the characters up to the next whitespace are stored. -/
def extractWord (st : IStream) (cur : List Char) : IStream × List Char :=
  if !st.good then ({ st with fail := true }, cur)
  else
    match st.rest.dropWhile isSpace with
    | [] => (⟨[], true, true⟩, cur)
    | c :: cs =>
      (⟨(c :: cs).dropWhile (fun x => !isSpace x),
          ((c :: cs).dropWhile (fun x => !isSpace x)).isEmpty, false⟩,
        (c :: cs).takeWhile (fun x => !isSpace x))

/-- The call `iss.ignore()`: one character is dropped; at the end of the text
`eofbit` is raised; a stream that is not good raises `failbit`. -/
def ignore (st : IStream) : IStream :=
  if !st.good then { st with fail := true }
  else
    match st.rest with
    | [] => { st with eof := true }
    | _ :: cs => { st with rest := cs }

/-- The call `getline(iss, x, delim)` for a string `x` holding `cur`: the
characters before the first `delim` are stored and `delim` is dropped; without
a `delim` the whole text is stored and `eofbit` raised, with `failbit` when
the text was empty. A stream that is not good raises `failbit` and leaves `x`. -/
def getlineUntil (st : IStream) (delim : Char) (cur : List Char) : IStream × List Char :=
  if !st.good then ({ st with fail := true }, cur)
  else
    match st.rest.dropWhile (fun x => x != delim) with
    | [] => (⟨[], true, st.rest.isEmpty⟩, st.rest)
    | _ :: cs => (⟨cs, false, false⟩, st.rest.takeWhile (fun x => x != delim))

/-! ## Encoding and decoding of the records -/

/-- The line `saveAccounts` (lines 212-219) writes for one account, without the
final newline. -/
def encodeAccount (acc : Account) : List Char :=
  renderInt acc.accountNumber ++ ' ' :: (acc.customerName.toList ++ '|' :: ' ' ::
    (renderDouble acc.balance ++ ' ' :: (renderDouble acc.interestRate ++ ' ' ::
      renderInt (if acc.isFrozen then 1 else 0))))

/-- The body of the loop of `loadAccounts` (lines 196-207) for one line: the
account pushed, `none` when nothing is pushed. `acc0` and `frozenInt0` are the
contents of the uninitialised locals `acc` and `frozenInt`. -/
def decodeAccountLine (acc0 : Account) (frozenInt0 : Int) (line : List Char) : Option Account :=
  let r1 := extractInt (IStream.ofLine line) acc0.accountNumber
  if r1.1.fail then none
  else
    let r2 := getlineUntil (ignore r1.1) '|' []
    let r3 := extractDouble r2.1 acc0.balance
    let r4 := extractDouble r3.1 acc0.interestRate
    let r5 := extractInt r4.1 frozenInt0
    some { accountNumber := r1.2, customerName := trim (String.mk r2.2), balance := r3.2,
           interestRate := r4.2, isFrozen := r5.2 == 1 }

/-- Source function `saveAccounts` (lines 212-219): one line per account. -/
def saveAccounts (accounts : List Account) : List (List Char) :=
  accounts.map encodeAccount

/-- Source function `loadAccounts` (lines 190-210) on the lines of the file. -/
def loadAccounts (acc0 : Account) (frozenInt0 : Int) (lines : List (List Char)) : List Account :=
  lines.filterMap (decodeAccountLine acc0 frozenInt0)

/-- The line `saveLoanBook` (lines 718-726) writes for one loan, without the
final newline. -/
def encodeLoan (loan : Loan) : List Char :=
  renderInt loan.loanID ++ ' ' :: (loan.customerName.toList ++ '|' :: ' ' ::
    (renderDouble loan.loanAmount ++ ' ' :: (renderDouble loan.interestRate ++ ' ' ::
      (renderInt loan.duration ++ ' ' :: renderDouble loan.remainingBalance))))

/-- The body of the loop of `loadLoanBook` (lines 704-714) for one line;
`loan0` is the content of the uninitialised local `loan`. -/
def decodeLoanLine (loan0 : Loan) (line : List Char) : Option Loan :=
  let r1 := extractInt (IStream.ofLine line) loan0.loanID
  if r1.1.fail then none
  else
    let r2 := getlineUntil (ignore r1.1) '|' []
    let r3 := extractDouble r2.1 loan0.loanAmount
    let r4 := extractDouble r3.1 loan0.interestRate
    let r5 := extractInt r4.1 loan0.duration
    let r6 := extractDouble r5.1 loan0.remainingBalance
    some { loanID := r1.2, customerName := trim (String.mk r2.2), loanAmount := r3.2,
           interestRate := r4.2, duration := r5.2, remainingBalance := r6.2 }

/-- Source function `saveLoanBook` (lines 718-726): one line per loan. -/
def saveLoanBook (loanBook : List Loan) : List (List Char) :=
  loanBook.map encodeLoan

/-- Source function `loadLoanBook` (lines 698-716) on the lines of the file. -/
def loadLoanBook (loan0 : Loan) (lines : List (List Char)) : List Loan :=
  lines.filterMap (decodeLoanLine loan0)

/-- The line `saveTransactions` (lines 670-677) writes for one entry, without
the final newline. -/
def encodeTransaction (t : Transaction) : List Char :=
  renderInt t.transactionID ++ ' ' :: (renderInt t.accountNumber ++ ' ' ::
    (t.dateTime.toList ++ '|' :: ' ' :: (t.type_.toList ++ ' ' ::
      (renderDouble t.amount ++ ' ' :: renderDouble t.balanceAfter))))

/-- The body of the loop of `loadTransactions` (lines 658-665) for one line;
`t0` gives the contents of the uninitialised numeric members of the local `t`
(its strings start empty). -/
def decodeTransactionLine (t0 : Transaction) (line : List Char) : Option Transaction :=
  let r1 := extractInt (IStream.ofLine line) t0.transactionID
  let r2 := extractInt r1.1 t0.accountNumber
  if r2.1.fail then none
  else
    let r3 := getlineUntil (ignore r2.1) '|' []
    let r4 := extractWord r3.1 []
    let r5 := extractDouble r4.1 t0.amount
    let r6 := extractDouble r5.1 t0.balanceAfter
    some { transactionID := r1.2, accountNumber := r2.2, dateTime := String.mk r3.2,
           type_ := String.mk r4.2, amount := r5.2, balanceAfter := r6.2 }

/-- Source function `saveTransactions` (lines 670-677): one line per entry. -/
def saveTransactions (transactions : List Transaction) : List (List Char) :=
  transactions.map encodeTransaction

/-- Source function `loadTransactions` (lines 652-668) on the lines of the file. -/
def loadTransactions (t0 : Transaction) (lines : List (List Char)) : List Transaction :=
  lines.filterMap (decodeTransactionLine t0)

/-- The text of a backing file: every line followed by a newline, as the
`save` functions write it. -/
def fileText : List (List Char) → List Char
  | [] => []
  | line :: lines => line ++ '\n' :: fileText lines

/-- The lines the loop `while (getline(inFile, line))` reads from a text, with
`cur` the characters of the current line read so far, last first. -/
def fileLinesAux (cur : List Char) : List Char → List (List Char)
  | [] => if cur = [] then [] else [cur.reverse]
  | c :: cs => if c = '\n' then cur.reverse :: fileLinesAux [] cs else fileLinesAux (c :: cur) cs

/-- The lines the loop `while (getline(inFile, line))` reads from a text. -/
def fileLines (text : List Char) : List (List Char) := fileLinesAux [] text

/-- The scenario ledger with a log that already holds two entries of account
101 and 102. -/
def loggedBank : Bank := ⟨[alice, bob], [], sampleLog⟩

/-- An account holding 1. -/
def payer : Account := ⟨201, "Dora", 1, 0, false⟩

/-- An account holding `2 ^ 53`; from there on the doubles are 2 apart. -/
def holder : Account := ⟨202, "Eli", 9007199254740992, 0, false⟩

/-- A ledger of the two accounts `payer` and `holder`. -/
def roundingBank : Bank := ⟨[payer, holder], [], []⟩

/-- An account holding `2 ^ 53 + 2`, the double next above `2 ^ 53`. -/
def holderAbove : Account := ⟨203, "Fay", 9007199254740994, 0, false⟩

/-- A ledger of the two accounts `payer` and `holderAbove`. -/
def roundingBankAbove : Bank := ⟨[payer, holderAbove], [], []⟩

/-- A loan with `2 ^ 53 + 2` remaining. -/
def largeLoan : Loan := ⟨2, "Eli", 9007199254740994, 10, 12, 9007199254740994⟩

/-- A loan book of the scenario loan and `largeLoan`. -/
def roundingLoans : Bank := ⟨[], [bobLoan, largeLoan], []⟩

/-- A loan with 300 remaining of 500. -/
def eveLoan : Loan := ⟨2, "Eve", 500, 4, 6, 300⟩

/-- A loan with the ID of `eveLoan`, as a loan file can hold. -/
def fayLoan : Loan := ⟨2, "Fay", 700, 4, 6, 700⟩

/-- A loan book of three loans, the last two with the same ID. -/
def threeLoans : Bank := ⟨[], [bobLoan, eveLoan, fayLoan], []⟩

/-! ## Facts about the helpers -/

theorem length_modifyAt {α : Type} (f : α → α) (l : List α) (i : Nat) :
    (modifyAt f l i).length = l.length := by
  induction l generalizing i with
  | nil => rfl
  | cons x xs ih => cases i <;> simp [modifyAt, ih]

theorem getElem?_modifyAt {α : Type} (f : α → α) (l : List α) (i j : Nat) :
    (modifyAt f l i)[j]? = if i = j then l[j]?.map f else l[j]? := by
  induction l generalizing i j with
  | nil => simp [modifyAt]
  | cons x xs ih =>
    cases i with
    | zero => cases j <;> simp [modifyAt]
    | succ i => cases j <;> simp [modifyAt, ih]

theorem findAccountIndexByNumber_some {accounts : List Account} {n : Int} {i : Nat}
    (h : findAccountIndexByNumber accounts n = some i) :
    ∃ acc, accounts[i]? = some acc ∧ acc.accountNumber = n := by
  induction accounts generalizing i with
  | nil => simp [findAccountIndexByNumber] at h
  | cons a rest ih =>
    simp only [findAccountIndexByNumber] at h
    split at h
    · cases h; exact ⟨a, by simp, by assumption⟩
    · cases hr : findAccountIndexByNumber rest n with
      | none => simp [hr] at h
      | some k =>
        simp [hr] at h
        subst h
        simpa using ih hr

theorem findAccountIndexByNumber_modifyAt (f : Account → Account)
    (hf : ∀ a, (f a).accountNumber = a.accountNumber) (accounts : List Account) (i : Nat)
    (n : Int) :
    findAccountIndexByNumber (modifyAt f accounts i) n = findAccountIndexByNumber accounts n := by
  induction accounts generalizing i with
  | nil => rfl
  | cons a rest ih => cases i <;> simp [modifyAt, findAccountIndexByNumber, hf, ih]

theorem balanceAt_modifyAt (f : Account → Account) (accounts : List Account) (i j : Nat) :
    balanceAt (modifyAt f accounts i) j =
      if i = j then (match accounts[j]? with | some a => (f a).balance | none => 0)
      else balanceAt accounts j := by
  unfold balanceAt
  rw [getElem?_modifyAt]
  split_ifs <;> cases accounts[j]? <;> rfl

theorem findAccountIndexByNumber_addToBalance (amount : ℚ) (accounts : List Account)
    (i : Nat) (n : Int) :
    findAccountIndexByNumber (modifyAt (addToBalance amount) accounts i) n =
      findAccountIndexByNumber accounts n :=
  findAccountIndexByNumber_modifyAt (addToBalance amount) (fun _ => rfl) accounts i n

theorem findAccountIndexByNumber_subFromBalance (amount : ℚ) (accounts : List Account)
    (i : Nat) (n : Int) :
    findAccountIndexByNumber (modifyAt (subFromBalance amount) accounts i) n =
      findAccountIndexByNumber accounts n :=
  findAccountIndexByNumber_modifyAt (subFromBalance amount) (fun _ => rfl) accounts i n

theorem findLoanByID_some {loanBook : List Loan} {id : Int} {i : Nat}
    (h : findLoanByID loanBook id = some i) :
    ∃ loan, loanBook[i]? = some loan ∧ loan.loanID = id := by
  induction loanBook generalizing i with
  | nil => simp [findLoanByID] at h
  | cons l rest ih =>
    simp only [findLoanByID] at h
    split at h
    · cases h; exact ⟨l, by simp, by assumption⟩
    · cases hr : findLoanByID rest id with
      | none => simp [hr] at h
      | some k =>
        simp [hr] at h
        subst h
        simpa using ih hr

/-- Updating the element at `i` in place is `List.set` with the updated element. -/
theorem modifyAt_eq_set {α : Type} (f : α → α) (l : List α) (i : Nat) (x : α)
    (h : l[i]? = some x) : modifyAt f l i = l.set i (f x) := by
  induction l generalizing i with
  | nil => simp at h
  | cons y ys ih =>
    cases i with
    | zero => simp at h; subst h; rfl
    | succ i => simp at h; simp [modifyAt, ih i h]

theorem isFrozenAt_eq {accounts : List Account} {i : Nat} {acc : Account}
    (h : accounts[i]? = some acc) : isFrozenAt accounts i = acc.isFrozen := by
  simp [isFrozenAt, h]

theorem balanceAt_eq {accounts : List Account} {i : Nat} {acc : Account}
    (h : accounts[i]? = some acc) : balanceAt accounts i = acc.balance := by
  simp [balanceAt, h]

theorem remainingBalanceAt_eq {loanBook : List Loan} {i : Nat} {loan : Loan}
    (h : loanBook[i]? = some loan) : remainingBalanceAt loanBook i = loan.remainingBalance := by
  simp [remainingBalanceAt, h]

/-- What a successful `transferFunds` did: both lookups found an account,
neither was frozen, the amount passed both guards, and the new state is the
debit followed by the credit with the two log entries appended. -/
theorem transferFunds_success_inv {s s1 : Bank} {a b : Int} {amount : ℚ} {now1 now2 : String}
    (hok : transferFunds s a b amount now1 now2 = (Outcome.success, s1)) :
    ∃ i j, findAccountIndexByNumber s.accounts a = some i ∧
      findAccountIndexByNumber s.accounts b = some j ∧
      isFrozenAt s.accounts i = false ∧ isFrozenAt s.accounts j = false ∧
      0 < amount ∧ amount ≤ balanceAt s.accounts i ∧
      s1.accounts =
        modifyAt (addToBalance amount) (modifyAt (subFromBalance amount) s.accounts i) j ∧
      s1.loanBook = s.loanBook := by
  unfold transferFunds at hok
  cases hi : findAccountIndexByNumber s.accounts a with
  | none => simp [hi] at hok
  | some i =>
    cases hj : findAccountIndexByNumber s.accounts b with
    | none =>
      simp only [hi, hj] at hok
      split_ifs at hok <;> simp at hok
    | some j =>
      simp only [hi, hj] at hok
      split_ifs at hok with h1 h2 h3 h4 <;> try (simp at hok; done)
      simp only [Prod.mk.injEq, true_and] at hok
      subst hok
      exact ⟨i, j, rfl, rfl, by simpa using h1, by simpa using h2, not_le.mp h3,
        not_lt.mp h4, rfl, rfl⟩

/-- The lookup finds a number that is present: when the account at position `i` has the
number and no account before it has, `findAccountIndexByNumber` returns `i`. -/
theorem findAccountIndexByNumber_first {accounts : List Account} {n : Int} {i : Nat}
    {acc : Account} (hacc : accounts[i]? = some acc) (hn : acc.accountNumber = n)
    (hfirst : ∀ a ∈ accounts.take i, a.accountNumber ≠ n) :
    findAccountIndexByNumber accounts n = some i := by
  induction accounts generalizing i with
  | nil => simp at hacc
  | cons x xs ih =>
    cases i with
    | zero =>
      simp only [List.getElem?_cons_zero, Option.some.injEq] at hacc
      subst hacc
      simp [findAccountIndexByNumber, hn]
    | succ i =>
      have hx : x.accountNumber ≠ n := hfirst x (by simp)
      have hrest : findAccountIndexByNumber xs n = some i :=
        ih (by simpa using hacc) (fun a ha => hfirst a (by simp [ha]))
      simp [findAccountIndexByNumber, hx, hrest]

/-- A number that some account of the list has is the number of a first such account. -/
theorem exists_first_account {accounts : List Account} {n : Int}
    (h : ∃ a ∈ accounts, a.accountNumber = n) :
    ∃ (i : Nat) (acc : Account), accounts[i]? = some acc ∧ acc.accountNumber = n ∧
      ∀ a ∈ accounts.take i, a.accountNumber ≠ n := by
  induction accounts with
  | nil => simp at h
  | cons x xs ih =>
    by_cases hx : x.accountNumber = n
    · exact ⟨0, x, by simp, hx, by simp⟩
    · have hrest : ∃ a ∈ xs, a.accountNumber = n := by
        obtain ⟨a, ha, han⟩ := h
        rcases List.mem_cons.mp ha with rfl | ha
        · exact absurd han hx
        · exact ⟨a, ha, han⟩
      obtain ⟨i, acc, hacc, hn, hfirst⟩ := ih hrest
      refine ⟨i + 1, acc, by simpa using hacc, hn, ?_⟩
      intro a ha
      simp only [List.take_succ_cons, List.mem_cons] at ha
      rcases ha with rfl | ha
      · exact hx
      · exact hfirst a ha

/-- The lookup returns `-1` exactly for the numbers no account has. -/
theorem findAccountIndexByNumber_eq_none_iff (accounts : List Account) (n : Int) :
    findAccountIndexByNumber accounts n = none ↔ ∀ a ∈ accounts, a.accountNumber ≠ n := by
  constructor
  · intro hnone a ha han
    obtain ⟨i, acc, hacc, hn, hfirst⟩ := exists_first_account ⟨a, ha, han⟩
    rw [findAccountIndexByNumber_first hacc hn hfirst] at hnone
    cases hnone
  · intro hall
    cases hfind : findAccountIndexByNumber accounts n with
    | none => rfl
    | some i =>
      obtain ⟨acc, hacc, hn⟩ := findAccountIndexByNumber_some hfind
      exact absurd hn (hall acc (List.getElem?_mem hacc))

/-- The lookup finds an ID that is present: when the loan at position `i` has the ID and no
loan before it has, `findLoanByID` returns `i`. -/
theorem findLoanByID_first {loanBook : List Loan} {id : Int} {i : Nat} {loan : Loan}
    (hloan : loanBook[i]? = some loan) (hid : loan.loanID = id)
    (hfirst : ∀ l ∈ loanBook.take i, l.loanID ≠ id) :
    findLoanByID loanBook id = some i := by
  induction loanBook generalizing i with
  | nil => simp at hloan
  | cons x xs ih =>
    cases i with
    | zero =>
      simp only [List.getElem?_cons_zero, Option.some.injEq] at hloan
      subst hloan
      simp [findLoanByID, hid]
    | succ i =>
      have hx : x.loanID ≠ id := hfirst x (by simp)
      have hrest : findLoanByID xs id = some i :=
        ih (by simpa using hloan) (fun l hl => hfirst l (by simp [hl]))
      simp [findLoanByID, hx, hrest]

/-- An ID that some loan of the book has is the ID of a first such loan. -/
theorem exists_first_loan {loanBook : List Loan} {id : Int}
    (h : ∃ l ∈ loanBook, l.loanID = id) :
    ∃ (i : Nat) (loan : Loan), loanBook[i]? = some loan ∧ loan.loanID = id ∧
      ∀ l ∈ loanBook.take i, l.loanID ≠ id := by
  induction loanBook with
  | nil => simp at h
  | cons x xs ih =>
    by_cases hx : x.loanID = id
    · exact ⟨0, x, by simp, hx, by simp⟩
    · have hrest : ∃ l ∈ xs, l.loanID = id := by
        obtain ⟨l, hl, hlid⟩ := h
        rcases List.mem_cons.mp hl with rfl | hl
        · exact absurd hlid hx
        · exact ⟨l, hl, hlid⟩
      obtain ⟨i, loan, hloan, hid, hfirst⟩ := ih hrest
      refine ⟨i + 1, loan, by simpa using hloan, hid, ?_⟩
      intro l hl
      simp only [List.take_succ_cons, List.mem_cons] at hl
      rcases hl with rfl | hl
      · exact hx
      · exact hfirst l hl

/-- The lookup returns `nullptr` exactly for the IDs no loan has. -/
theorem findLoanByID_eq_none_iff (loanBook : List Loan) (id : Int) :
    findLoanByID loanBook id = none ↔ ∀ l ∈ loanBook, l.loanID ≠ id := by
  constructor
  · intro hnone l hl hlid
    obtain ⟨i, loan, hloan, hid, hfirst⟩ := exists_first_loan ⟨l, hl, hlid⟩
    rw [findLoanByID_first hloan hid hfirst] at hnone
    cases hnone
  · intro hall
    cases hfind : findLoanByID loanBook id with
    | none => rfl
    | some i =>
      obtain ⟨loan, hloan, hid⟩ := findLoanByID_some hfind
      exact absurd hid (hall loan (List.getElem?_mem hloan))

/-! ## Rounding to binary64 -/

/-- For a positive denominator `roundHalfEven n d` is the integer nearest to `n / d`, ties to
even. -/
theorem roundHalfEven_nearest (n d : Nat) (hd : 0 < d) :
    NearestEven (roundHalfEven n d) ((n : ℚ) / d) := by
  have hdq : (0 : ℚ) < d := by exact_mod_cast hd
  have hn : n = d * (n / d) + n % d := (Nat.div_add_mod n d).symm
  have hr : n % d < d := Nat.mod_lt n hd
  have hnq : (n : ℚ) / d = (n / d : ℕ) + (n % d : ℕ) / d := by
    field_simp
    have : (n : ℚ) = (d : ℚ) * (n / d : ℕ) + (n % d : ℕ) := by exact_mod_cast hn
    linarith
  have hrq : ((n % d : ℕ) : ℚ) / d < 1 := by
    rw [div_lt_one hdq]; exact_mod_cast hr
  have hr0 : (0 : ℚ) ≤ ((n % d : ℕ) : ℚ) / d := by positivity
  unfold NearestEven roundHalfEven
  rw [hnq]
  split_ifs with h1 h2 h3
  · -- below the half
    have hlt : ((n % d : ℕ) : ℚ) / d < 1 / 2 := by
      rw [div_lt_iff₀ hdq]
      have : 2 * ((n % d : ℕ) : ℚ) < d := by exact_mod_cast h1
      linarith
    refine ⟨by linarith, by linarith, fun h => ?_, fun h => ?_⟩ <;> linarith
  · have hgt : 1 / 2 < ((n % d : ℕ) : ℚ) / d := by
      rw [lt_div_iff₀ hdq]
      have : (d : ℚ) < 2 * ((n % d : ℕ) : ℚ) := by exact_mod_cast h2
      linarith
    push_cast
    refine ⟨by linarith, by linarith, fun h => ?_, fun h => ?_⟩ <;> linarith
  · have heq : ((n % d : ℕ) : ℚ) / d = 1 / 2 := by
      rw [div_eq_iff hdq.ne']
      have : 2 * (n % d) = d := by omega
      have : 2 * ((n % d : ℕ) : ℚ) = d := by exact_mod_cast this
      linarith
    refine ⟨by linarith, by linarith, fun _ => h3, fun _ => h3⟩
  · have heq : ((n % d : ℕ) : ℚ) / d = 1 / 2 := by
      rw [div_eq_iff hdq.ne']
      have : 2 * (n % d) = d := by omega
      have : 2 * ((n % d : ℕ) : ℚ) = d := by exact_mod_cast this
      linarith
    push_cast
    refine ⟨by linarith, by linarith, fun _ => by omega, fun _ => by omega⟩

/-- Rounding to the nearest integer, ties to even, is monotone. -/
theorem nearestEven_mono {r1 r2 : Nat} {t1 t2 : ℚ} (h1 : NearestEven r1 t1)
    (h2 : NearestEven r2 t2) (h : t1 ≤ t2) : r1 ≤ r2 := by
  by_contra hlt
  have hlt1 : r2 + 1 ≤ r1 := by omega
  have hq : (r2 : ℚ) + 1 ≤ r1 := by exact_mod_cast hlt1
  obtain ⟨a1, -, a3, -⟩ := h1
  obtain ⟨-, b2, -, b4⟩ := h2
  have e1 : (r1 : ℚ) = t1 + 1 / 2 := by linarith
  have e2 : t2 = (r2 : ℚ) + 1 / 2 := by linarith
  have p1 := a3 e1
  have p2 := b4 e2
  have e3 : (r1 : ℚ) = r2 + 1 := by linarith
  have : r1 = r2 + 1 := by exact_mod_cast e3
  omega

/-- A natural number is the integer nearest to itself. -/
theorem nearestEven_self (k : Nat) : NearestEven k (k : ℚ) := by
  unfold NearestEven
  refine ⟨by linarith, by linarith, fun h => ?_, fun h => ?_⟩ <;> linarith

/-- With enough fuel the bit length brackets the number: `2 ^ (l - 1) ≤ n < 2 ^ l`. -/
theorem bitLengthAux_spec (fuel n : Nat) (hn : 0 < n) (hfuel : n ≤ fuel) :
    1 ≤ bitLengthAux fuel n ∧ 2 ^ (bitLengthAux fuel n - 1) ≤ n ∧ n < 2 ^ bitLengthAux fuel n := by
  induction fuel generalizing n with
  | zero => omega
  | succ fuel ih =>
    simp only [bitLengthAux, Nat.ne_of_gt hn, if_false]
    by_cases h2 : n / 2 = 0
    · have h1 : n = 1 := by omega
      have hz : bitLengthAux fuel 0 = 0 := by cases fuel <;> simp [bitLengthAux]
      rw [h2, hz, h1]
      simp
    · obtain ⟨i1, i2, i3⟩ := ih (n / 2) (by omega) (by omega)
      refine ⟨by omega, ?_, ?_⟩
      · have : bitLengthAux fuel (n / 2) + 1 - 1 = (bitLengthAux fuel (n / 2) - 1) + 1 := by omega
        rw [this, pow_succ]
        omega
      · rw [pow_succ]
        omega

/-- The bit length of a positive number brackets it: `2 ^ (l - 1) ≤ n < 2 ^ l`. -/
theorem bitLength_spec (n : Nat) (hn : 0 < n) :
    1 ≤ bitLength n ∧ 2 ^ (bitLength n - 1) ≤ n ∧ n < 2 ^ bitLength n :=
  bitLengthAux_spec n n hn (le_refl n)

/-- The binary exponent brackets the quotient: `2 ^ e ≤ num / den < 2 ^ (e + 1)`. -/
theorem binaryExponent_spec {num den : Nat} (hnum : 0 < num) (hden : 0 < den) :
    (2 : ℚ) ^ binaryExponent num den ≤ (num : ℚ) / den ∧
      (num : ℚ) / den < (2 : ℚ) ^ (binaryExponent num den + 1) := by
  obtain ⟨a1, a2, a3⟩ := bitLength_spec num hnum
  obtain ⟨b1, b2, b3⟩ := bitLength_spec den hden
  have hdq : (0 : ℚ) < den := by exact_mod_cast hden
  have hnq : (0 : ℚ) < num := by exact_mod_cast hnum
  have two : (0 : ℚ) < 2 := by norm_num
  -- the bit lengths bracket the two numbers
  have A2 : (2 : ℚ) ^ ((bitLength num : ℤ) - 1) ≤ num := by
    have : ((bitLength num : ℤ) - 1) = ((bitLength num - 1 : ℕ) : ℤ) := by omega
    rw [this, zpow_natCast]
    exact_mod_cast a2
  have A3 : (num : ℚ) < (2 : ℚ) ^ (bitLength num : ℤ) := by
    rw [zpow_natCast]
    exact_mod_cast a3
  have B2 : (2 : ℚ) ^ ((bitLength den : ℤ) - 1) ≤ den := by
    have : ((bitLength den : ℤ) - 1) = ((bitLength den - 1 : ℕ) : ℤ) := by omega
    rw [this, zpow_natCast]
    exact_mod_cast b2
  have B3 : (den : ℚ) < (2 : ℚ) ^ (bitLength den : ℤ) := by
    rw [zpow_natCast]
    exact_mod_cast b3
  -- the difference of the bit lengths is the exponent or one above it
  have hlow : (2 : ℚ) ^ ((bitLength num : ℤ) - bitLength den - 1) ≤ (num : ℚ) / den := by
    rw [le_div_iff₀ hdq]
    calc (2 : ℚ) ^ ((bitLength num : ℤ) - bitLength den - 1) * den
        ≤ (2 : ℚ) ^ ((bitLength num : ℤ) - bitLength den - 1) * (2 : ℚ) ^ (bitLength den : ℤ) :=
          mul_le_mul_of_nonneg_left B3.le (by positivity)
      _ = (2 : ℚ) ^ ((bitLength num : ℤ) - 1) := by
          rw [← zpow_add₀ two.ne']; congr 1; ring
      _ ≤ num := A2
  have hhigh : (num : ℚ) / den < (2 : ℚ) ^ ((bitLength num : ℤ) - bitLength den + 1) := by
    rw [div_lt_iff₀ hdq]
    calc (num : ℚ) < (2 : ℚ) ^ (bitLength num : ℤ) := A3
      _ = (2 : ℚ) ^ ((bitLength num : ℤ) - bitLength den + 1) *
            (2 : ℚ) ^ ((bitLength den : ℤ) - 1) := by
          rw [← zpow_add₀ two.ne']; congr 1; ring
      _ ≤ (2 : ℚ) ^ ((bitLength num : ℤ) - bitLength den + 1) * den :=
          mul_le_mul_of_nonneg_left B2 (by positivity)
  -- the test decides between the two
  have htest : (if bitLength den ≤ bitLength num
      then den * 2 ^ (bitLength num - bitLength den) ≤ num
      else den ≤ num * 2 ^ (bitLength den - bitLength num)) ↔
      (2 : ℚ) ^ ((bitLength num : ℤ) - bitLength den) ≤ (num : ℚ) / den := by
    split_ifs with hle
    · have : ((bitLength num : ℤ) - bitLength den) = ((bitLength num - bitLength den : ℕ) : ℤ) := by
        omega
      rw [this, zpow_natCast, le_div_iff₀ hdq]
      constructor
      · intro h
        have : ((den * 2 ^ (bitLength num - bitLength den) : ℕ) : ℚ) ≤ num := by exact_mod_cast h
        push_cast at this
        linarith
      · intro h
        have : ((den * 2 ^ (bitLength num - bitLength den) : ℕ) : ℚ) ≤ num := by
          push_cast; linarith
        exact_mod_cast this
    · have : ((bitLength num : ℤ) - bitLength den) = -((bitLength den - bitLength num : ℕ) : ℤ) := by
        omega
      rw [this, zpow_neg, zpow_natCast, le_div_iff₀ hdq, inv_mul_le_iff₀ (by positivity)]
      constructor
      · intro h
        have : ((den : ℕ) : ℚ) ≤ ((num * 2 ^ (bitLength den - bitLength num) : ℕ) : ℚ) := by
          exact_mod_cast h
        push_cast at this
        linarith
      · intro h
        have : ((den : ℕ) : ℚ) ≤ ((num * 2 ^ (bitLength den - bitLength num) : ℕ) : ℚ) := by
          push_cast; linarith
        exact_mod_cast this
  unfold binaryExponent
  by_cases ht : (if bitLength den ≤ bitLength num
      then den * 2 ^ (bitLength num - bitLength den) ≤ num
      else den ≤ num * 2 ^ (bitLength den - bitLength num))
  · rw [if_pos ht]
    exact ⟨htest.mp ht, hhigh⟩
  · rw [if_neg ht]
    refine ⟨hlow, ?_⟩
    have : ((bitLength num : ℤ) - bitLength den - 1 + 1) = (bitLength num : ℤ) - bitLength den := by
      ring
    rw [this]
    exact not_le.mp (fun h => ht (htest.mpr h))

/-- A positive rational is the quotient of the two numbers `roundDouble` works on. -/
theorem rat_eq_natAbs_div {q : ℚ} (hq : 0 < q) :
    0 < q.num.natAbs ∧ q = (q.num.natAbs : ℚ) / q.den := by
  have hnum : 0 < q.num := Rat.num_pos.mpr hq
  refine ⟨Int.natAbs_pos.mpr hnum.ne', ?_⟩
  have h1 : (q.num.natAbs : ℤ) = q.num := Int.natAbs_of_nonneg hnum.le
  have h2 : (q.num.natAbs : ℚ) = q.num := by
    rw [← Int.cast_natCast, h1]
  rw [h2]
  exact (Rat.num_div_den q).symm

/-- The exponent of the binade of a positive `q` is at least -1022, with
`q < 2 ^ (e + 1)`, and `2 ^ e ≤ q` when `e` is above -1022. -/
theorem doubleExponent_spec {q : ℚ} (hq : 0 < q) :
    -1022 ≤ doubleExponent q ∧ q < (2 : ℚ) ^ (doubleExponent q + 1) ∧
      (-1022 < doubleExponent q → (2 : ℚ) ^ doubleExponent q ≤ q) := by
  obtain ⟨hn, hqe⟩ := rat_eq_natAbs_div hq
  obtain ⟨s1, s2⟩ := binaryExponent_spec hn q.den_pos
  rw [← hqe] at s1 s2
  unfold doubleExponent
  refine ⟨le_max_right _ _, ?_, ?_⟩
  · calc q < (2 : ℚ) ^ (binaryExponent q.num.natAbs q.den + 1) := s2
      _ ≤ (2 : ℚ) ^ (max (binaryExponent q.num.natAbs q.den) (-1022) + 1) :=
        zpow_le_zpow_right₀ (by norm_num) (by have := le_max_left (binaryExponent q.num.natAbs q.den) (-1022); omega)
  · intro h
    have : max (binaryExponent q.num.natAbs q.den) (-1022) = binaryExponent q.num.natAbs q.den := by
      rcases max_cases (binaryExponent q.num.natAbs q.den) (-1022) with ⟨h1, -⟩ | ⟨h1, -⟩
      · exact h1
      · rw [h1] at h; omega
    rw [this]
    exact s1

/-- The exponent of the binade is monotone on the positive rationals. -/
theorem doubleExponent_mono {x y : ℚ} (hx : 0 < x) (hxy : x ≤ y) :
    doubleExponent x ≤ doubleExponent y := by
  obtain ⟨x1, x2, x3⟩ := doubleExponent_spec hx
  obtain ⟨y1, y2, y3⟩ := doubleExponent_spec (lt_of_lt_of_le hx hxy)
  by_contra hlt
  have hlt1 : doubleExponent y + 1 ≤ doubleExponent x := by omega
  have h1 : (2 : ℚ) ^ doubleExponent x ≤ x := x3 (by omega)
  have h2 : (2 : ℚ) ^ (doubleExponent y + 1) ≤ (2 : ℚ) ^ doubleExponent x :=
    zpow_le_zpow_right₀ (by norm_num) hlt1
  linarith

/-- For a positive `q` with exponent `e`, `roundDouble q` is `r * 2 ^ (e - 52)` for the integer
`r` nearest to `q / 2 ^ (e - 52)`, ties to even. -/
theorem roundDouble_pos {q : ℚ} (hq : 0 < q) :
    ∃ r : ℕ, NearestEven r (q / (2 : ℚ) ^ (doubleExponent q - 52)) ∧
      roundDouble q = (r : ℚ) * (2 : ℚ) ^ (doubleExponent q - 52) := by
  obtain ⟨hn, hqe⟩ := rat_eq_natAbs_div hq
  have hdq : (0 : ℚ) < q.den := by exact_mod_cast q.den_pos
  unfold roundDouble
  rw [if_neg hq.ne', if_neg (not_lt.mpr hq.le)]
  split_ifs with h52
  · have hz : (2 : ℚ) ^ (doubleExponent q - 52) = (2 : ℚ) ^ (doubleExponent q - 52).toNat := by
      rw [← zpow_natCast]; congr 1; omega
    rw [hz]
    refine ⟨roundHalfEven q.num.natAbs (q.den * 2 ^ (doubleExponent q - 52).toNat), ?_, rfl⟩
    have hnear := roundHalfEven_nearest q.num.natAbs
      (q.den * 2 ^ (doubleExponent q - 52).toNat) (by positivity)
    have : ((q.num.natAbs : ℚ) / ((q.den * 2 ^ (doubleExponent q - 52).toNat : ℕ) : ℚ)) =
        q / (2 : ℚ) ^ (doubleExponent q - 52).toNat := by
      push_cast
      rw [← div_div, ← hqe]
    rw [this] at hnear
    exact hnear
  · have hz : (2 : ℚ) ^ (doubleExponent q - 52) =
        ((2 : ℚ) ^ (52 - doubleExponent q).toNat)⁻¹ := by
      rw [← zpow_natCast, ← zpow_neg]; congr 1; omega
    rw [hz]
    refine ⟨roundHalfEven (q.num.natAbs * 2 ^ (52 - doubleExponent q).toNat) q.den, ?_, ?_⟩
    · have hnear := roundHalfEven_nearest (q.num.natAbs * 2 ^ (52 - doubleExponent q).toNat)
        q.den q.den_pos
      have : (((q.num.natAbs * 2 ^ (52 - doubleExponent q).toNat : ℕ) : ℚ) / (q.den : ℚ)) =
          q / ((2 : ℚ) ^ (52 - doubleExponent q).toNat)⁻¹ := by
        push_cast
        rw [div_inv_eq_mul, mul_div_right_comm, ← hqe]
      rw [this] at hnear
      exact hnear
    · rw [div_eq_mul_inv]

/-- Rounding keeps 0. -/
theorem roundDouble_zero : roundDouble 0 = 0 := by
  simp [roundDouble]

/-- The exponent of the binade does not depend on the sign. -/
theorem doubleExponent_neg (q : ℚ) : doubleExponent (-q) = doubleExponent q := by
  simp [doubleExponent]

/-- Rounding is odd: it commutes with the change of sign. -/
theorem roundDouble_neg (q : ℚ) : roundDouble (-q) = -roundDouble q := by
  rcases lt_trichotomy q 0 with h | h | h
  · have h1 : ¬ -q < 0 := by simp; exact h.le
    simp only [roundDouble, neg_eq_zero, h.ne, if_false, h, if_true, h1, doubleExponent_neg,
      Rat.neg_num, Int.natAbs_neg, Rat.neg_den, neg_neg]
  · subst h; simp [roundDouble_zero]
  · have h1 : -q < 0 := by simpa using h
    have h2 : ¬ q < 0 := not_lt.mpr h.le
    simp only [roundDouble, neg_eq_zero, h.ne', if_false, h1, if_true, h2, doubleExponent_neg,
      Rat.neg_num, Int.natAbs_neg, Rat.neg_den]

/-- Rounding keeps the sign. -/
theorem roundDouble_nonneg {q : ℚ} (hq : 0 ≤ q) : 0 ≤ roundDouble q := by
  rcases hq.eq_or_lt with h | h
  · subst h; rw [roundDouble_zero]
  · obtain ⟨r, -, hr⟩ := roundDouble_pos h
    rw [hr]
    positivity

/-- Rounding is monotone on the positive rationals. -/
theorem roundDouble_mono_pos {x y : ℚ} (hx : 0 < x) (hxy : x ≤ y) :
    roundDouble x ≤ roundDouble y := by
  have hy : 0 < y := lt_of_lt_of_le hx hxy
  obtain ⟨rx, nx, ex⟩ := roundDouble_pos hx
  obtain ⟨ry, ny, ey⟩ := roundDouble_pos hy
  obtain ⟨x1, x2, x3⟩ := doubleExponent_spec hx
  obtain ⟨y1, y2, y3⟩ := doubleExponent_spec hy
  have hmono := doubleExponent_mono hx hxy
  have two : (0 : ℚ) < 2 := by norm_num
  have hux : (0 : ℚ) < (2 : ℚ) ^ (doubleExponent x - 52) := by positivity
  have huy : (0 : ℚ) < (2 : ℚ) ^ (doubleExponent y - 52) := by positivity
  rw [ex, ey]
  rcases hmono.eq_or_lt with heq | hlt
  · rw [heq] at nx ⊢
    have : rx ≤ ry := nearestEven_mono nx ny (div_le_div_of_nonneg_right hxy huy.le)
    have : (rx : ℚ) ≤ ry := by exact_mod_cast this
    exact mul_le_mul_of_nonneg_right this huy.le
  · -- `x` lies in a lower binade than `y`
    have hrx : rx ≤ 2 ^ 53 := by
      apply nearestEven_mono nx (nearestEven_self (2 ^ 53))
      rw [div_le_iff₀ hux, show ((2 ^ 53 : ℕ) : ℚ) = (2 : ℚ) ^ 53 by norm_num]
      have : (2 : ℚ) ^ 53 * (2 : ℚ) ^ (doubleExponent x - 52) = (2 : ℚ) ^ (doubleExponent x + 1) := by
        rw [← zpow_natCast, ← zpow_add₀ two.ne']; congr 1; push_cast; ring
      rw [this]
      exact x2.le
    have hry : 2 ^ 52 ≤ ry := by
      apply nearestEven_mono (nearestEven_self (2 ^ 52)) ny
      rw [le_div_iff₀ huy, show ((2 ^ 52 : ℕ) : ℚ) = (2 : ℚ) ^ 52 by norm_num]
      have : (2 : ℚ) ^ 52 * (2 : ℚ) ^ (doubleExponent y - 52) = (2 : ℚ) ^ doubleExponent y := by
        rw [← zpow_natCast, ← zpow_add₀ two.ne']; congr 1; push_cast; ring
      rw [this]
      exact y3 (by omega)
    have hrxq : (rx : ℚ) ≤ (2 : ℚ) ^ 53 := by exact_mod_cast hrx
    have hryq : (2 : ℚ) ^ 52 ≤ (ry : ℚ) := by exact_mod_cast hry
    calc (rx : ℚ) * (2 : ℚ) ^ (doubleExponent x - 52)
        ≤ (2 : ℚ) ^ 53 * (2 : ℚ) ^ (doubleExponent x - 52) :=
          mul_le_mul_of_nonneg_right hrxq hux.le
      _ = (2 : ℚ) ^ (doubleExponent x + 1) := by
          rw [← zpow_natCast, ← zpow_add₀ two.ne']; congr 1; push_cast; ring
      _ ≤ (2 : ℚ) ^ doubleExponent y := zpow_le_zpow_right₀ (by norm_num) (by omega)
      _ = (2 : ℚ) ^ 52 * (2 : ℚ) ^ (doubleExponent y - 52) := by
          rw [← zpow_natCast, ← zpow_add₀ two.ne']; congr 1; push_cast; ring
      _ ≤ (ry : ℚ) * (2 : ℚ) ^ (doubleExponent y - 52) :=
          mul_le_mul_of_nonneg_right hryq huy.le

/-- Rounding to the nearest double is monotone. -/
theorem roundDouble_mono {x y : ℚ} (hxy : x ≤ y) : roundDouble x ≤ roundDouble y := by
  rcases lt_or_le 0 x with hx | hx
  · exact roundDouble_mono_pos hx hxy
  · rcases lt_or_le y 0 with hy | hy
    · have h := roundDouble_mono_pos (x := -y) (y := -x) (by linarith) (by linarith)
      rw [roundDouble_neg, roundDouble_neg] at h
      linarith
    · have h1 : roundDouble x ≤ 0 := by
        have := roundDouble_nonneg (q := -x) (by linarith)
        rw [roundDouble_neg] at this
        linarith
      exact le_trans h1 (roundDouble_nonneg hy)

/-- No natural number is nearer to `t` than the integer nearest to `t`. -/
theorem nearestEven_dist {r : Nat} {t : ℚ} (h : NearestEven r t) (k : Nat) :
    |(r : ℚ) - t| ≤ |(k : ℚ) - t| := by
  obtain ⟨h1, h2, -, -⟩ := h
  have hr : |(r : ℚ) - t| ≤ 1 / 2 := abs_le.mpr ⟨by linarith, by linarith⟩
  rcases Nat.lt_trichotomy k r with hk | hk | hk
  · have : (k : ℚ) + 1 ≤ r := by exact_mod_cast hk
    have : 1 / 2 ≤ |(k : ℚ) - t| := by
      rw [le_abs]; right; linarith
    linarith
  · subst hk; exact le_refl _
  · have : (r : ℚ) + 1 ≤ k := by exact_mod_cast hk
    have : 1 / 2 ≤ |(k : ℚ) - t| := by
      rw [le_abs]; left; linarith
    linarith

/-- The rounding error is at most half the spacing of the doubles at `q`. -/
theorem roundDouble_error {q : ℚ} (hq : 0 < q) : |roundDouble q - q| ≤ ulp q / 2 := by
  obtain ⟨r, ⟨h1, h2, -, -⟩, hr⟩ := roundDouble_pos hq
  have hu : (0 : ℚ) < ulp q := by unfold ulp; positivity
  have hr1 : roundDouble q = (r : ℚ) * ulp q := hr
  have h11 : (r : ℚ) ≤ q / ulp q + 1 / 2 := h1
  have h21 : q / ulp q ≤ (r : ℚ) + 1 / 2 := h2
  have hqu : q / ulp q * ulp q = q := div_mul_cancel₀ q hu.ne'
  rw [hr1, abs_le]
  constructor <;> nlinarith

/-- Among the multiples of the spacing at `q`, the rounded value is nearest to `q`. -/
theorem roundDouble_dist_multiple {q : ℚ} (hq : 0 < q) (k : Nat) :
    |roundDouble q - q| ≤ |(k : ℚ) * ulp q - q| := by
  obtain ⟨r, hn, hr⟩ := roundDouble_pos hq
  have hu : (0 : ℚ) < ulp q := by unfold ulp; positivity
  have h := nearestEven_dist hn k
  have e1 : roundDouble q - q = ((r : ℚ) - q / ulp q) * ulp q := by
    rw [hr]; unfold ulp; field_simp
  have e2 : (k : ℚ) * ulp q - q = ((k : ℚ) - q / ulp q) * ulp q := by
    field_simp
  rw [e1, e2, abs_mul, abs_mul, abs_of_pos hu]
  exact mul_le_mul_of_nonneg_right h hu.le

/-- No double is nearer to `q` than `roundDouble q`. -/
theorem roundDouble_dist_pos {q d : ℚ} (hq : 0 < q) (hd : roundDouble d = d) :
    |roundDouble q - q| ≤ |d - q| := by
  have two : (0 : ℚ) < 2 := by norm_num
  obtain ⟨q1, q2, q3⟩ := doubleExponent_spec hq
  rcases lt_or_le 0 d with hdpos | hdneg
  · obtain ⟨d1, d2, d3⟩ := doubleExponent_spec hdpos
    obtain ⟨rd, -, hrd⟩ := roundDouble_pos hdpos
    rcases lt_trichotomy (doubleExponent d) (doubleExponent q) with hlt | heq | hgt
    · -- `d` lies below the binade of `q`, whose lower end is a multiple of the spacing
      have hlow : (2 : ℚ) ^ doubleExponent q ≤ q := q3 (by omega)
      have hdlt : d < (2 : ℚ) ^ doubleExponent q :=
        lt_of_lt_of_le d2 (zpow_le_zpow_right₀ (by norm_num) (by omega))
      have h := roundDouble_dist_multiple hq (2 ^ 52)
      have e : ((2 ^ 52 : ℕ) : ℚ) * ulp q = (2 : ℚ) ^ doubleExponent q := by
        unfold ulp
        rw [show ((2 ^ 52 : ℕ) : ℚ) = (2 : ℚ) ^ (52 : ℤ) by norm_num, ← zpow_add₀ two.ne']
        congr 1; ring
      have hA : |(2 : ℚ) ^ doubleExponent q - q| = q - (2 : ℚ) ^ doubleExponent q := by
        rw [abs_sub_comm]; exact abs_of_nonneg (by linarith)
      have hB : |d - q| = q - d := by
        rw [abs_sub_comm]; exact abs_of_nonneg (by linarith)
      rw [e, hA] at h
      rw [hB]
      linarith
    · have h := roundDouble_dist_multiple hq rd
      have : (rd : ℚ) * ulp q = d := by
        unfold ulp; rw [← heq, ← hrd, hd]
      rw [this] at h
      exact h
    · have hdge : (2 : ℚ) ^ (doubleExponent q + 1) ≤ d :=
        le_trans (zpow_le_zpow_right₀ (by norm_num) (by omega)) (d3 (by omega))
      have h := roundDouble_dist_multiple hq (2 ^ 53)
      have e : ((2 ^ 53 : ℕ) : ℚ) * ulp q = (2 : ℚ) ^ (doubleExponent q + 1) := by
        unfold ulp
        rw [show ((2 ^ 53 : ℕ) : ℚ) = (2 : ℚ) ^ (53 : ℤ) by norm_num, ← zpow_add₀ two.ne']
        congr 1; ring
      have hA : |(2 : ℚ) ^ (doubleExponent q + 1) - q| = (2 : ℚ) ^ (doubleExponent q + 1) - q :=
        abs_of_nonneg (by linarith)
      have hB : |d - q| = d - q := abs_of_nonneg (by linarith)
      rw [e, hA] at h
      rw [hB]
      linarith
  · have h := roundDouble_dist_multiple hq 0
    simp only [Nat.cast_zero, zero_mul, zero_sub, abs_neg, abs_of_pos hq] at h
    have hB : |d - q| = q - d := by
      rw [abs_sub_comm]; exact abs_of_nonneg (by linarith)
    rw [hB]
    linarith

/-- No double is nearer to `q` than `roundDouble q`: the rounding is to the nearest double. -/
theorem roundDouble_dist (q : ℚ) {d : ℚ} (hd : roundDouble d = d) :
    |roundDouble q - q| ≤ |d - q| := by
  rcases lt_trichotomy q 0 with h | h | h
  · have hd1 : roundDouble (-d) = -d := by rw [roundDouble_neg, hd]
    have := roundDouble_dist_pos (q := -q) (by linarith) hd1
    rw [roundDouble_neg] at this
    have e1 : -roundDouble q - -q = -(roundDouble q - q) := by ring
    have e2 : -d - -q = -(d - q) := by ring
    rwa [e1, e2, abs_neg, abs_neg] at this
  · subst h
    simp [roundDouble_zero]
  · exact roundDouble_dist_pos h hd

/-- The integer nearest to a natural number is that number. -/
theorem nearestEven_unique {r : Nat} {k : Nat} (h : NearestEven r (k : ℚ)) : r = k :=
  le_antisymm (nearestEven_mono h (nearestEven_self k) (le_refl _))
    (nearestEven_mono (nearestEven_self k) h (le_refl _))

/-- A positive multiple of the spacing of the doubles around it is a double. -/
theorem roundDouble_of_multiple {d : ℚ} (hd : 0 < d) (k : Nat) (hk : d = (k : ℚ) * ulp d) :
    roundDouble d = d := by
  obtain ⟨r, hn, hr⟩ := roundDouble_pos hd
  have hu : (0 : ℚ) < ulp d := by unfold ulp; positivity
  have hdiv : d / (2 : ℚ) ^ (doubleExponent d - 52) = (k : ℚ) := by
    have : d / ulp d = (k : ℚ) := by
      rw [div_eq_iff hu.ne']; exact hk
    exact this
  rw [hdiv] at hn
  rw [hr, nearestEven_unique hn]
  exact hk.symm

/-- A positive double is a multiple of the spacing of the doubles around it, by a factor of
at most `2 ^ 53`. -/
theorem multiple_of_roundDouble {d : ℚ} (hd : 0 < d) (h : roundDouble d = d) :
    ∃ k : Nat, k ≤ 2 ^ 53 ∧ d = (k : ℚ) * ulp d := by
  obtain ⟨r, hn, hr⟩ := roundDouble_pos hd
  obtain ⟨-, d2, -⟩ := doubleExponent_spec hd
  have two : (0 : ℚ) < 2 := by norm_num
  have hu : (0 : ℚ) < (2 : ℚ) ^ (doubleExponent d - 52) := by positivity
  refine ⟨r, ?_, by rw [h] at hr; exact hr⟩
  apply nearestEven_mono hn (nearestEven_self (2 ^ 53))
  rw [div_le_iff₀ hu, show ((2 ^ 53 : ℕ) : ℚ) = (2 : ℚ) ^ (53 : ℤ) by norm_num,
    ← zpow_add₀ two.ne']
  have : (53 : ℤ) + (doubleExponent d - 52) = doubleExponent d + 1 := by ring
  rw [this]
  exact d2.le

/-- The positive doubles are the multiples `k * 2 ^ (e - 52)`, `k ≤ 2 ^ 53`, of the spacing of
their binade `e`. -/
theorem roundDouble_eq_self_iff {d : ℚ} (hd : 0 < d) :
    roundDouble d = d ↔ ∃ k : Nat, k ≤ 2 ^ 53 ∧ d = (k : ℚ) * ulp d :=
  ⟨multiple_of_roundDouble hd, fun ⟨k, _, hk⟩ => roundDouble_of_multiple hd k hk⟩

/-- Rounding gives a double: rounding it again changes nothing. -/
theorem roundDouble_idem (q : ℚ) : roundDouble (roundDouble q) = roundDouble q := by
  have two : (0 : ℚ) < 2 := by norm_num
  have pos : ∀ q : ℚ, 0 < q → roundDouble (roundDouble q) = roundDouble q := by
    intro q hq
    obtain ⟨r, hn, hr⟩ := roundDouble_pos hq
    obtain ⟨q1, q2, q3⟩ := doubleExponent_spec hq
    have hu : (0 : ℚ) < (2 : ℚ) ^ (doubleExponent q - 52) := by positivity
    rcases Nat.eq_zero_or_pos r with hr0 | hrpos
    · rw [hr, hr0]; simp [roundDouble_zero]
    · have hrq : (0 : ℚ) < r := by exact_mod_cast hrpos
      have hdpos : 0 < roundDouble q := by rw [hr]; positivity
      obtain ⟨d1, d2, d3⟩ := doubleExponent_spec hdpos
      have hr53 : (r : ℚ) ≤ (2 : ℚ) ^ (53 : ℤ) := by
        have : r ≤ 2 ^ 53 := by
          apply nearestEven_mono hn (nearestEven_self (2 ^ 53))
          rw [div_le_iff₀ hu, show ((2 ^ 53 : ℕ) : ℚ) = (2 : ℚ) ^ (53 : ℤ) by norm_num,
            ← zpow_add₀ two.ne']
          have : (53 : ℤ) + (doubleExponent q - 52) = doubleExponent q + 1 := by ring
          rw [this]
          exact q2.le
        have h3 : (r : ℚ) ≤ ((2 ^ 53 : ℕ) : ℚ) := by exact_mod_cast this
        rw [show ((2 ^ 53 : ℕ) : ℚ) = (2 : ℚ) ^ (53 : ℤ) by norm_num] at h3
        exact h3
      have hdle : roundDouble q ≤ (2 : ℚ) ^ (doubleExponent q + 1) := by
        rw [hr]
        calc (r : ℚ) * (2 : ℚ) ^ (doubleExponent q - 52)
            ≤ (2 : ℚ) ^ (53 : ℤ) * (2 : ℚ) ^ (doubleExponent q - 52) :=
              mul_le_mul_of_nonneg_right hr53 hu.le
          _ = (2 : ℚ) ^ (doubleExponent q + 1) := by
              rw [← zpow_add₀ two.ne']; congr 1; ring
      -- the exponent of the rounded value is that of `q` or one above it
      have hexp : doubleExponent (roundDouble q) ≤ doubleExponent q + 1 := by
        by_contra hgt
        have h1 : (2 : ℚ) ^ doubleExponent (roundDouble q) ≤ roundDouble q := d3 (by omega)
        have h2 : (2 : ℚ) ^ (doubleExponent q + 1) < (2 : ℚ) ^ doubleExponent (roundDouble q) :=
          zpow_lt_zpow_right₀ (by norm_num) (by omega)
        linarith
      rcases hexp.eq_or_lt with heq | hlt
      · have h1 : (2 : ℚ) ^ doubleExponent (roundDouble q) ≤ roundDouble q := d3 (by omega)
        rw [heq] at h1
        have hd : roundDouble q = (2 : ℚ) ^ (doubleExponent q + 1) := le_antisymm hdle h1
        apply roundDouble_of_multiple hdpos (2 ^ 52)
        unfold ulp
        rw [heq, show ((2 ^ 52 : ℕ) : ℚ) = (2 : ℚ) ^ (52 : ℤ) by norm_num, ← zpow_add₀ two.ne']
        rw [hd]
        congr 1; ring
      · have hle : doubleExponent (roundDouble q) ≤ doubleExponent q := by omega
        apply roundDouble_of_multiple hdpos
          (r * 2 ^ (doubleExponent q - doubleExponent (roundDouble q)).toNat)
        unfold ulp
        push_cast
        rw [mul_assoc, ← zpow_natCast, ← zpow_add₀ two.ne']
        have : (((doubleExponent q - doubleExponent (roundDouble q)).toNat : ℕ) : ℤ) +
            (doubleExponent (roundDouble q) - 52) = doubleExponent q - 52 := by omega
        rw [this]
        exact hr
  rcases lt_trichotomy q 0 with h | h | h
  · have := pos (-q) (by linarith)
    rw [roundDouble_neg, roundDouble_neg] at this
    exact neg_injective this
  · subst h; simp [roundDouble_zero]
  · exact pos q h

/-- The largest finite double is a double. -/
theorem isDouble_DBL_MAX : roundDouble DBL_MAX = DBL_MAX := by
  decide!

/-- The result of an operation within the range of `double` is a double. -/
theorem isDouble_roundDouble {q : ℚ} (hq : InDoubleRange q) : IsDouble (roundDouble q) := by
  refine ⟨roundDouble_idem q, ?_, ?_⟩
  · have := roundDouble_mono hq.1
    rw [roundDouble_neg, isDouble_DBL_MAX] at this
    exact this
  · have := roundDouble_mono hq.2
    rw [isDouble_DBL_MAX] at this
    exact this

theorem set_getElem?_self {α : Type} {l : List α} {i : Nat} {x : α} (h : l[i]? = some x) :
    l.set i x = l := by
  induction l generalizing i with
  | nil => rfl
  | cons y ys ih =>
    cases i with
    | zero => simp at h; subst h; rfl
    | succ i => simp at h; simp [ih h]

theorem map_accountNumber_modifyAt (f : Account → Account)
    (hf : ∀ a, (f a).accountNumber = a.accountNumber) (accounts : List Account) (i : Nat) :
    (modifyAt f accounts i).map Account.accountNumber = accounts.map Account.accountNumber := by
  induction accounts generalizing i with
  | nil => rfl
  | cons a rest ih => cases i <;> simp [modifyAt, hf, ih]

theorem map_accountNumber_addToBalance (amount : ℚ) (accounts : List Account) (i : Nat) :
    (modifyAt (addToBalance amount) accounts i).map Account.accountNumber =
      accounts.map Account.accountNumber :=
  map_accountNumber_modifyAt (addToBalance amount) (fun _ => rfl) accounts i

theorem map_accountNumber_subFromBalance (amount : ℚ) (accounts : List Account) (i : Nat) :
    (modifyAt (subFromBalance amount) accounts i).map Account.accountNumber =
      accounts.map Account.accountNumber :=
  map_accountNumber_modifyAt (subFromBalance amount) (fun _ => rfl) accounts i

/-- With unique account numbers, a lookup by the number of an account of the list gives the
balance of that account. -/
theorem balanceOf_eq_of_mem {accounts : List Account} (huniq : UniqueNumbers accounts)
    {acc : Account} (hmem : acc ∈ accounts) :
    balanceOf accounts acc.accountNumber = some acc.balance := by
  obtain ⟨i, acc1, hacc1, hn1, hfirst⟩ := exists_first_account ⟨acc, hmem, rfl⟩
  have hfind := findAccountIndexByNumber_first hacc1 hn1 hfirst
  have heq : acc1 = acc :=
    List.inj_on_of_nodup_map huniq (List.getElem?_mem hacc1) hmem hn1
  subst heq
  simp [balanceOf, hfind, balanceAt_eq hacc1]

/-! ## Transfers -/

/-- C1, refuted as stated. In the ledger of `payer` (balance 1) and `holder`
(balance `2 ^ 53`), every value a double, the transfer of 1 from 201 to 202
succeeds: the source falls to 0 and the destination stays at `2 ^ 53`, because
`2 ^ 53 + 1` is not a double and rounds to `2 ^ 53`. The sum of the two
balances falls by 1. -/
theorem transferFunds_total_not_preserved :
    UniqueNumbers roundingBank.accounts ∧ IsDouble 1 ∧ IsDouble 9007199254740992 ∧
    balanceOf roundingBank.accounts 201 = some 1 ∧
    balanceOf roundingBank.accounts 202 = some 9007199254740992 ∧
    (transferFunds roundingBank 201 202 1 noon noon).1 = Outcome.success ∧
    balanceOf (transferFunds roundingBank 201 202 1 noon noon).2.accounts 201 = some 0 ∧
    balanceOf (transferFunds roundingBank 201 202 1 noon noon).2.accounts 202 =
      some 9007199254740992 ∧
    (0 : ℚ) + 9007199254740992 ≠ 1 + 9007199254740992 := by
  refine ⟨by unfold UniqueNumbers; decide, by unfold IsDouble InDoubleRange; decide!,
    by unfold IsDouble InDoubleRange; decide!, by decide!, by decide!, by decide!, by decide!,
    by decide!, by norm_num⟩

/-- C1, amended. With unique account numbers, a transfer of a double `amount`
from `a` to `b` that succeeds keeps the number of accounts and leaves every
account with another number untouched at its position; both accounts exist
before and after, `balance(a)` and `balance(b)` are the balances of the
accounts of the list with these numbers, and `balance(a) + balance(b)` is as
it was whenever the two balances are doubles and the debit and the credit are
exact, that is `balance(a) - amount` and `balance(b) + amount` are doubles.
In general, for `a ≠ b`, the two new balances are
`roundDouble (balance(a) - amount)` and `roundDouble (balance(b) + amount)`. -/
theorem transferFunds_preserves_total (s s1 : Bank) (a b : Int) (amount : ℚ)
    (now1 now2 : String) (huniq : UniqueNumbers s.accounts) (_hamount : IsDouble amount)
    (hok : transferFunds s a b amount now1 now2 = (Outcome.success, s1)) :
    (∃ x y x1 y1, balanceOf s.accounts a = some x ∧ balanceOf s.accounts b = some y ∧
        balanceOf s1.accounts a = some x1 ∧ balanceOf s1.accounts b = some y1 ∧
        (∀ acc ∈ s.accounts,
          (acc.accountNumber = a → acc.balance = x) ∧ (acc.accountNumber = b → acc.balance = y)) ∧
        (∀ acc ∈ s1.accounts,
          (acc.accountNumber = a → acc.balance = x1) ∧
            (acc.accountNumber = b → acc.balance = y1)) ∧
        (IsDouble x → IsDouble y → IsDouble (x - amount) → IsDouble (y + amount) →
          x1 + y1 = x + y) ∧
        (a ≠ b → IsDouble x → IsDouble y → InDoubleRange (y + amount) →
          x1 = roundDouble (x - amount) ∧ y1 = roundDouble (y + amount))) ∧
      s1.accounts.length = s.accounts.length ∧
      ∀ (k : Nat) (acc : Account), s.accounts[k]? = some acc →
        acc.accountNumber ≠ a → acc.accountNumber ≠ b → s1.accounts[k]? = some acc := by
  obtain ⟨i, j, hi, hj, -, -, -, -, hacc, -⟩ := transferFunds_success_inv hok
  obtain ⟨ai, hai, hain⟩ := findAccountIndexByNumber_some hi
  obtain ⟨aj, haj, hajn⟩ := findAccountIndexByNumber_some hj
  have huniq1 : UniqueNumbers s1.accounts := by
    unfold UniqueNumbers at huniq ⊢
    rw [hacc, map_accountNumber_addToBalance, map_accountNumber_subFromBalance]
    exact huniq
  -- with unique numbers the balance a lookup finds is the balance of the account
  have hmem : ∀ (l : List Account), UniqueNumbers l → ∀ (n : Int) (x : ℚ),
      balanceOf l n = some x → ∀ acc ∈ l, acc.accountNumber = n → acc.balance = x := by
    intro l hl n x hx acc hacc hn
    have h := balanceOf_eq_of_mem hl hacc
    rw [hn, hx] at h
    exact (Option.some.inj h).symm
  have key : ∃ x y x1 y1, balanceOf s.accounts a = some x ∧ balanceOf s.accounts b = some y ∧
      balanceOf s1.accounts a = some x1 ∧ balanceOf s1.accounts b = some y1 ∧
      (IsDouble x → IsDouble y → IsDouble (x - amount) → IsDouble (y + amount) →
        x1 + y1 = x + y) ∧
      (a ≠ b → IsDouble x → IsDouble y → InDoubleRange (y + amount) →
        x1 = roundDouble (x - amount) ∧ y1 = roundDouble (y + amount)) := by
    simp only [balanceOf, hacc, findAccountIndexByNumber_addToBalance,
      findAccountIndexByNumber_subFromBalance, hi, hj, Option.map_some']
    by_cases hij : i = j
    · subst hij
      have : ai = aj := by rw [hai] at haj; exact Option.some.inj haj
      subst this
      refine ⟨ai.balance, ai.balance, roundDouble (roundDouble (ai.balance - amount) + amount),
        roundDouble (roundDouble (ai.balance - amount) + amount), ?_, ?_, ?_, ?_, ?_, ?_⟩
      · simp [balanceAt, hai]
      · simp [balanceAt, hai]
      · simp [balanceAt, getElem?_modifyAt, hai, addToBalance, subFromBalance]
      · simp [balanceAt, getElem?_modifyAt, hai, addToBalance, subFromBalance]
      · intro hx _ hxa _
        rw [hxa.1, sub_add_cancel, hx.1]
      · intro hab
        exact absurd (hain.symm.trans hajn) hab
    · have hji : ¬ j = i := fun h => hij h.symm
      refine ⟨ai.balance, aj.balance, roundDouble (ai.balance - amount),
        roundDouble (aj.balance + amount), ?_, ?_, ?_, ?_, ?_, ?_⟩
      · simp [balanceAt, hai]
      · simp [balanceAt, haj]
      · simp [balanceAt, getElem?_modifyAt, hai, haj, hij, hji, addToBalance, subFromBalance]
      · simp [balanceAt, getElem?_modifyAt, hai, haj, hij, hji, addToBalance, subFromBalance]
      · intro _ _ hxa hyb
        rw [hxa.1, hyb.1]
        ring
      · intro _ _ _ _
        exact ⟨rfl, rfl⟩
  obtain ⟨x, y, x1, y1, hx, hy, hx1, hy1, hsum, hround⟩ := key
  refine ⟨⟨x, y, x1, y1, hx, hy, hx1, hy1, ?_, ?_, hsum, hround⟩, ?_, ?_⟩
  · intro acc hacc
    exact ⟨hmem _ huniq a x hx acc hacc, hmem _ huniq b y hy acc hacc⟩
  · intro acc hacc
    exact ⟨hmem _ huniq1 a x1 hx1 acc hacc, hmem _ huniq1 b y1 hy1 acc hacc⟩
  · simp [hacc, length_modifyAt]
  · intro k acc hk hka hkb
    have hik : ¬ i = k := by
      rintro rfl
      rw [hai] at hk
      exact hka (by rw [← Option.some.inj hk]; exact hain)
    have hjk : ¬ j = k := by
      rintro rfl
      rw [haj] at hk
      exact hkb (by rw [← Option.some.inj hk]; exact hajn)
    simp [hacc, getElem?_modifyAt, hik, hjk, hk]

/-- The scenario transfer of 30 from 101 (balance 150) to 102 (balance 0): the
hypotheses of `transferFunds_preserves_total` hold, the debit `150 - 30` and
the credit `0 + 30` are exact, and the two balances, 120 and 30, sum to 150
as before. -/
theorem transferFunds_preserves_total_witness :
    UniqueNumbers sampleBank.accounts ∧ IsDouble 30 ∧
      (transferFunds sampleBank 101 102 30 noon noon).1 = Outcome.success ∧
      IsDouble 150 ∧ IsDouble 0 ∧ IsDouble (150 - 30) ∧ IsDouble (0 + 30) ∧
      balanceOf sampleBank.accounts 101 = some 150 ∧
      balanceOf sampleBank.accounts 102 = some 0 ∧
      (∃ x1 y1,
        balanceOf (transferFunds sampleBank 101 102 30 noon noon).2.accounts 101 = some x1 ∧
        balanceOf (transferFunds sampleBank 101 102 30 noon noon).2.accounts 102 = some y1 ∧
        x1 + y1 = 150 + 0) ∧
      (transferFunds sampleBank 101 102 30 noon noon).2.accounts.length
        = sampleBank.accounts.length ∧
      ∀ (k : Nat) (acc : Account), sampleBank.accounts[k]? = some acc →
        acc.accountNumber ≠ 101 → acc.accountNumber ≠ 102 →
        (transferFunds sampleBank 101 102 30 noon noon).2.accounts[k]? = some acc := by
  have h150 : IsDouble 150 := by unfold IsDouble InDoubleRange; decide!
  have h0 : IsDouble 0 := by unfold IsDouble InDoubleRange; decide!
  have h120 : IsDouble (150 - 30) := by unfold IsDouble InDoubleRange; decide!
  have h30 : IsDouble (0 + 30) := by unfold IsDouble InDoubleRange; decide!
  have hamount : IsDouble 30 := by unfold IsDouble InDoubleRange; decide!
  have hx : balanceOf sampleBank.accounts 101 = some 150 := by decide!
  have hy : balanceOf sampleBank.accounts 102 = some 0 := by decide!
  obtain ⟨⟨x, y, x1, y1, hx0, hy0, hx1, hy1, -, -, hsum, -⟩, hlen, hframe⟩ :=
    transferFunds_preserves_total sampleBank (transferFunds sampleBank 101 102 30 noon noon).2
      101 102 30 noon noon (by unfold UniqueNumbers; decide) hamount (by decide!)
  have hxe : x = 150 := by rw [hx] at hx0; exact (Option.some.inj hx0).symm
  have hye : y = 0 := by rw [hy] at hy0; exact (Option.some.inj hy0).symm
  subst hxe hye
  exact ⟨by unfold UniqueNumbers; decide, hamount, by decide!, h150, h0, h120, h30, hx, hy,
    ⟨x1, y1, hx1, hy1, hsum h150 h0 h120 h30⟩, hlen, hframe⟩

/-- C3. A transfer from account 101 to account 101 itself is not refused: it
reports success and appends a `transfer_out` and a `transfer_in` entry to the
log (the balance is debited and credited back). -/
theorem transferFunds_same_account_not_refused :
    transferFunds sampleBank 101 101 30 noon noon =
      (Outcome.success,
        { accounts := [alice, bob], loanBook := [],
          transactions :=
            [⟨1, 101, noon, "transfer_out", 30, 150⟩, ⟨2, 101, noon, "transfer_in", 30, 150⟩] }) := by
  decide!

/-! ## Balance invariant -/

/-- C2. From the empty ledger, one `createAccount` with an initial deposit of
`-5` leaves an account with a negative balance: the value typed is stored
as it is. -/
theorem createAccount_stores_negative_balance :
    run Bank.empty [Op.createAccount [1] "Alice" (-5) 0] =
        some ⟨[⟨1, "Alice", -5, 0, false⟩], [], []⟩ ∧
      ∃ s acc, run Bank.empty [Op.createAccount [1] "Alice" (-5) 0] = some s ∧
        acc ∈ s.accounts ∧ acc.balance < 0 := by
  refine ⟨by decide!, ⟨[⟨1, "Alice", -5, 0, false⟩], [], []⟩, ⟨1, "Alice", -5, 0, false⟩,
    by decide!, by simp, by decide!⟩

/-! ## Loan repayments -/

/-- C4. A loan created with amount 1000 and then repaid `-500` has remaining
balance 1500, above its loan amount: the repayment is subtracted without a
test of its sign. -/
theorem makeMonthlyRepayment_raises_remaining_above_amount :
    run Bank.empty
        [Op.createLoanAgreement "Bob" 1000 10 12, Op.makeMonthlyRepayment 1 (-500)] =
        some ⟨[], [⟨1, "Bob", 1000, 10, 12, 1500⟩], []⟩ ∧
      ∃ s loan,
        run Bank.empty
          [Op.createLoanAgreement "Bob" 1000 10 12, Op.makeMonthlyRepayment 1 (-500)] = some s ∧
        loan ∈ s.loanBook ∧ ¬ (0 ≤ loan.remainingBalance ∧ loan.remainingBalance ≤ loan.loanAmount) := by
  refine ⟨by decide!, ⟨[], [⟨1, "Bob", 1000, 10, 12, 1500⟩], []⟩, ⟨1, "Bob", 1000, 10, 12, 1500⟩,
    by decide!, by simp, by decide!⟩

/-- C5. On the scenario loan (remaining balance 1000) a repayment of `-500`
is not refused: the call reports success and the remaining balance becomes
1500. -/
theorem makeMonthlyRepayment_accepts_negative_amount :
    makeMonthlyRepayment sampleLoans 1 (-500) =
      (Outcome.success, ⟨[], [⟨1, "Bob", 1000, 10, 12, 1500⟩], []⟩) := by
  decide!

/-- C6, refuted as stated. In the book of the scenario loan and `largeLoan`
(remaining balance `2 ^ 53 + 2`), a repayment of 1 on loan 2 satisfies
`0 < amount ≤ remainingBalance` and succeeds, and the remaining balance
becomes `2 ^ 53`: `2 ^ 53 + 1` is not a double, and the tie between its two
neighbours goes to the even one. The remaining balance decreased by 2. -/
theorem makeMonthlyRepayment_not_exact :
    IsDouble 1 ∧ IsDouble 9007199254740994 ∧
    roundingLoans.loanBook[1]? = some largeLoan ∧ largeLoan.loanID = 2 ∧
    largeLoan.remainingBalance = 9007199254740994 ∧
    (0 : ℚ) < 1 ∧ (1 : ℚ) ≤ largeLoan.remainingBalance ∧
    makeMonthlyRepayment roundingLoans 2 1 =
      (Outcome.success,
        ⟨[], [bobLoan, { largeLoan with remainingBalance := 9007199254740992 }], []⟩) ∧
    (9007199254740992 : ℚ) ≠ 9007199254740994 - 1 := by
  refine ⟨by unfold IsDouble InDoubleRange; decide!, by unfold IsDouble InDoubleRange; decide!,
    by decide!, by decide!, by decide!, by decide!, by decide!, by decide!, by norm_num⟩

/-- C6, amended. Let `loan`, at position `i`, be the first loan of the book
with ID `id`, its remaining balance and `amount` doubles. A repayment above
the remaining balance is refused with the state unchanged. A repayment
`0 < amount ≤ remainingBalance` succeeds: the loan at `i` becomes the same
loan with the remaining balance `roundDouble (remainingBalance - amount)`, a
double, which is `remainingBalance - amount` when that difference is a double
and 0 when the whole remaining balance is repaid; every other loan and the
rest of the state are as before. -/
theorem makeMonthlyRepayment_spec (s : Bank) (id : Int) (amount : ℚ) (i : Nat) (loan : Loan)
    (hloan : s.loanBook[i]? = some loan) (hid : loan.loanID = id)
    (hfirst : ∀ l ∈ s.loanBook.take i, l.loanID ≠ id)
    (_hamount : IsDouble amount) (hremaining : IsDouble loan.remainingBalance) :
    (amount > loan.remainingBalance →
      makeMonthlyRepayment s id amount = (Outcome.exceedsBalance, s)) ∧
    (0 < amount → amount ≤ loan.remainingBalance →
      makeMonthlyRepayment s id amount =
        (Outcome.success,
          { s with loanBook := s.loanBook.set i { loan with remainingBalance := roundDouble (loan.remainingBalance - amount) } })
      ∧ IsDouble (roundDouble (loan.remainingBalance - amount))
      ∧ (IsDouble (loan.remainingBalance - amount) →
          (makeMonthlyRepayment s id amount).2.loanBook =
            s.loanBook.set i { loan with remainingBalance := loan.remainingBalance - amount })
      ∧ (amount = loan.remainingBalance →
          (makeMonthlyRepayment s id amount).2.loanBook =
            s.loanBook.set i { loan with remainingBalance := 0 })
      ∧ (makeMonthlyRepayment s id amount).2.loanBook.length = s.loanBook.length
      ∧ ∀ k : Nat, k ≠ i →
          (makeMonthlyRepayment s id amount).2.loanBook[k]? = s.loanBook[k]?) := by
  have hfind : findLoanByID s.loanBook id = some i := findLoanByID_first hloan hid hfirst
  refine ⟨?_, ?_⟩
  · intro hgt
    simp [makeMonthlyRepayment, hfind, remainingBalanceAt_eq hloan, hgt]
  · intro hpos hle
    have hres : makeMonthlyRepayment s id amount =
        (Outcome.success,
          { s with loanBook := s.loanBook.set i { loan with remainingBalance := roundDouble (loan.remainingBalance - amount) } }) := by
      simp [makeMonthlyRepayment, hfind, remainingBalanceAt_eq hloan, not_lt.mpr hle,
        modifyAt_eq_set _ _ _ _ hloan, subFromRemaining]
    have hrange : InDoubleRange (loan.remainingBalance - amount) := by
      have h0 : (0 : ℚ) ≤ DBL_MAX := by unfold DBL_MAX; norm_num
      have h1 := hremaining.2.2
      exact ⟨by linarith, by linarith⟩
    refine ⟨hres, isDouble_roundDouble hrange, ?_, ?_, ?_, ?_⟩
    · intro hexact
      rw [hres, hexact.1]
    · intro heq
      rw [hres, heq, sub_self, roundDouble_zero]
    · simp [hres]
    · intro k hk
      simp [hres, List.getElem?_set_ne (Ne.symm hk)]

/-- The book `threeLoans` and a repayment of 100 on ID 2: `eveLoan`, at
position 1, is the first loan with that ID (`fayLoan` has it too), and the
hypotheses of `makeMonthlyRepayment_spec` hold. Its conclusion there, with the
book after the call: `eveLoan` has 200 remaining, `bobLoan` and `fayLoan` are
as they were. -/
theorem makeMonthlyRepayment_spec_witness :
    (threeLoans.loanBook[1]? = some eveLoan ∧ eveLoan.loanID = 2 ∧
      (∀ l ∈ threeLoans.loanBook.take 1, l.loanID ≠ 2) ∧ IsDouble 100 ∧
      IsDouble eveLoan.remainingBalance ∧ (0 : ℚ) < 100 ∧ (100 : ℚ) ≤ eveLoan.remainingBalance ∧
      IsDouble (eveLoan.remainingBalance - 100)) ∧
    makeMonthlyRepayment threeLoans 2 100 =
      (Outcome.success, ⟨[], [bobLoan, { eveLoan with remainingBalance := 200 }, fayLoan], []⟩) ∧
    (((100 : ℚ) > eveLoan.remainingBalance →
      makeMonthlyRepayment threeLoans 2 100 = (Outcome.exceedsBalance, threeLoans)) ∧
    ((0 : ℚ) < 100 → (100 : ℚ) ≤ eveLoan.remainingBalance →
      makeMonthlyRepayment threeLoans 2 100 =
        (Outcome.success,
          { threeLoans with loanBook := threeLoans.loanBook.set 1 { eveLoan with remainingBalance := roundDouble (eveLoan.remainingBalance - 100) } })
      ∧ IsDouble (roundDouble (eveLoan.remainingBalance - 100))
      ∧ (IsDouble (eveLoan.remainingBalance - 100) →
          (makeMonthlyRepayment threeLoans 2 100).2.loanBook =
            threeLoans.loanBook.set 1
              { eveLoan with remainingBalance := eveLoan.remainingBalance - 100 })
      ∧ ((100 : ℚ) = eveLoan.remainingBalance →
          (makeMonthlyRepayment threeLoans 2 100).2.loanBook =
            threeLoans.loanBook.set 1 { eveLoan with remainingBalance := 0 })
      ∧ (makeMonthlyRepayment threeLoans 2 100).2.loanBook.length = threeLoans.loanBook.length
      ∧ ∀ k : Nat, k ≠ 1 →
          (makeMonthlyRepayment threeLoans 2 100).2.loanBook[k]? = threeLoans.loanBook[k]?)) :=
  ⟨⟨by decide, by decide, by decide, by unfold IsDouble InDoubleRange; decide!,
      by unfold IsDouble InDoubleRange; decide!, by decide, by decide!,
      by unfold IsDouble InDoubleRange; decide!⟩,
    by decide!,
    makeMonthlyRepayment_spec threeLoans 2 100 1 eveLoan (by decide) (by decide) (by decide)
      (by unfold IsDouble InDoubleRange; decide!) (by unfold IsDouble InDoubleRange; decide!)⟩

/-! ## Deposits and withdrawals -/

theorem getElem?_lt_length {α : Type} {l : List α} {i : Nat} {x : α} (h : l[i]? = some x) :
    i < l.length := by
  rcases Nat.lt_or_ge i l.length with hlt | hge
  · exact hlt
  · rw [List.getElem?_eq_none hge] at h; cases h

/-- Looking an account up by number after the account found for that number
was overwritten by one with the same number gives the new balance. -/
theorem balanceOf_set {accounts : List Account} {n : Int} {i : Nat} {acc : Account}
    (acc1 : Account) (hfind : findAccountIndexByNumber accounts n = some i) (hacc : accounts[i]? = some acc)
    (hnum : acc1.accountNumber = acc.accountNumber) :
    findAccountIndexByNumber (accounts.set i acc1) n = some i ∧
      (accounts.set i acc1)[i]? = some acc1 ∧
      balanceOf (accounts.set i acc1) n = some acc1.balance := by
  have hset : accounts.set i acc1 = modifyAt (fun _ => acc1) accounts i :=
    (modifyAt_eq_set (fun _ => acc1) _ _ _ hacc).symm
  have hi := getElem?_lt_length hacc
  have hf : findAccountIndexByNumber (accounts.set i acc1) n = some i := by
    rw [hset]
    clear hset hi
    induction accounts generalizing i with
    | nil => simp at hacc
    | cons a rest ih =>
      simp only [findAccountIndexByNumber] at hfind
      split at hfind
      · cases hfind
        simp only [List.getElem?_cons_zero, Option.some.injEq] at hacc
        subst hacc
        simp [modifyAt, findAccountIndexByNumber, hnum, *]
      · cases hr : findAccountIndexByNumber rest n with
        | none => simp [hr] at hfind
        | some k =>
          simp [hr] at hfind
          subst hfind
          simp only [List.getElem?_cons_succ] at hacc
          simp [modifyAt, findAccountIndexByNumber, ih hr hacc, *]
  refine ⟨hf, by simp [hi], ?_⟩
  simp [balanceOf, hf, balanceAt, hi]

/-- The successful branch of `depositFunds`, with the post-state spelled out. -/
theorem depositFunds_eq_success {s : Bank} {n : Int} {amount : ℚ} {i : Nat} {acc : Account}
    (now : String) (hfind : findAccountIndexByNumber s.accounts n = some i)
    (hacc : s.accounts[i]? = some acc) (hactive : isFrozenAt s.accounts i = false)
    (hpos : 0 < amount) :
    depositFunds s n amount now =
      (Outcome.success,
        { accounts := s.accounts.set i { acc with balance := roundDouble (acc.balance + amount) },
          loanBook := s.loanBook,
          transactions := s.transactions ++
            [{ transactionID := generateTransactionID s.transactions, accountNumber := n,
               dateTime := now, type_ := "deposit", amount := amount,
               balanceAfter := roundDouble (acc.balance + amount) }] }) := by
  have hi := getElem?_lt_length hacc
  simp [depositFunds, hfind, hactive, not_le.mpr hpos, modifyAt_eq_set _ _ _ _ hacc,
    addToBalance, balanceAt, hi]

/-- The successful branch of `withdrawFunds`, with the post-state spelled out. -/
theorem withdrawFunds_eq_success {s : Bank} {n : Int} {amount : ℚ} {i : Nat} {acc : Account}
    (now : String) (hfind : findAccountIndexByNumber s.accounts n = some i)
    (hacc : s.accounts[i]? = some acc) (hactive : isFrozenAt s.accounts i = false)
    (hpos : 0 < amount) (hle : amount ≤ acc.balance) :
    withdrawFunds s n amount now =
      (Outcome.success,
        { accounts := s.accounts.set i { acc with balance := roundDouble (acc.balance - amount) },
          loanBook := s.loanBook,
          transactions := s.transactions ++
            [{ transactionID := generateTransactionID s.transactions, accountNumber := n,
               dateTime := now, type_ := "withdrawal", amount := amount,
               balanceAfter := roundDouble (acc.balance - amount) }] }) := by
  have hi := getElem?_lt_length hacc
  have hget : s.accounts[i] = acc := by
    simpa [List.getElem?_eq_getElem hi] using hacc
  simp [withdrawFunds, hfind, hactive, not_le.mpr hpos, not_lt.mpr hle,
    modifyAt_eq_set _ _ _ _ hacc, subFromBalance, balanceAt, hi, hget]

/-- C7, refuted as stated. In the ledger of `payer` and `holder` (balance
`2 ^ 53`), a deposit of 1 into account 202 succeeds and logs its entry, and
the balance of the account is `2 ^ 53` as before: `2 ^ 53 + 1` is not a
double and rounds to `2 ^ 53`. The balance did not increase by the amount. -/
theorem depositFunds_not_exact :
    IsDouble 1 ∧ IsDouble 9007199254740992 ∧
    roundingBank.accounts[1]? = some holder ∧ holder.accountNumber = 202 ∧
    holder.isFrozen = false ∧ holder.balance = 9007199254740992 ∧ (0 : ℚ) < 1 ∧
    depositFunds roundingBank 202 1 noon =
      (Outcome.success,
        ⟨[payer, holder], [], [⟨1, 202, noon, "deposit", 1, 9007199254740992⟩]⟩) ∧
    balanceOf (depositFunds roundingBank 202 1 noon).2.accounts 202 = some 9007199254740992 ∧
    (9007199254740992 : ℚ) ≠ 9007199254740992 + 1 := by
  refine ⟨by unfold IsDouble InDoubleRange; decide!, by unfold IsDouble InDoubleRange; decide!,
    by decide!, by decide!, by decide!, by decide!, by decide!, by decide!, by decide!,
    by norm_num⟩

/-- C7, amended. Let `acc`, at position `i`, be the first account with number
`n`, not frozen, its balance and `amount` doubles, `amount` above 0 and
`balance + amount` within the range of `double`. Then `depositFunds`
succeeds: the account at `i` becomes the same account with the balance
`roundDouble (balance + amount)`, nothing else in the account list changes,
and exactly one entry is appended to the log, with the account number, type
`deposit`, the amount, and the new balance. The new balance is a double,
and it is `balance + amount` when that sum is a double. -/
theorem depositFunds_spec (s : Bank) (n : Int) (amount : ℚ) (now : String) (i : Nat)
    (acc : Account) (hacc : s.accounts[i]? = some acc) (hn : acc.accountNumber = n)
    (hfirst : ∀ a ∈ s.accounts.take i, a.accountNumber ≠ n)
    (hactive : acc.isFrozen = false) (hpos : 0 < amount)
    (_hamount : IsDouble amount) (_hbalance : IsDouble acc.balance)
    (hrange : InDoubleRange (acc.balance + amount)) :
    depositFunds s n amount now =
      (Outcome.success,
        { accounts := s.accounts.set i { acc with balance := roundDouble (acc.balance + amount) },
          loanBook := s.loanBook,
          transactions := s.transactions ++
            [{ transactionID := generateTransactionID s.transactions, accountNumber := n,
               dateTime := now, type_ := "deposit", amount := amount,
               balanceAfter := roundDouble (acc.balance + amount) }] }) ∧
    IsDouble (roundDouble (acc.balance + amount)) ∧
    balanceOf (depositFunds s n amount now).2.accounts n =
      some (roundDouble (acc.balance + amount)) ∧
    (IsDouble (acc.balance + amount) →
      (depositFunds s n amount now).2.accounts =
          s.accounts.set i { acc with balance := acc.balance + amount } ∧
        balanceOf (depositFunds s n amount now).2.accounts n = some (acc.balance + amount)) := by
  have hfind : findAccountIndexByNumber s.accounts n = some i :=
    findAccountIndexByNumber_first hacc hn hfirst
  have hact : isFrozenAt s.accounts i = false := by rw [isFrozenAt_eq hacc]; exact hactive
  have hres := depositFunds_eq_success now hfind hacc hact hpos
  have hbal : balanceOf (depositFunds s n amount now).2.accounts n =
      some (roundDouble (acc.balance + amount)) := by
    rw [hres]
    exact (balanceOf_set { acc with balance := roundDouble (acc.balance + amount) }
      hfind hacc rfl).2.2
  refine ⟨hres, isDouble_roundDouble hrange, hbal, ?_⟩
  intro hexact
  refine ⟨?_, ?_⟩
  · rw [hres, hexact.1]
  · rw [hbal, hexact.1]

/-- The deposit of 50 into account 102 of the sample ledger: `bob`, at
position 1, is the first account with that number, and the hypotheses of
`depositFunds_spec` hold. Its conclusion there, with the state after the
call: `bob` holds 50, `alice` is as before, one entry is logged. -/
theorem depositFunds_spec_witness :
    (sampleBank.accounts[1]? = some bob ∧ bob.accountNumber = 102 ∧
      (∀ a ∈ sampleBank.accounts.take 1, a.accountNumber ≠ 102) ∧ bob.isFrozen = false ∧
      (0 : ℚ) < 50 ∧ IsDouble 50 ∧ IsDouble bob.balance ∧ InDoubleRange (bob.balance + 50) ∧
      IsDouble (bob.balance + 50)) ∧
    depositFunds sampleBank 102 50 noon =
      (Outcome.success,
        ⟨[alice, { bob with balance := 50 }], [], [⟨1, 102, noon, "deposit", 50, 50⟩]⟩) ∧
    (depositFunds sampleBank 102 50 noon =
      (Outcome.success,
        { accounts :=
            sampleBank.accounts.set 1 { bob with balance := roundDouble (bob.balance + 50) },
          loanBook := sampleBank.loanBook,
          transactions := sampleBank.transactions ++
            [{ transactionID := generateTransactionID sampleBank.transactions,
               accountNumber := 102, dateTime := noon, type_ := "deposit", amount := 50,
               balanceAfter := roundDouble (bob.balance + 50) }] }) ∧
    IsDouble (roundDouble (bob.balance + 50)) ∧
    balanceOf (depositFunds sampleBank 102 50 noon).2.accounts 102 =
      some (roundDouble (bob.balance + 50)) ∧
    (IsDouble (bob.balance + 50) →
      (depositFunds sampleBank 102 50 noon).2.accounts =
          sampleBank.accounts.set 1 { bob with balance := bob.balance + 50 } ∧
        balanceOf (depositFunds sampleBank 102 50 noon).2.accounts 102 =
          some (bob.balance + 50))) :=
  ⟨⟨by decide, by decide, by decide, by decide, by decide,
      by unfold IsDouble InDoubleRange; decide!, by unfold IsDouble InDoubleRange; decide!,
      by unfold InDoubleRange; decide!, by unfold IsDouble InDoubleRange; decide!⟩,
    by decide!,
    depositFunds_spec sampleBank 102 50 noon 1 bob (by decide) (by decide) (by decide)
      (by decide) (by decide) (by unfold IsDouble InDoubleRange; decide!)
      (by unfold IsDouble InDoubleRange; decide!) (by unfold InDoubleRange; decide!)⟩

/-- C8, refuted as stated. In the ledger of `payer` and `holderAbove` (balance
`2 ^ 53 + 2`), a withdrawal of 1 from account 203 passes the guard and
succeeds, and the balance becomes `2 ^ 53`: `2 ^ 53 + 1` is not a double, and
the tie between its two neighbours goes to the even one. The balance
decreased by 2. -/
theorem withdrawFunds_not_exact :
    IsDouble 1 ∧ IsDouble 9007199254740994 ∧
    roundingBankAbove.accounts[1]? = some holderAbove ∧ holderAbove.accountNumber = 203 ∧
    holderAbove.isFrozen = false ∧ holderAbove.balance = 9007199254740994 ∧ (0 : ℚ) < 1 ∧
    ¬ (1 : ℚ) > holderAbove.balance ∧
    withdrawFunds roundingBankAbove 203 1 noon =
      (Outcome.success,
        ⟨[payer, { holderAbove with balance := 9007199254740992 }], [],
          [⟨1, 203, noon, "withdrawal", 1, 9007199254740992⟩]⟩) ∧
    balanceOf (withdrawFunds roundingBankAbove 203 1 noon).2.accounts 203 =
      some 9007199254740992 ∧
    (9007199254740992 : ℚ) ≠ 9007199254740994 - 1 := by
  refine ⟨by unfold IsDouble InDoubleRange; decide!, by unfold IsDouble InDoubleRange; decide!,
    by decide!, by decide!, by decide!, by decide!, by decide!, by decide!, by decide!,
    by decide!, by norm_num⟩

/-- C8, amended. Let `acc`, at position `i`, be the first account with number
`n`, not frozen, its balance and `amount` doubles and `amount` above 0.
`withdrawFunds` reports insufficient funds and leaves the state as it was
exactly when `amount > balance`; otherwise it succeeds, the account at `i`
becomes the same account with the balance `roundDouble (balance - amount)`,
nothing else in the account list changes, and exactly one entry is appended
to the log, of type `withdrawal`, with the amount and the new balance. The
new balance is a double, and it is `balance - amount` when that difference
is a double. -/
theorem withdrawFunds_spec (s : Bank) (n : Int) (amount : ℚ) (now : String) (i : Nat)
    (acc : Account) (hacc : s.accounts[i]? = some acc) (hn : acc.accountNumber = n)
    (hfirst : ∀ a ∈ s.accounts.take i, a.accountNumber ≠ n)
    (hactive : acc.isFrozen = false) (hpos : 0 < amount)
    (_hamount : IsDouble amount) (hbalance : IsDouble acc.balance) :
    (withdrawFunds s n amount now = (Outcome.insufficientFunds, s) ↔ amount > acc.balance) ∧
    (¬ amount > acc.balance →
      withdrawFunds s n amount now =
        (Outcome.success,
          { accounts :=
              s.accounts.set i { acc with balance := roundDouble (acc.balance - amount) },
            loanBook := s.loanBook,
            transactions := s.transactions ++
              [{ transactionID := generateTransactionID s.transactions, accountNumber := n,
                 dateTime := now, type_ := "withdrawal", amount := amount,
                 balanceAfter := roundDouble (acc.balance - amount) }] }) ∧
      IsDouble (roundDouble (acc.balance - amount)) ∧
      balanceOf (withdrawFunds s n amount now).2.accounts n =
        some (roundDouble (acc.balance - amount)) ∧
      (IsDouble (acc.balance - amount) →
        (withdrawFunds s n amount now).2.accounts =
            s.accounts.set i { acc with balance := acc.balance - amount } ∧
          balanceOf (withdrawFunds s n amount now).2.accounts n =
            some (acc.balance - amount))) := by
  have hfind : findAccountIndexByNumber s.accounts n = some i :=
    findAccountIndexByNumber_first hacc hn hfirst
  have hact : isFrozenAt s.accounts i = false := by rw [isFrozenAt_eq hacc]; exact hactive
  refine ⟨⟨?_, ?_⟩, ?_⟩
  · intro hfail
    by_contra hle
    rw [withdrawFunds_eq_success now hfind hacc hact hpos (not_lt.mp hle)] at hfail
    simp at hfail
  · intro hgt
    have hgt1 : acc.balance < amount := hgt
    simp [withdrawFunds, hfind, hact, not_le.mpr hpos, balanceAt_eq hacc, hgt1]
  · intro hle
    have hres := withdrawFunds_eq_success now hfind hacc hact hpos (not_lt.mp hle)
    have hbal : balanceOf (withdrawFunds s n amount now).2.accounts n =
        some (roundDouble (acc.balance - amount)) := by
      rw [hres]
      exact (balanceOf_set { acc with balance := roundDouble (acc.balance - amount) }
        hfind hacc rfl).2.2
    have hrange : InDoubleRange (acc.balance - amount) := by
      have h0 : (0 : ℚ) ≤ DBL_MAX := by unfold DBL_MAX; norm_num
      have h1 := hbalance.2.2
      have h2 := not_lt.mp hle
      exact ⟨by linarith, by linarith⟩
    refine ⟨hres, isDouble_roundDouble hrange, hbal, ?_⟩
    intro hexact
    refine ⟨?_, ?_⟩
    · rw [hres, hexact.1]
    · rw [hbal, hexact.1]

/-- The withdrawal of 50 from account 101 of the ledger after the deposit of
50 into 102: `alice`, at position 0, is the first account with number 101,
and the hypotheses of `withdrawFunds_spec` hold. Its conclusion there, with
the state after the call: `alice` holds 100, one entry is logged. -/
theorem withdrawFunds_spec_witness :
    (sampleBank.accounts[0]? = some alice ∧ alice.accountNumber = 101 ∧
      (∀ a ∈ sampleBank.accounts.take 0, a.accountNumber ≠ 101) ∧ alice.isFrozen = false ∧
      (0 : ℚ) < 50 ∧ IsDouble 50 ∧ IsDouble alice.balance ∧ ¬ (50 : ℚ) > alice.balance ∧
      IsDouble (alice.balance - 50)) ∧
    withdrawFunds sampleBank 101 50 noon =
      (Outcome.success,
        ⟨[{ alice with balance := 100 }, bob], [], [⟨1, 101, noon, "withdrawal", 50, 100⟩]⟩) ∧
    ((withdrawFunds sampleBank 101 50 noon = (Outcome.insufficientFunds, sampleBank) ↔
        (50 : ℚ) > alice.balance) ∧
    (¬ (50 : ℚ) > alice.balance →
      withdrawFunds sampleBank 101 50 noon =
        (Outcome.success,
          { accounts :=
              sampleBank.accounts.set 0
                { alice with balance := roundDouble (alice.balance - 50) },
            loanBook := sampleBank.loanBook,
            transactions := sampleBank.transactions ++
              [{ transactionID := generateTransactionID sampleBank.transactions,
                 accountNumber := 101, dateTime := noon, type_ := "withdrawal", amount := 50,
                 balanceAfter := roundDouble (alice.balance - 50) }] }) ∧
      IsDouble (roundDouble (alice.balance - 50)) ∧
      balanceOf (withdrawFunds sampleBank 101 50 noon).2.accounts 101 =
        some (roundDouble (alice.balance - 50)) ∧
      (IsDouble (alice.balance - 50) →
        (withdrawFunds sampleBank 101 50 noon).2.accounts =
            sampleBank.accounts.set 0 { alice with balance := alice.balance - 50 } ∧
          balanceOf (withdrawFunds sampleBank 101 50 noon).2.accounts 101 =
            some (alice.balance - 50)))) :=
  ⟨⟨by decide, by decide, by decide, by decide, by decide,
      by unfold IsDouble InDoubleRange; decide!, by unfold IsDouble InDoubleRange; decide!,
      by decide!, by unfold IsDouble InDoubleRange; decide!⟩,
    by decide!,
    withdrawFunds_spec sampleBank 101 50 noon 0 alice (by decide) (by decide) (by decide)
      (by decide) (by decide) (by unfold IsDouble InDoubleRange; decide!)
      (by unfold IsDouble InDoubleRange; decide!)⟩

/-! ## Frozen accounts -/

/-- A successful `freezeAccount` leaves the account found by the number frozen. -/
theorem freezeAccount_success_frozen {s s1 : Bank} {n : Int}
    (hok : freezeAccount s n = (Outcome.success, s1)) :
    ∃ i, findAccountIndexByNumber s1.accounts n = some i ∧ isFrozenAt s1.accounts i = true := by
  unfold freezeAccount at hok
  cases hi : findAccountIndexByNumber s.accounts n with
  | none => simp [hi] at hok
  | some i =>
    simp only [hi] at hok
    split_ifs at hok with h1
    · simp at hok
    · simp only [Prod.mk.injEq, true_and] at hok
      subst hok
      obtain ⟨acc, hacc, -⟩ := findAccountIndexByNumber_some hi
      refine ⟨i, ?_, ?_⟩
      · simpa [hi] using
          findAccountIndexByNumber_modifyAt (setFrozen true) (fun _ => rfl) s.accounts i n
      · simp [isFrozenAt, getElem?_modifyAt, hacc, setFrozen]

/-- C9. When the account a number `n` designates is frozen: `depositFunds`
and `withdrawFunds` on `n` are refused as frozen, for every amount; a transfer
from `n` is refused as frozen, for every destination and amount; a transfer to
`n` leaves the state as it was for every source and amount, and is refused as
frozen whenever the source exists. In each case the state (every balance, the
log) is the one before the call. -/
theorem frozen_account_refuses (s : Bank) (n : Int) (i : Nat)
    (hfind : findAccountIndexByNumber s.accounts n = some i)
    (hfrozen : isFrozenAt s.accounts i = true) :
    (∀ (amount : ℚ) (now : String), depositFunds s n amount now = (Outcome.accountFrozen, s)) ∧
    (∀ (amount : ℚ) (now : String), withdrawFunds s n amount now = (Outcome.accountFrozen, s)) ∧
    (∀ (dest : Int) (amount : ℚ) (now1 now2 : String),
      transferFunds s n dest amount now1 now2 = (Outcome.sourceFrozen, s)) ∧
    (∀ (src : Int) (amount : ℚ) (now1 now2 : String),
      (transferFunds s src n amount now1 now2).2 = s ∧
      (transferFunds s src n amount now1 now2).1 ≠ Outcome.success ∧
      (findAccountIndexByNumber s.accounts src ≠ none →
        (transferFunds s src n amount now1 now2).1 = Outcome.sourceFrozen ∨
        (transferFunds s src n amount now1 now2).1 = Outcome.destFrozen)) := by
  refine ⟨?_, ?_, ?_, ?_⟩
  · intro amount now
    simp [depositFunds, hfind, hfrozen]
  · intro amount now
    simp [withdrawFunds, hfind, hfrozen]
  · intro dest amount now1 now2
    simp [transferFunds, hfind, hfrozen]
  · intro src amount now1 now2
    unfold transferFunds
    cases hsrc : findAccountIndexByNumber s.accounts src with
    | none => simp
    | some k =>
      by_cases hk : isFrozenAt s.accounts k = true
      · simp [hk]
      · simp [hk, hfind, hfrozen]

/-- Account 101 after `freezeAccount`: the hypotheses of
`frozen_account_refuses` and its conclusion there. -/
theorem frozen_account_refuses_witness :
    findAccountIndexByNumber (freezeAccount sampleBank 101).2.accounts 101 = some 0 ∧
    isFrozenAt (freezeAccount sampleBank 101).2.accounts 0 = true ∧
    ((∀ (amount : ℚ) (now : String),
        depositFunds (freezeAccount sampleBank 101).2 101 amount now =
          (Outcome.accountFrozen, (freezeAccount sampleBank 101).2)) ∧
      (∀ (amount : ℚ) (now : String),
        withdrawFunds (freezeAccount sampleBank 101).2 101 amount now =
          (Outcome.accountFrozen, (freezeAccount sampleBank 101).2)) ∧
      (∀ (dest : Int) (amount : ℚ) (now1 now2 : String),
        transferFunds (freezeAccount sampleBank 101).2 101 dest amount now1 now2 =
          (Outcome.sourceFrozen, (freezeAccount sampleBank 101).2)) ∧
      (∀ (src : Int) (amount : ℚ) (now1 now2 : String),
        (transferFunds (freezeAccount sampleBank 101).2 src 101 amount now1 now2).2 =
          (freezeAccount sampleBank 101).2 ∧
        (transferFunds (freezeAccount sampleBank 101).2 src 101 amount now1 now2).1 ≠
          Outcome.success ∧
        (findAccountIndexByNumber (freezeAccount sampleBank 101).2.accounts src ≠ none →
          (transferFunds (freezeAccount sampleBank 101).2 src 101 amount now1 now2).1 =
            Outcome.sourceFrozen ∨
          (transferFunds (freezeAccount sampleBank 101).2 src 101 amount now1 now2).1 =
            Outcome.destFrozen))) :=
  ⟨by decide, by decide,
    frozen_account_refuses (freezeAccount sampleBank 101).2 101 0 (by decide) (by decide)⟩

/-! ## Deposit followed by withdrawal -/

/-- C10, refuted as stated, in two ways. The account of `overdrawnBank` has
balance `-100`: the deposit of 50 succeeds (balance `-50`), the withdrawal of
50 that follows is refused for insufficient funds, and the balance stays
`-50`. The account `payer` has balance 1: the deposit of `2 ^ 53` succeeds
(balance `2 ^ 53`, since `2 ^ 53 + 1` is not a double), the withdrawal of
`2 ^ 53` that follows succeeds, and the balance is 0, not 1. -/
theorem deposit_then_withdraw_not_restored :
    (overdrawnBank.accounts[0]? = some overdrawn ∧ overdrawn.isFrozen = false ∧
      IsDouble overdrawn.balance ∧ IsDouble 50 ∧
      balanceOf overdrawnBank.accounts 7 = some (-100) ∧
      (depositFunds overdrawnBank 7 50 noon).1 = Outcome.success ∧
      (withdrawFunds (depositFunds overdrawnBank 7 50 noon).2 7 50 noon).1 =
        Outcome.insufficientFunds ∧
      balanceOf (withdrawFunds (depositFunds overdrawnBank 7 50 noon).2 7 50 noon).2.accounts 7 =
        some (-50)) ∧
    (roundingBank.accounts[0]? = some payer ∧ payer.isFrozen = false ∧
      IsDouble payer.balance ∧ IsDouble 9007199254740992 ∧
      balanceOf roundingBank.accounts 201 = some 1 ∧
      (depositFunds roundingBank 201 9007199254740992 noon).1 = Outcome.success ∧
      balanceOf (depositFunds roundingBank 201 9007199254740992 noon).2.accounts 201 =
        some 9007199254740992 ∧
      (withdrawFunds (depositFunds roundingBank 201 9007199254740992 noon).2
        201 9007199254740992 noon).1 = Outcome.success ∧
      balanceOf (withdrawFunds (depositFunds roundingBank 201 9007199254740992 noon).2
        201 9007199254740992 noon).2.accounts 201 = some 0) := by
  refine ⟨⟨by decide!, by decide!, by unfold IsDouble InDoubleRange; decide!,
      by unfold IsDouble InDoubleRange; decide!, by decide!, by decide!, by decide!, by decide!⟩,
    ⟨by decide!, by decide!, by unfold IsDouble InDoubleRange; decide!,
      by unfold IsDouble InDoubleRange; decide!, by decide!, by decide!, by decide!, by decide!,
      by decide!⟩⟩

/-- The overdrawn account is one that `createAccount` produces: an initial
deposit of `-100` is stored as typed. -/
theorem overdrawnBank_reachable :
    run Bank.empty [Op.createAccount [7] "Carol" (-100) 0] = some overdrawnBank := by
  decide!

/-- C10, amended. Let `acc`, at position `i`, be the first account with number
`n`, not frozen, with a balance of at least 0, its balance and `amount`
doubles, `amount` above 0 and `balance + amount` within the range of
`double`. Then the deposit succeeds and the withdrawal of the same amount that
follows succeeds. The account then has the balance
`roundDouble (roundDouble (balance + amount) - amount)` and is otherwise as
before, like every other account; that balance differs from the one before the
deposit by at most the spacing of the doubles at `balance + amount`, and it
is the one before the deposit when `balance + amount` is a double. -/
theorem deposit_then_withdraw_restores (s : Bank) (n : Int) (amount : ℚ) (now1 now2 : String)
    (i : Nat) (acc : Account) (hacc : s.accounts[i]? = some acc) (hn : acc.accountNumber = n)
    (hfirst : ∀ a ∈ s.accounts.take i, a.accountNumber ≠ n)
    (hactive : acc.isFrozen = false) (hpos : 0 < amount) (hamount : IsDouble amount)
    (hbalance : IsDouble acc.balance) (hnonneg : 0 ≤ acc.balance)
    (_hrange : InDoubleRange (acc.balance + amount)) :
    (depositFunds s n amount now1).1 = Outcome.success ∧
    (withdrawFunds (depositFunds s n amount now1).2 n amount now2).1 = Outcome.success ∧
    (withdrawFunds (depositFunds s n amount now1).2 n amount now2).2.accounts =
      s.accounts.set i
        { acc with balance := roundDouble (roundDouble (acc.balance + amount) - amount) } ∧
    balanceOf (withdrawFunds (depositFunds s n amount now1).2 n amount now2).2.accounts n =
      some (roundDouble (roundDouble (acc.balance + amount) - amount)) ∧
    |roundDouble (roundDouble (acc.balance + amount) - amount) - acc.balance| ≤
      ulp (acc.balance + amount) ∧
    (IsDouble (acc.balance + amount) →
      (withdrawFunds (depositFunds s n amount now1).2 n amount now2).2.accounts = s.accounts ∧
      balanceOf (withdrawFunds (depositFunds s n amount now1).2 n amount now2).2.accounts n =
        some acc.balance) := by
  have hfind : findAccountIndexByNumber s.accounts n = some i :=
    findAccountIndexByNumber_first hacc hn hfirst
  have hact : isFrozenAt s.accounts i = false := by rw [isFrozenAt_eq hacc]; exact hactive
  have hdep := depositFunds_eq_success now1 hfind hacc hact hpos
  obtain ⟨hfind1, hacc1, -⟩ :=
    balanceOf_set { acc with balance := roundDouble (acc.balance + amount) } hfind hacc rfl
  have hactive1 : isFrozenAt
      (s.accounts.set i { acc with balance := roundDouble (acc.balance + amount) }) i = false := by
    rw [isFrozenAt_eq hacc1]
    exact hactive
  -- the deposit does not take the balance below the amount
  have hle : amount ≤ roundDouble (acc.balance + amount) := by
    have h := roundDouble_mono (x := amount) (y := acc.balance + amount) (by linarith)
    rw [hamount.1] at h
    exact h
  have hwd := withdrawFunds_eq_success
    (s := { accounts := s.accounts.set i { acc with balance := roundDouble (acc.balance + amount) },
            loanBook := s.loanBook,
            transactions := s.transactions ++
              [{ transactionID := generateTransactionID s.transactions, accountNumber := n,
                 dateTime := now1, type_ := "deposit", amount := amount,
                 balanceAfter := roundDouble (acc.balance + amount) }] })
    now2 hfind1 hacc1 hactive1 hpos hle
  have haccounts : (withdrawFunds (depositFunds s n amount now1).2 n amount now2).2.accounts =
      s.accounts.set i
        { acc with balance := roundDouble (roundDouble (acc.balance + amount) - amount) } := by
    rw [hdep, hwd]
    simp only [List.set_set]
  have hbal : balanceOf
      (withdrawFunds (depositFunds s n amount now1).2 n amount now2).2.accounts n =
      some (roundDouble (roundDouble (acc.balance + amount) - amount)) := by
    rw [haccounts]
    exact (balanceOf_set
      { acc with balance := roundDouble (roundDouble (acc.balance + amount) - amount) }
      hfind hacc rfl).2.2
  refine ⟨by rw [hdep], by rw [hdep, hwd], haccounts, hbal, ?_, ?_⟩
  · -- two roundings, each within half the spacing
    have h1 := roundDouble_error (q := acc.balance + amount) (by linarith)
    have h2 := roundDouble_dist (roundDouble (acc.balance + amount) - amount) hbalance.1
    have e1 : acc.balance - (roundDouble (acc.balance + amount) - amount) =
        -(roundDouble (acc.balance + amount) - (acc.balance + amount)) := by ring
    rw [e1, abs_neg] at h2
    have e2 : roundDouble (roundDouble (acc.balance + amount) - amount) - acc.balance =
        (roundDouble (roundDouble (acc.balance + amount) - amount) -
          (roundDouble (acc.balance + amount) - amount)) +
        (roundDouble (acc.balance + amount) - (acc.balance + amount)) := by ring
    rw [e2]
    calc |(roundDouble (roundDouble (acc.balance + amount) - amount) -
            (roundDouble (acc.balance + amount) - amount)) +
          (roundDouble (acc.balance + amount) - (acc.balance + amount))|
        ≤ |roundDouble (roundDouble (acc.balance + amount) - amount) -
            (roundDouble (acc.balance + amount) - amount)| +
          |roundDouble (acc.balance + amount) - (acc.balance + amount)| := abs_add _ _
      _ ≤ ulp (acc.balance + amount) := by linarith
  · intro hexact
    have hfinal : roundDouble (roundDouble (acc.balance + amount) - amount) = acc.balance := by
      rw [hexact.1, add_sub_cancel_right, hbalance.1]
    rw [hbal, haccounts, hfinal]
    exact ⟨set_getElem?_self hacc, rfl⟩

/-- The deposit and withdrawal of 50 on account 102 of the sample ledger:
`bob`, at position 1, is the first account with that number, its balance 0 and
the sum `0 + 50` are doubles, and the hypotheses of
`deposit_then_withdraw_restores` hold; so does its conclusion there. -/
theorem deposit_then_withdraw_restores_witness :
    (sampleBank.accounts[1]? = some bob ∧ bob.accountNumber = 102 ∧
      (∀ a ∈ sampleBank.accounts.take 1, a.accountNumber ≠ 102) ∧ bob.isFrozen = false ∧
      (0 : ℚ) < 50 ∧ IsDouble 50 ∧ IsDouble bob.balance ∧ 0 ≤ bob.balance ∧
      InDoubleRange (bob.balance + 50) ∧ IsDouble (bob.balance + 50)) ∧
    (depositFunds sampleBank 102 50 noon).1 = Outcome.success ∧
    (withdrawFunds (depositFunds sampleBank 102 50 noon).2 102 50 noon).1 = Outcome.success ∧
    (withdrawFunds (depositFunds sampleBank 102 50 noon).2 102 50 noon).2.accounts =
      sampleBank.accounts.set 1
        { bob with balance := roundDouble (roundDouble (bob.balance + 50) - 50) } ∧
    balanceOf (withdrawFunds (depositFunds sampleBank 102 50 noon).2 102 50 noon).2.accounts 102 =
      some (roundDouble (roundDouble (bob.balance + 50) - 50)) ∧
    |roundDouble (roundDouble (bob.balance + 50) - 50) - bob.balance| ≤ ulp (bob.balance + 50) ∧
    (IsDouble (bob.balance + 50) →
      (withdrawFunds (depositFunds sampleBank 102 50 noon).2 102 50 noon).2.accounts =
        sampleBank.accounts ∧
      balanceOf (withdrawFunds (depositFunds sampleBank 102 50 noon).2 102 50 noon).2.accounts 102 =
        some bob.balance) :=
  ⟨⟨by decide, by decide, by decide, by decide, by decide,
      by unfold IsDouble InDoubleRange; decide!, by unfold IsDouble InDoubleRange; decide!,
      by decide!, by unfold InDoubleRange; decide!, by unfold IsDouble InDoubleRange; decide!⟩,
    deposit_then_withdraw_restores sampleBank 102 50 noon noon 1 bob (by decide) (by decide)
      (by decide) (by decide) (by decide) (by unfold IsDouble InDoubleRange; decide!)
      (by unfold IsDouble InDoubleRange; decide!) (by decide!)
      (by unfold InDoubleRange; decide!)⟩

/-! ## Account creation and loan origination -/

/-- C11. A negative initial deposit and a negative interest rate typed at
`createAccount` are stored as typed, not as 0; the new account is unfrozen. -/
theorem createAccount_stores_inputs_unclamped :
    createAccount Bank.empty [1] "Alice" (-5) (-2) =
      some (Outcome.success, ⟨[⟨1, "Alice", -5, -2, false⟩], [], []⟩) := by
  decide!

/-- C15. An amount of `-5`, a rate of `-1` and a duration of `0` typed at
`createLoanAgreement` are stored as typed (remaining balance `-5`), not as
`0`, `0` and `1`. -/
theorem createLoanAgreement_stores_inputs_unclamped :
    createLoanAgreement Bank.empty "Bob" (-5) (-1) 0 =
      (Outcome.success, ⟨[], [⟨1, "Bob", -5, -1, 0, -5⟩], []⟩) := by
  decide!

/-! ## Uniqueness of account numbers -/

theorem accountNumberExists_eq_false_iff (accounts : List Account) (n : Int) :
    accountNumberExists accounts n = false ↔ ∀ a ∈ accounts, a.accountNumber ≠ n := by
  induction accounts with
  | nil => simp [accountNumberExists]
  | cons a rest ih =>
    by_cases h : a.accountNumber = n
    · simp [accountNumberExists, h]
    · simp [accountNumberExists, h, ih]

theorem readAccountNumber_some {accounts : List Account} {accNums : List Int} {n : Int}
    (h : readAccountNumber accounts accNums = some n) :
    n ∈ accNums ∧ accountNumberExists accounts n = false := by
  induction accNums with
  | nil => simp [readAccountNumber] at h
  | cons x rest ih =>
    simp only [readAccountNumber] at h
    split at h
    · exact ⟨List.mem_cons_of_mem _ (ih h).1, (ih h).2⟩
    · rename_i hx
      cases h
      exact ⟨List.mem_cons_self _ _, by simpa using hx⟩

theorem eraseAccount_sublist {accounts accounts1 : List Account} {n : Int}
    (h : eraseAccount accounts n = some accounts1) : accounts1.Sublist accounts := by
  induction accounts generalizing accounts1 with
  | nil => simp [eraseAccount] at h
  | cons a rest ih =>
    simp only [eraseAccount] at h
    split at h
    · cases h; exact List.sublist_cons_self _ _
    · cases hr : eraseAccount rest n with
      | none => simp [hr] at h
      | some l =>
        simp [hr] at h
        subst h
        exact (ih hr).cons₂ a

theorem map_accountNumber_setFrozen (flag : Bool) (accounts : List Account) (i : Nat) :
    (modifyAt (setFrozen flag) accounts i).map Account.accountNumber =
      accounts.map Account.accountNumber :=
  map_accountNumber_modifyAt (setFrozen flag) (fun _ => rfl) accounts i

theorem depositFunds_numbers (s : Bank) (n : Int) (amount : ℚ) (now : String) :
    (depositFunds s n amount now).2.accounts.map Account.accountNumber =
      s.accounts.map Account.accountNumber := by
  unfold depositFunds
  cases findAccountIndexByNumber s.accounts n with
  | none => rfl
  | some i =>
    simp only []
    split_ifs <;> simp [map_accountNumber_addToBalance]

theorem withdrawFunds_numbers (s : Bank) (n : Int) (amount : ℚ) (now : String) :
    (withdrawFunds s n amount now).2.accounts.map Account.accountNumber =
      s.accounts.map Account.accountNumber := by
  unfold withdrawFunds
  cases findAccountIndexByNumber s.accounts n with
  | none => rfl
  | some i =>
    simp only []
    split_ifs <;> simp [map_accountNumber_subFromBalance]

theorem transferFunds_numbers (s : Bank) (a b : Int) (amount : ℚ) (now1 now2 : String) :
    (transferFunds s a b amount now1 now2).2.accounts.map Account.accountNumber =
      s.accounts.map Account.accountNumber := by
  unfold transferFunds
  cases findAccountIndexByNumber s.accounts a with
  | none => rfl
  | some i =>
    cases findAccountIndexByNumber s.accounts b with
    | none => simp only []; split_ifs <;> rfl
    | some j =>
      simp only []
      split_ifs <;>
        simp [map_accountNumber_addToBalance, map_accountNumber_subFromBalance]

theorem calculateAndAddInterest_numbers (s : Bank) (n : Int) :
    (calculateAndAddInterest s n).2.accounts.map Account.accountNumber =
      s.accounts.map Account.accountNumber := by
  unfold calculateAndAddInterest
  cases findAccountIndexByNumber s.accounts n with
  | none => rfl
  | some i => simp [map_accountNumber_addToBalance]

theorem freezeAccount_numbers (s : Bank) (n : Int) :
    (freezeAccount s n).2.accounts.map Account.accountNumber =
      s.accounts.map Account.accountNumber := by
  unfold freezeAccount
  cases findAccountIndexByNumber s.accounts n with
  | none => rfl
  | some i =>
    simp only []
    split_ifs <;> simp [map_accountNumber_setFrozen]

theorem unfreezeAccount_numbers (s : Bank) (n : Int) :
    (unfreezeAccount s n).2.accounts.map Account.accountNumber =
      s.accounts.map Account.accountNumber := by
  unfold unfreezeAccount
  cases findAccountIndexByNumber s.accounts n with
  | none => rfl
  | some i =>
    simp only []
    split_ifs <;> simp [map_accountNumber_setFrozen]

theorem makeMonthlyRepayment_accounts (s : Bank) (id : Int) (repayment : ℚ) :
    (makeMonthlyRepayment s id repayment).2.accounts = s.accounts := by
  unfold makeMonthlyRepayment
  cases findLoanByID s.loanBook id with
  | none => rfl
  | some i =>
    simp only []
    split_ifs <;> rfl

theorem createAccount_appends {s s1 : Bank} {accNums : List Int} {name : String}
    {balance interestRate : ℚ} {o : Outcome}
    (h : createAccount s accNums name balance interestRate = some (o, s1)) :
    ∃ acc, s1 = { s with accounts := s.accounts ++ [acc] } ∧ acc.accountNumber ∈ accNums ∧
      accountNumberExists s.accounts acc.accountNumber = false ∧
      acc.customerName = trim name ∧ acc.balance = balance ∧
      acc.interestRate = interestRate ∧ acc.isFrozen = false := by
  unfold createAccount at h
  cases hr : readAccountNumber s.accounts accNums with
  | none => simp [hr] at h
  | some n =>
    simp only [hr, Option.some.injEq, Prod.mk.injEq] at h
    obtain ⟨hn, hex⟩ := readAccountNumber_some hr
    exact ⟨_, h.2.symm, hn, hex, rfl, rfl, rfl, rfl⟩

/-- The account list after one call has unique numbers when it had before. -/
theorem step_uniqueNumbers {s s1 : Bank} {op : Op} (hu : UniqueNumbers s.accounts)
    (hstep : step s op = some s1) : UniqueNumbers s1.accounts := by
  cases op with
  | createAccount accNums name balance interestRate =>
    simp only [step, Option.map_eq_some'] at hstep
    obtain ⟨⟨o, s2⟩, hc, rfl⟩ := hstep
    obtain ⟨acc, rfl, -, hex, -⟩ := createAccount_appends hc
    unfold UniqueNumbers at *
    rw [accountNumberExists_eq_false_iff] at hex
    simp only [List.map_append, List.map_cons, List.map_nil]
    refine List.Nodup.append hu (List.nodup_singleton _) ?_
    simp only [List.disjoint_singleton, List.mem_map, not_exists, not_and]
    exact fun a ha => hex a ha
  | depositFunds n amount now =>
    cases hstep; unfold UniqueNumbers at *; rw [depositFunds_numbers]; exact hu
  | withdrawFunds n amount now =>
    cases hstep; unfold UniqueNumbers at *; rw [withdrawFunds_numbers]; exact hu
  | transferFunds a b amount now1 now2 =>
    cases hstep; unfold UniqueNumbers at *; rw [transferFunds_numbers]; exact hu
  | calculateAndAddInterest n =>
    cases hstep; unfold UniqueNumbers at *; rw [calculateAndAddInterest_numbers]; exact hu
  | closeAccount n =>
    cases hstep
    unfold closeAccount
    cases hl : eraseAccount s.accounts n with
    | none => exact hu
    | some l => exact ((eraseAccount_sublist hl).map _).nodup hu
  | deleteAllAccounts =>
    cases hstep
    simp [deleteAllAccounts, UniqueNumbers]
  | freezeAccount n =>
    cases hstep; unfold UniqueNumbers at *; rw [freezeAccount_numbers]; exact hu
  | unfreezeAccount n =>
    cases hstep; unfold UniqueNumbers at *; rw [unfreezeAccount_numbers]; exact hu
  | createLoanAgreement name amount rate duration =>
    cases hstep; exact hu
  | makeMonthlyRepayment id repayment =>
    cases hstep; rw [makeMonthlyRepayment_accounts]; exact hu

/-- C12. `createAccount` appends exactly one account, whose number is one of
the numbers typed and is not the number of any account already present; and
every ledger call (create, deposit, withdraw, transfer, interest, close,
delete all, freeze, unfreeze, and the loan calls) that starts from pairwise
distinct account numbers ends with pairwise distinct account numbers. -/
theorem accountNumbers_stay_unique (s s1 : Bank) (op : Op)
    (hu : UniqueNumbers s.accounts) (hstep : step s op = some s1) :
    UniqueNumbers s1.accounts ∧
      ∀ (accNums : List Int) (name : String) (balance interestRate : ℚ),
        op = Op.createAccount accNums name balance interestRate →
        ∃ acc, s1.accounts = s.accounts ++ [acc] ∧ acc.accountNumber ∈ accNums ∧
          (∀ a ∈ s.accounts, a.accountNumber ≠ acc.accountNumber) := by
  refine ⟨step_uniqueNumbers hu hstep, ?_⟩
  rintro accNums name balance interestRate rfl
  simp only [step, Option.map_eq_some'] at hstep
  obtain ⟨⟨o, s2⟩, hc, rfl⟩ := hstep
  obtain ⟨acc, rfl, hmem, hex, -⟩ := createAccount_appends hc
  exact ⟨acc, rfl, hmem, (accountNumberExists_eq_false_iff _ _).mp hex⟩

/-- The scenario ledger and a `createAccount` at which 101 (taken) is typed
before 103: the hypotheses of `accountNumbers_stay_unique` and its conclusion
there. -/
theorem accountNumbers_stay_unique_witness :
    UniqueNumbers sampleBank.accounts ∧
    step sampleBank (Op.createAccount [101, 103] "Carol" 10 1) =
      some ⟨[alice, bob, ⟨103, "Carol", 10, 1, false⟩], [], []⟩ ∧
    (UniqueNumbers [alice, bob, ⟨103, "Carol", 10, 1, false⟩] ∧
      ∀ (accNums : List Int) (name : String) (balance interestRate : ℚ),
        Op.createAccount [101, 103] "Carol" 10 1 =
          Op.createAccount accNums name balance interestRate →
        ∃ acc, [alice, bob, ⟨103, "Carol", 10, 1, false⟩] = sampleBank.accounts ++ [acc] ∧
          acc.accountNumber ∈ accNums ∧
          (∀ a ∈ sampleBank.accounts, a.accountNumber ≠ acc.accountNumber)) :=
  ⟨by unfold UniqueNumbers; decide, by decide!,
    accountNumbers_stay_unique sampleBank ⟨[alice, bob, ⟨103, "Carol", 10, 1, false⟩], [], []⟩
      (Op.createAccount [101, 103] "Carol" 10 1) (by unfold UniqueNumbers; decide) (by decide!)⟩

/-! ## Generated IDs -/

/-- The loop `maxID = 0; for x: if (key x > maxID) maxID = key x` started at
`m0` ends at a value that is at least `m0`, at least every key, and is `m0`
or one of the keys. -/
theorem foldl_maxID_spec {α : Type} (key : α → Int) (l : List α) (m0 : Int) :
    m0 ≤ l.foldl (fun maxID x => if key x > maxID then key x else maxID) m0 ∧
    (∀ x ∈ l, key x ≤ l.foldl (fun maxID x => if key x > maxID then key x else maxID) m0) ∧
    (l.foldl (fun maxID x => if key x > maxID then key x else maxID) m0 = m0 ∨
      ∃ x ∈ l, l.foldl (fun maxID x => if key x > maxID then key x else maxID) m0 = key x) := by
  induction l generalizing m0 with
  | nil => simp
  | cons a rest ih =>
    simp only [List.foldl_cons, List.mem_cons, forall_eq_or_imp, exists_eq_or_imp]
    obtain ⟨h1, h2, h3⟩ := ih (if key a > m0 then key a else m0)
    have hm : m0 ≤ (if key a > m0 then key a else m0) := by split_ifs <;> omega
    have ha : key a ≤ (if key a > m0 then key a else m0) := by split_ifs <;> omega
    refine ⟨le_trans hm h1, ⟨le_trans ha h1, h2⟩, ?_⟩
    rcases h3 with h3 | ⟨x, hx, h3⟩
    · by_cases hgt : key a > m0
      · right; left; rw [h3, if_pos hgt]
      · left; rw [h3, if_neg hgt]
    · right; right; exact ⟨x, hx, h3⟩

theorem loanID_lt_generateUniqueLoanID (loanBook : List Loan) :
    ∀ loan ∈ loanBook, loan.loanID < generateUniqueLoanID loanBook := by
  intro loan hloan
  have := (foldl_maxID_spec Loan.loanID loanBook 0).2.1 loan hloan
  unfold generateUniqueLoanID
  omega

theorem transactionID_lt_generateTransactionID (transactions : List Transaction) :
    ∀ t ∈ transactions, t.transactionID < generateTransactionID transactions := by
  intro t ht
  have := (foldl_maxID_spec Transaction.transactionID transactions 0).2.1 t ht
  unfold generateTransactionID
  omega

/-- C13, as stated, fails. A loan book whose only loan has ID `-5` gets the
new ID 1, not `1 + (-5)`; the same holds for a log whose only entry has ID
`-5`. -/
theorem generateID_with_negative_ids :
    generateUniqueLoanID [strayLoan] = 1 ∧
    generateUniqueLoanID [strayLoan] ≠ 1 + strayLoan.loanID ∧
    generateTransactionID [strayEntry] = 1 ∧
    generateTransactionID [strayEntry] ≠ 1 + strayEntry.transactionID := by
  decide

/-- C13, amended. `generateUniqueLoanID` returns 1 plus the larger of 0 and
the maximum loan ID: the result is at least 1, exceeds every loan ID by at
least 1, and is 1 or `1 + ` the ID of a loan in the book; so it is 1 for the
empty book, and `1 + ` the maximum loan ID whenever that maximum is at least
0. The same holds for `generateTransactionID` and the log. -/
theorem generateID_spec (loanBook : List Loan) (transactions : List Transaction) :
    (generateUniqueLoanID [] = 1 ∧
      1 ≤ generateUniqueLoanID loanBook ∧
      (∀ loan ∈ loanBook, 1 + loan.loanID ≤ generateUniqueLoanID loanBook) ∧
      (generateUniqueLoanID loanBook = 1 ∨
        ∃ loan ∈ loanBook, generateUniqueLoanID loanBook = 1 + loan.loanID) ∧
      (∀ top ∈ loanBook, 0 ≤ top.loanID → (∀ loan ∈ loanBook, loan.loanID ≤ top.loanID) →
        generateUniqueLoanID loanBook = 1 + top.loanID)) ∧
    (generateTransactionID [] = 1 ∧
      1 ≤ generateTransactionID transactions ∧
      (∀ t ∈ transactions, 1 + t.transactionID ≤ generateTransactionID transactions) ∧
      (generateTransactionID transactions = 1 ∨
        ∃ t ∈ transactions, generateTransactionID transactions = 1 + t.transactionID) ∧
      (∀ top ∈ transactions, 0 ≤ top.transactionID →
        (∀ t ∈ transactions, t.transactionID ≤ top.transactionID) →
        generateTransactionID transactions = 1 + top.transactionID)) := by
  obtain ⟨l1, l2, l3⟩ := foldl_maxID_spec Loan.loanID loanBook 0
  obtain ⟨t1, t2, t3⟩ := foldl_maxID_spec Transaction.transactionID transactions 0
  refine ⟨⟨rfl, ?_, ?_, ?_, ?_⟩, ⟨rfl, ?_, ?_, ?_, ?_⟩⟩
  · unfold generateUniqueLoanID; omega
  · intro loan hloan
    have := l2 loan hloan
    unfold generateUniqueLoanID; omega
  · unfold generateUniqueLoanID
    rcases l3 with h | ⟨x, hx, h⟩
    · left; omega
    · right; exact ⟨x, hx, by omega⟩
  · intro top htop hnonneg hmax
    have h1 := l2 top htop
    unfold generateUniqueLoanID
    rcases l3 with h | ⟨x, hx, h⟩
    · omega
    · have := hmax x hx
      omega
  · unfold generateTransactionID; omega
  · intro t ht
    have := t2 t ht
    unfold generateTransactionID; omega
  · unfold generateTransactionID
    rcases t3 with h | ⟨x, hx, h⟩
    · left; omega
    · right; exact ⟨x, hx, by omega⟩
  · intro top htop hnonneg hmax
    have h1 := t2 top htop
    unfold generateTransactionID
    rcases t3 with h | ⟨x, hx, h⟩
    · omega
    · have := hmax x hx
      omega

/-- The scenario loan book and the two-entry log: `generateID_spec` there,
with the new IDs 2 and 3. -/
theorem generateID_spec_witness :
    generateUniqueLoanID sampleLoans.loanBook = 2 ∧ generateTransactionID sampleLog = 3 ∧
    ((generateUniqueLoanID [] = 1 ∧
      1 ≤ generateUniqueLoanID sampleLoans.loanBook ∧
      (∀ loan ∈ sampleLoans.loanBook,
        1 + loan.loanID ≤ generateUniqueLoanID sampleLoans.loanBook) ∧
      (generateUniqueLoanID sampleLoans.loanBook = 1 ∨
        ∃ loan ∈ sampleLoans.loanBook,
          generateUniqueLoanID sampleLoans.loanBook = 1 + loan.loanID) ∧
      (∀ top ∈ sampleLoans.loanBook, 0 ≤ top.loanID →
        (∀ loan ∈ sampleLoans.loanBook, loan.loanID ≤ top.loanID) →
        generateUniqueLoanID sampleLoans.loanBook = 1 + top.loanID)) ∧
    (generateTransactionID [] = 1 ∧
      1 ≤ generateTransactionID sampleLog ∧
      (∀ t ∈ sampleLog, 1 + t.transactionID ≤ generateTransactionID sampleLog) ∧
      (generateTransactionID sampleLog = 1 ∨
        ∃ t ∈ sampleLog, generateTransactionID sampleLog = 1 + t.transactionID) ∧
      (∀ top ∈ sampleLog, 0 ≤ top.transactionID →
        (∀ t ∈ sampleLog, t.transactionID ≤ top.transactionID) →
        generateTransactionID sampleLog = 1 + top.transactionID))) :=
  ⟨by decide, by decide, generateID_spec sampleLoans.loanBook sampleLog⟩

theorem increasingTransactionIDs_append {transactions : List Transaction} {t : Transaction}
    (h : IncreasingTransactionIDs transactions)
    (ht : t.transactionID = generateTransactionID transactions) :
    IncreasingTransactionIDs (transactions ++ [t]) := by
  unfold IncreasingTransactionIDs at *
  simp only [List.map_append, List.map_cons, List.map_nil, List.pairwise_append,
    List.pairwise_cons, List.not_mem_nil, false_implies, implies_true, List.Pairwise.nil,
    and_self, List.mem_map, List.mem_singleton, forall_eq, forall_exists_index, and_imp,
    forall_apply_eq_imp_iff₂, true_and]
  refine ⟨h, fun a ha => ?_⟩
  rw [ht]
  exact transactionID_lt_generateTransactionID transactions a ha

theorem increasingLoanIDs_append {loanBook : List Loan} {loan : Loan}
    (h : IncreasingLoanIDs loanBook) (hl : loan.loanID = generateUniqueLoanID loanBook) :
    IncreasingLoanIDs (loanBook ++ [loan]) := by
  unfold IncreasingLoanIDs at *
  simp only [List.map_append, List.map_cons, List.map_nil, List.pairwise_append,
    List.pairwise_cons, List.not_mem_nil, false_implies, implies_true, List.Pairwise.nil,
    and_self, List.mem_map, List.mem_singleton, forall_eq, forall_exists_index, and_imp,
    forall_apply_eq_imp_iff₂, true_and]
  refine ⟨h, fun a ha => ?_⟩
  rw [hl]
  exact loanID_lt_generateUniqueLoanID loanBook a ha

theorem map_loanID_modifyAt (f : Loan → Loan) (hf : ∀ l, (f l).loanID = l.loanID)
    (loanBook : List Loan) (i : Nat) :
    (modifyAt f loanBook i).map Loan.loanID = loanBook.map Loan.loanID := by
  induction loanBook generalizing i with
  | nil => rfl
  | cons a rest ih => cases i <;> simp [modifyAt, hf, ih]

/-- One call keeps the loan IDs and the transaction IDs strictly increasing. -/
theorem step_increasing {s s1 : Bank} {op : Op} (hl : IncreasingLoanIDs s.loanBook)
    (ht : IncreasingTransactionIDs s.transactions) (hstep : step s op = some s1) :
    IncreasingLoanIDs s1.loanBook ∧ IncreasingTransactionIDs s1.transactions := by
  cases op with
  | createAccount accNums name balance interestRate =>
    simp only [step, Option.map_eq_some'] at hstep
    obtain ⟨⟨o, s2⟩, hc, rfl⟩ := hstep
    obtain ⟨acc, rfl, -⟩ := createAccount_appends hc
    exact ⟨hl, ht⟩
  | depositFunds n amount now =>
    cases hstep
    unfold depositFunds
    cases findAccountIndexByNumber s.accounts n with
    | none => exact ⟨hl, ht⟩
    | some i =>
      simp only []
      split_ifs
      · exact ⟨hl, ht⟩
      · exact ⟨hl, ht⟩
      · exact ⟨hl, increasingTransactionIDs_append ht rfl⟩
  | withdrawFunds n amount now =>
    cases hstep
    unfold withdrawFunds
    cases findAccountIndexByNumber s.accounts n with
    | none => exact ⟨hl, ht⟩
    | some i =>
      simp only []
      split_ifs
      · exact ⟨hl, ht⟩
      · exact ⟨hl, ht⟩
      · exact ⟨hl, ht⟩
      · exact ⟨hl, increasingTransactionIDs_append ht rfl⟩
  | transferFunds a b amount now1 now2 =>
    cases hstep
    unfold transferFunds
    cases findAccountIndexByNumber s.accounts a with
    | none => exact ⟨hl, ht⟩
    | some i =>
      cases findAccountIndexByNumber s.accounts b with
      | none => simp only []; split_ifs <;> exact ⟨hl, ht⟩
      | some j =>
        simp only []
        split_ifs
        · exact ⟨hl, ht⟩
        · exact ⟨hl, ht⟩
        · exact ⟨hl, ht⟩
        · exact ⟨hl, ht⟩
        · exact ⟨hl, increasingTransactionIDs_append
            (increasingTransactionIDs_append ht rfl) rfl⟩
  | calculateAndAddInterest n =>
    cases hstep
    unfold calculateAndAddInterest
    cases findAccountIndexByNumber s.accounts n <;> exact ⟨hl, ht⟩
  | closeAccount n =>
    cases hstep
    unfold closeAccount
    cases eraseAccount s.accounts n <;> exact ⟨hl, ht⟩
  | deleteAllAccounts =>
    cases hstep
    exact ⟨hl, ht⟩
  | freezeAccount n =>
    cases hstep
    unfold freezeAccount
    cases findAccountIndexByNumber s.accounts n with
    | none => exact ⟨hl, ht⟩
    | some i => simp only []; split_ifs <;> exact ⟨hl, ht⟩
  | unfreezeAccount n =>
    cases hstep
    unfold unfreezeAccount
    cases findAccountIndexByNumber s.accounts n with
    | none => exact ⟨hl, ht⟩
    | some i => simp only []; split_ifs <;> exact ⟨hl, ht⟩
  | createLoanAgreement name amount rate duration =>
    cases hstep
    exact ⟨increasingLoanIDs_append hl rfl, ht⟩
  | makeMonthlyRepayment id repayment =>
    cases hstep
    unfold makeMonthlyRepayment
    cases findLoanByID s.loanBook id with
    | none => exact ⟨hl, ht⟩
    | some i =>
      simp only []
      split_ifs
      · exact ⟨hl, ht⟩
      · refine ⟨?_, ht⟩
        unfold IncreasingLoanIDs at *
        simp only []
        rw [map_loanID_modifyAt (subFromRemaining repayment) (fun _ => rfl)]
        exact hl

/-- C14. From a loan book and a log whose IDs are strictly increasing in list
order, every sequence of calls that returns (loan agreements, deposits,
withdrawals and transfers, successful or refused, and every other call) ends
in a loan book and a log whose IDs are strictly increasing in list order, and
so pairwise distinct. -/
theorem ids_stay_increasing (s s1 : Bank) (ops : List Op)
    (hl : IncreasingLoanIDs s.loanBook) (ht : IncreasingTransactionIDs s.transactions)
    (hrun : run s ops = some s1) :
    IncreasingLoanIDs s1.loanBook ∧ IncreasingTransactionIDs s1.transactions ∧
      (s1.loanBook.map Loan.loanID).Nodup ∧
      (s1.transactions.map Transaction.transactionID).Nodup := by
  have key : IncreasingLoanIDs s1.loanBook ∧ IncreasingTransactionIDs s1.transactions := by
    induction ops generalizing s with
    | nil =>
      simp only [run, Option.some.injEq] at hrun
      subst hrun
      exact ⟨hl, ht⟩
    | cons op rest ih =>
      simp only [run, Option.bind_eq_some] at hrun
      obtain ⟨s2, hstep, hrest⟩ := hrun
      obtain ⟨hl2, ht2⟩ := step_increasing hl ht hstep
      exact ih s2 hl2 ht2 hrest
  exact ⟨key.1, key.2, key.1.imp (fun h => ne_of_lt h), key.2.imp (fun h => ne_of_lt h)⟩

/-- The scenario ledger and `sampleOps` (two loans, a deposit, a transfer and
a refused withdrawal): the hypotheses of `ids_stay_increasing` and its
conclusion for the state reached, with loan IDs 1, 2 and log IDs 1, 2, 3. -/
theorem ids_stay_increasing_witness :
    IncreasingLoanIDs sampleBank.loanBook ∧ IncreasingTransactionIDs sampleBank.transactions ∧
    run sampleBank sampleOps = some sampleAfterOps ∧
    (IncreasingLoanIDs sampleAfterOps.loanBook ∧
      IncreasingTransactionIDs sampleAfterOps.transactions ∧
      (sampleAfterOps.loanBook.map Loan.loanID).Nodup ∧
      (sampleAfterOps.transactions.map Transaction.transactionID).Nodup) :=
  ⟨by unfold IncreasingLoanIDs; decide, by unfold IncreasingTransactionIDs; decide, by decide!,
    ids_stay_increasing sampleBank sampleAfterOps sampleOps (by unfold IncreasingLoanIDs; decide)
      (by unfold IncreasingTransactionIDs; decide) (by decide!)⟩

/-! ## Closing an account -/

theorem eraseAccount_eq_none {accounts : List Account} {n : Int}
    (h : ∀ a ∈ accounts, a.accountNumber ≠ n) : eraseAccount accounts n = none := by
  induction accounts with
  | nil => rfl
  | cons a rest ih =>
    have ha : a.accountNumber ≠ n := h a (List.mem_cons_self _ _)
    have hrest := ih (fun b hb => h b (List.mem_cons_of_mem _ hb))
    simp [eraseAccount, ha, hrest]

/-- With unique numbers, the loop of `closeAccount` that finds the number
returns the list without the account of that number, one element shorter. -/
theorem eraseAccount_eq_filter {accounts : List Account} {n : Int}
    (hu : UniqueNumbers accounts) (h : ∃ a ∈ accounts, a.accountNumber = n) :
    eraseAccount accounts n = some (accounts.filter (fun a => decide (a.accountNumber ≠ n))) ∧
      (accounts.filter (fun a => decide (a.accountNumber ≠ n))).length + 1 = accounts.length := by
  induction accounts with
  | nil => simp at h
  | cons a rest ih =>
    unfold UniqueNumbers at hu
    simp only [List.map_cons, List.nodup_cons, List.mem_map, not_exists, not_and] at hu
    by_cases ha : a.accountNumber = n
    · have hrest : ∀ b ∈ rest, b.accountNumber ≠ n := fun b hb hbn => hu.1 b hb (hbn.trans ha.symm)
      have hfilter : rest.filter (fun a => decide (a.accountNumber ≠ n)) = rest := by
        rw [List.filter_eq_self]
        intro b hb
        simpa using hrest b hb
      have hcons : (a :: rest).filter (fun a => decide (a.accountNumber ≠ n)) =
          rest.filter (fun a => decide (a.accountNumber ≠ n)) := by
        simp [List.filter_cons, ha]
      rw [hcons, hfilter]
      exact ⟨by simp [eraseAccount, ha], rfl⟩
    · have hex : ∃ b ∈ rest, b.accountNumber = n := by
        obtain ⟨b, hb, hbn⟩ := h
        rcases List.mem_cons.mp hb with rfl | hb
        · exact absurd hbn ha
        · exact ⟨b, hb, hbn⟩
      obtain ⟨h1, h2⟩ := ih hu.2 hex
      have hcons : (a :: rest).filter (fun a => decide (a.accountNumber ≠ n)) =
          a :: rest.filter (fun a => decide (a.accountNumber ≠ n)) := by
        simp [List.filter_cons, ha]
      rw [hcons]
      refine ⟨by simp only [eraseAccount, if_neg ha, h1, Option.map_some'], ?_⟩
      simp only [List.length_cons]
      omega

/-- C19. With unique account numbers: when no account has the number `n`,
`closeAccount` reports that the account is not found and leaves the state as
it was; when one has, it succeeds and the account list becomes the list of
the accounts whose number is not `n`, in their order (so no account has number
`n`, the list is one element shorter and every other account is retained
unchanged); loans and log are as before. -/
theorem closeAccount_spec (s : Bank) (n : Int) (hu : UniqueNumbers s.accounts) :
    ((∀ a ∈ s.accounts, a.accountNumber ≠ n) →
      closeAccount s n = (Outcome.accountNotFound, s)) ∧
    ((∃ a ∈ s.accounts, a.accountNumber = n) →
      closeAccount s n =
        (Outcome.success,
          { s with accounts := s.accounts.filter (fun a => decide (a.accountNumber ≠ n)) }) ∧
      (∀ a ∈ (closeAccount s n).2.accounts, a.accountNumber ≠ n) ∧
      (closeAccount s n).2.accounts.length + 1 = s.accounts.length ∧
      (closeAccount s n).2.accounts.Sublist s.accounts ∧
      (∀ a ∈ s.accounts, a.accountNumber ≠ n → a ∈ (closeAccount s n).2.accounts)) := by
  constructor
  · intro h
    simp [closeAccount, eraseAccount_eq_none h]
  · intro h
    obtain ⟨h1, h2⟩ := eraseAccount_eq_filter hu h
    have hres : closeAccount s n =
        (Outcome.success,
          { s with accounts := s.accounts.filter (fun a => decide (a.accountNumber ≠ n)) }) := by
      simp [closeAccount, h1]
    refine ⟨hres, ?_, ?_, ?_, ?_⟩
    · rw [hres]
      intro a ha
      simpa using (List.mem_filter.mp ha).2
    · rw [hres]; exact h2
    · rw [hres]; exact List.filter_sublist _
    · rw [hres]
      intro a ha hne
      exact List.mem_filter.mpr ⟨ha, by simpa using hne⟩

/-- The scenario ledger and the numbers 101 (present) and 999 (absent): the
hypotheses of `closeAccount_spec` and its conclusion for 101. -/
theorem closeAccount_spec_witness :
    UniqueNumbers sampleBank.accounts ∧ (∃ a ∈ sampleBank.accounts, a.accountNumber = 101) ∧
    closeAccount sampleBank 101 = (Outcome.success, ⟨[bob], [], []⟩) ∧
    closeAccount sampleBank 999 = (Outcome.accountNotFound, sampleBank) ∧
    (((∀ a ∈ sampleBank.accounts, a.accountNumber ≠ 101) →
      closeAccount sampleBank 101 = (Outcome.accountNotFound, sampleBank)) ∧
    ((∃ a ∈ sampleBank.accounts, a.accountNumber = 101) →
      closeAccount sampleBank 101 =
        (Outcome.success,
          { sampleBank with
            accounts := sampleBank.accounts.filter (fun a => decide (a.accountNumber ≠ 101)) }) ∧
      (∀ a ∈ (closeAccount sampleBank 101).2.accounts, a.accountNumber ≠ 101) ∧
      (closeAccount sampleBank 101).2.accounts.length + 1 = sampleBank.accounts.length ∧
      (closeAccount sampleBank 101).2.accounts.Sublist sampleBank.accounts ∧
      (∀ a ∈ sampleBank.accounts, a.accountNumber ≠ 101 →
        a ∈ (closeAccount sampleBank 101).2.accounts))) :=
  ⟨by unfold UniqueNumbers; decide, ⟨alice, by simp [sampleBank], rfl⟩, by decide!, by decide!,
    closeAccount_spec sampleBank 101 (by unfold UniqueNumbers; decide)⟩

/-! ## Freezing and unfreezing -/

/-- The successful and the refused branch of `freezeAccount` and of
`unfreezeAccount` for the account a lookup finds, with the post-state spelled
out. -/
theorem freeze_unfreeze_found {s : Bank} {n : Int} {i : Nat} {acc : Account}
    (hfind : findAccountIndexByNumber s.accounts n = some i) (hacc : s.accounts[i]? = some acc) :
    (acc.isFrozen = true →
      freezeAccount s n = (Outcome.alreadyFrozen, s) ∧
      unfreezeAccount s n =
        (Outcome.success, { s with accounts := s.accounts.set i { acc with isFrozen := false } })) ∧
    (acc.isFrozen = false →
      unfreezeAccount s n = (Outcome.notFrozen, s) ∧
      freezeAccount s n =
        (Outcome.success, { s with accounts := s.accounts.set i { acc with isFrozen := true } })) := by
  constructor
  · intro h
    constructor
    · simp [freezeAccount, hfind, isFrozenAt_eq hacc, h]
    · simp [unfreezeAccount, hfind, isFrozenAt_eq hacc, h, modifyAt_eq_set _ _ _ _ hacc, setFrozen]
  · intro h
    constructor
    · simp [unfreezeAccount, hfind, isFrozenAt_eq hacc, h]
    · simp [freezeAccount, hfind, isFrozenAt_eq hacc, h, modifyAt_eq_set _ _ _ _ hacc, setFrozen]

/-- C20. When no account has the number, `freezeAccount` and `unfreezeAccount`
report that and leave the state as it was. For the account a lookup finds (at
index `i`): in the requested state already, the call reports so and leaves the
state as it was; otherwise it succeeds and the account at `i` is replaced by
the same account with `isFrozen` set to true / false, every other field and
account as before. Freezing twice gives the state of freezing once, and
unfreezing after freezing an unfrozen account gives back the initial state. -/
theorem freeze_unfreeze_spec (s : Bank) (n : Int) :
    (findAccountIndexByNumber s.accounts n = none →
      freezeAccount s n = (Outcome.accountNotFound, s) ∧
      unfreezeAccount s n = (Outcome.accountNotFound, s)) ∧
    (∀ (i : Nat) (acc : Account), findAccountIndexByNumber s.accounts n = some i →
      s.accounts[i]? = some acc →
      (acc.isFrozen = true →
        freezeAccount s n = (Outcome.alreadyFrozen, s) ∧
        unfreezeAccount s n =
          (Outcome.success,
            { s with accounts := s.accounts.set i { acc with isFrozen := false } })) ∧
      (acc.isFrozen = false →
        unfreezeAccount s n = (Outcome.notFrozen, s) ∧
        freezeAccount s n =
          (Outcome.success,
            { s with accounts := s.accounts.set i { acc with isFrozen := true } }) ∧
        (unfreezeAccount (freezeAccount s n).2 n).2 = s)) ∧
    (freezeAccount (freezeAccount s n).2 n).2 = (freezeAccount s n).2 := by
  refine ⟨?_, ?_, ?_⟩
  · intro h
    simp [freezeAccount, unfreezeAccount, h]
  · intro i acc hfind hacc
    obtain ⟨hfrozen, hactive⟩ := freeze_unfreeze_found hfind hacc
    refine ⟨hfrozen, fun h => ?_⟩
    obtain ⟨h1, h2⟩ := hactive h
    refine ⟨h1, h2, ?_⟩
    rw [h2]
    obtain ⟨hfind1, hacc1, -⟩ := balanceOf_set { acc with isFrozen := true } hfind hacc rfl
    have h3 := (freeze_unfreeze_found
      (s := { s with accounts := s.accounts.set i { acc with isFrozen := true } })
      hfind1 hacc1).1 rfl
    rw [h3.2]
    have hback : ({ ({ acc with isFrozen := true } : Account) with isFrozen := false } : Account)
        = acc := by
      cases acc
      simp only [Account.mk.injEq, true_and] at h ⊢
      exact h.symm
    simp only [List.set_set, hback, set_getElem?_self hacc]
  · cases hfind : findAccountIndexByNumber s.accounts n with
    | none => simp [freezeAccount, hfind]
    | some i =>
      obtain ⟨acc, hacc, -⟩ := findAccountIndexByNumber_some hfind
      obtain ⟨hfrozen, hactive⟩ := freeze_unfreeze_found hfind hacc
      cases h : acc.isFrozen with
      | true =>
        rw [(hfrozen h).1, (hfrozen h).1]
      | false =>
        rw [(hactive h).2]
        obtain ⟨hfind1, hacc1, -⟩ := balanceOf_set { acc with isFrozen := true } hfind hacc rfl
        have h3 := (freeze_unfreeze_found
          (s := { s with accounts := s.accounts.set i { acc with isFrozen := true } })
          hfind1 hacc1).1 rfl
        rw [h3.1]

/-- The scenario ledger and account 101 (found at index 0, not frozen):
`freeze_unfreeze_spec` there, with the states that freezing and then
unfreezing give. -/
theorem freeze_unfreeze_spec_witness :
    findAccountIndexByNumber sampleBank.accounts 101 = some 0 ∧
    sampleBank.accounts[0]? = some alice ∧ alice.isFrozen = false ∧
    freezeAccount sampleBank 101 =
      (Outcome.success, ⟨[⟨101, "Alice", 150, 5, true⟩, bob], [], []⟩) ∧
    ((findAccountIndexByNumber sampleBank.accounts 101 = none →
      freezeAccount sampleBank 101 = (Outcome.accountNotFound, sampleBank) ∧
      unfreezeAccount sampleBank 101 = (Outcome.accountNotFound, sampleBank)) ∧
    (∀ (i : Nat) (acc : Account), findAccountIndexByNumber sampleBank.accounts 101 = some i →
      sampleBank.accounts[i]? = some acc →
      (acc.isFrozen = true →
        freezeAccount sampleBank 101 = (Outcome.alreadyFrozen, sampleBank) ∧
        unfreezeAccount sampleBank 101 =
          (Outcome.success,
            { sampleBank with
              accounts := sampleBank.accounts.set i { acc with isFrozen := false } })) ∧
      (acc.isFrozen = false →
        unfreezeAccount sampleBank 101 = (Outcome.notFrozen, sampleBank) ∧
        freezeAccount sampleBank 101 =
          (Outcome.success,
            { sampleBank with
              accounts := sampleBank.accounts.set i { acc with isFrozen := true } }) ∧
        (unfreezeAccount (freezeAccount sampleBank 101).2 101).2 = sampleBank)) ∧
    (freezeAccount (freezeAccount sampleBank 101).2 101).2 = (freezeAccount sampleBank 101).2) :=
  ⟨by decide, by decide, by decide, by decide!, freeze_unfreeze_spec sampleBank 101⟩

/-! ## Decimal digits -/

theorem not_digit_e : ∀ c ∈ ('e' :: ([] : List Char)).head?, digitValue c = none ∧ c ≠ '.' := by
  intro c hc
  simp only [List.head?_cons, Option.mem_def, Option.some.injEq] at hc
  subst hc
  decide

theorem fileLinesAux_line (cur line rest : List Char) (hline : '\n' ∉ line) :
    fileLinesAux cur (line ++ '\n' :: rest) = (cur.reverse ++ line) :: fileLines rest := by
  induction line generalizing cur with
  | nil => simp [fileLinesAux, fileLines]
  | cons c cs ih =>
    have hc : c ≠ '\n' := fun h => hline (h ▸ List.mem_cons_self _ _)
    have hcs : '\n' ∉ cs := fun h => hline (List.mem_cons_of_mem _ h)
    have hstep : fileLinesAux cur (c :: cs ++ '\n' :: rest) =
        fileLinesAux (c :: cur) (cs ++ '\n' :: rest) := by
      simp [fileLinesAux, hc]
    rw [hstep, ih (c :: cur) hcs]
    simp

/-- Reading the lines of a file that was written line by line gives the lines
written, when no line contains a newline. -/
theorem fileLines_fileText (lines : List (List Char)) (h : ∀ line ∈ lines, '\n' ∉ line) :
    fileLines (fileText lines) = lines := by
  induction lines with
  | nil => rfl
  | cons line lines ih =>
    have h1 := fileLinesAux_line [] line (fileText lines) (h line (List.mem_cons_self _ _))
    simp only [List.reverse_nil, List.nil_append] at h1
    have h2 : fileLines (fileText (line :: lines)) =
        fileLinesAux [] (line ++ '\n' :: fileText lines) := rfl
    rw [h2, h1, ih (fun l hl => h l (List.mem_cons_of_mem _ hl))]

/-- C18. A line that holds an account number and a name only, without `|`,
balance, rate and flag, is not skipped: `loadAccounts` pushes an account with
that number and name, whose other members hold what the uninitialised locals
held. The same happens in `loadLoanBook`, and in `loadTransactions` for a line
that holds the two IDs only. A line whose balance is not a number is not
skipped either: 0 is stored. -/
theorem load_keeps_incomplete_lines (acc0 : Account) (frozenInt0 : Int) (loan0 : Loan)
    (t0 : Transaction) :
    loadAccounts acc0 frozenInt0 ["101 Alice".toList] =
      [⟨101, "Alice", acc0.balance, acc0.interestRate, frozenInt0 == 1⟩] ∧
    loadAccounts acc0 frozenInt0 ["101 Alice| abc 5 1".toList] =
      [⟨101, "Alice", 0, acc0.interestRate, frozenInt0 == 1⟩] ∧
    loadLoanBook loan0 ["1 Bob".toList] =
      [⟨1, "Bob", loan0.loanAmount, loan0.interestRate, loan0.duration,
        loan0.remainingBalance⟩] ∧
    loadTransactions t0 ["1 101".toList] = [⟨1, 101, "", "", t0.amount, t0.balanceAfter⟩] := by
  refine ⟨?_, ?_, ?_, ?_⟩ <;> rfl

/-- Every line is decoded on its own: the accounts read from a file are those
read from the lines before a given line, then what that line gives, then those
read from the lines after it; and a line gives nothing exactly when the
extraction of its account number fails. -/
theorem loadAccounts_line_by_line (acc0 : Account) (frozenInt0 : Int)
    (before after : List (List Char)) (line : List Char) :
    loadAccounts acc0 frozenInt0 (before ++ line :: after) =
        loadAccounts acc0 frozenInt0 before ++
          ((decodeAccountLine acc0 frozenInt0 line).toList ++
            loadAccounts acc0 frozenInt0 after) ∧
      (decodeAccountLine acc0 frozenInt0 line = none ↔
        (extractInt (IStream.ofLine line) acc0.accountNumber).1.fail = true) := by
  constructor
  · unfold loadAccounts
    rw [List.filterMap_append, List.filterMap_cons]
    cases decodeAccountLine acc0 frozenInt0 line <;> simp
  · unfold decodeAccountLine
    simp only []
    split_ifs with h <;> simp [h]

/-! ## The transaction log -/

/-- The ID generated after an entry with a generated ID was appended is the
next integer. -/
theorem generateTransactionID_append (transactions : List Transaction) (t : Transaction)
    (ht : t.transactionID = generateTransactionID transactions) :
    generateTransactionID (transactions ++ [t]) = generateTransactionID transactions + 1 := by
  have hmax : (transactions.foldl
      (fun maxID t => if t.transactionID > maxID then t.transactionID else maxID) 0) <
      t.transactionID := by
    rw [ht]
    unfold generateTransactionID
    omega
  unfold generateTransactionID at ht ⊢
  rw [List.foldl_append]
  simp only [List.foldl_cons, List.foldl_nil]
  rw [if_pos hmax, ht]

/-- What a successful `transferFunds` appended to the log: the two entries,
with the balances read from the new account list at the two indices. -/
theorem transferFunds_success_log {s s1 : Bank} {a b : Int} {amount : ℚ} {now1 now2 : String}
    (hok : transferFunds s a b amount now1 now2 = (Outcome.success, s1)) :
    ∃ i j, findAccountIndexByNumber s1.accounts a = some i ∧
      findAccountIndexByNumber s1.accounts b = some j ∧
      s1.transactions = s.transactions ++
        [{ transactionID := generateTransactionID s.transactions, accountNumber := a,
           dateTime := now1, type_ := "transfer_out", amount := amount,
           balanceAfter := balanceAt s1.accounts i },
         { transactionID := generateTransactionID s.transactions + 1, accountNumber := b,
           dateTime := now2, type_ := "transfer_in", amount := amount,
           balanceAfter := balanceAt s1.accounts j }] := by
  unfold transferFunds at hok
  cases hi : findAccountIndexByNumber s.accounts a with
  | none => simp [hi] at hok
  | some i =>
    cases hj : findAccountIndexByNumber s.accounts b with
    | none =>
      simp only [hi, hj] at hok
      split_ifs at hok <;> simp at hok
    | some j =>
      simp only [hi, hj] at hok
      split_ifs at hok with h1 h2 h3 h4 <;> try (simp at hok; done)
      simp only [Prod.mk.injEq, true_and] at hok
      subst hok
      refine ⟨i, j, ?_, ?_, ?_⟩
      · simp only [findAccountIndexByNumber_addToBalance,
          findAccountIndexByNumber_subFromBalance, hi]
      · simp only [findAccountIndexByNumber_addToBalance,
          findAccountIndexByNumber_subFromBalance, hj]
      · simp only [List.append_assoc, List.singleton_append]
        rw [generateTransactionID_append _ _ rfl]

/-- A `transferFunds` that does not report success leaves the state as it was. -/
theorem transferFunds_failure_unchanged (s : Bank) (a b : Int) (amount : ℚ)
    (now1 now2 : String) (hfail : (transferFunds s a b amount now1 now2).1 ≠ Outcome.success) :
    (transferFunds s a b amount now1 now2).2 = s := by
  unfold transferFunds at hfail ⊢
  cases hi : findAccountIndexByNumber s.accounts a with
  | none => rfl
  | some i =>
    cases hj : findAccountIndexByNumber s.accounts b with
    | none =>
      simp only []
      split_ifs <;> rfl
    | some j =>
      simp only [hi, hj] at hfail ⊢
      split_ifs at hfail ⊢ <;> first | rfl | exact absurd rfl hfail

/-- C21. A `transferFunds` from `src` to `dest` that succeeds appends exactly
two entries to the log, in this order: one with account number `src`, type
`transfer_out`, the amount and the new balance of `src`, then one with account
number `dest`, type `transfer_in`, the same amount and the new balance of
`dest`; the first ID is the generated one and the second is the first plus 1.
A `transferFunds` that does not succeed leaves the whole state, log and
balances, as it was. -/
theorem transferFunds_log_pair (s : Bank) (src dest : Int) (amount : ℚ) (now1 now2 : String) :
    (∀ s1, transferFunds s src dest amount now1 now2 = (Outcome.success, s1) →
      ∃ x1 y1, balanceOf s1.accounts src = some x1 ∧ balanceOf s1.accounts dest = some y1 ∧
        s1.transactions = s.transactions ++
          [{ transactionID := generateTransactionID s.transactions, accountNumber := src,
             dateTime := now1, type_ := "transfer_out", amount := amount, balanceAfter := x1 },
           { transactionID := generateTransactionID s.transactions + 1, accountNumber := dest,
             dateTime := now2, type_ := "transfer_in", amount := amount,
             balanceAfter := y1 }]) ∧
    ((transferFunds s src dest amount now1 now2).1 ≠ Outcome.success →
      (transferFunds s src dest amount now1 now2).2 = s) := by
  constructor
  · intro s1 hok
    obtain ⟨i, j, hi, hj, hlog⟩ := transferFunds_success_log hok
    exact ⟨balanceAt s1.accounts i, balanceAt s1.accounts j, by simp [balanceOf, hi],
      by simp [balanceOf, hj], hlog⟩
  · exact transferFunds_failure_unchanged s src dest amount now1 now2

/-- The scenario transfer of 30 from 101 to 102 on a log that holds IDs 1 and
2 (entries 3 and 4 are appended, with balances 120 and 30), the refused
transfer of 30 from 102, and `transferFunds_log_pair` for both. -/
theorem transferFunds_log_pair_witness :
    transferFunds loggedBank 101 102 30 noon noon =
      (Outcome.success,
        { accounts := [⟨101, "Alice", 120, 5, false⟩, ⟨102, "Bob", 30, 5, false⟩],
          loanBook := [],
          transactions := sampleLog ++
            [⟨3, 101, noon, "transfer_out", 30, 120⟩, ⟨4, 102, noon, "transfer_in", 30, 30⟩] }) ∧
    transferFunds loggedBank 102 101 30 noon noon = (Outcome.insufficientFunds, loggedBank) ∧
    ((∀ s1, transferFunds loggedBank 101 102 30 noon noon = (Outcome.success, s1) →
      ∃ x1 y1, balanceOf s1.accounts 101 = some x1 ∧ balanceOf s1.accounts 102 = some y1 ∧
        s1.transactions = loggedBank.transactions ++
          [{ transactionID := generateTransactionID loggedBank.transactions,
             accountNumber := 101, dateTime := noon, type_ := "transfer_out", amount := 30,
             balanceAfter := x1 },
           { transactionID := generateTransactionID loggedBank.transactions + 1,
             accountNumber := 102, dateTime := noon, type_ := "transfer_in", amount := 30,
             balanceAfter := y1 }]) ∧
    ((transferFunds loggedBank 101 102 30 noon noon).1 ≠ Outcome.success →
      (transferFunds loggedBank 101 102 30 noon noon).2 = loggedBank)) ∧
    ((transferFunds loggedBank 102 101 30 noon noon).1 ≠ Outcome.success ∧
      (transferFunds loggedBank 102 101 30 noon noon).2 = loggedBank) :=
  ⟨by decide!, by decide!, transferFunds_log_pair loggedBank 101 102 30 noon noon,
    by decide!,
    (transferFunds_log_pair loggedBank 102 101 30 noon noon).2 (by decide!)⟩

/-- One call leaves the log as it was or appends to it: at most two entries,
none removed, none changed. -/
theorem step_appends_to_log {s s1 : Bank} {op : Op} (hstep : step s op = some s1) :
    ∃ added, s1.transactions = s.transactions ++ added ∧ added.length ≤ 2 := by
  have same : ∀ {s2 : Bank}, s2.transactions = s.transactions →
      ∃ added, s2.transactions = s.transactions ++ added ∧ added.length ≤ 2 :=
    fun h => ⟨[], by simpa using h, by simp⟩
  cases op with
  | createAccount accNums name balance interestRate =>
    simp only [step, Option.map_eq_some'] at hstep
    obtain ⟨⟨o, s2⟩, hc, rfl⟩ := hstep
    obtain ⟨acc, rfl, -⟩ := createAccount_appends hc
    exact same rfl
  | depositFunds n amount now =>
    cases hstep
    unfold depositFunds
    cases findAccountIndexByNumber s.accounts n with
    | none => exact same rfl
    | some i =>
      simp only []
      split_ifs
      · exact same rfl
      · exact same rfl
      · exact ⟨_, rfl, by simp⟩
  | withdrawFunds n amount now =>
    cases hstep
    unfold withdrawFunds
    cases findAccountIndexByNumber s.accounts n with
    | none => exact same rfl
    | some i =>
      simp only []
      split_ifs
      · exact same rfl
      · exact same rfl
      · exact same rfl
      · exact ⟨_, rfl, by simp⟩
  | transferFunds a b amount now1 now2 =>
    cases hstep
    by_cases hok : (transferFunds s a b amount now1 now2).1 = Outcome.success
    · have hpair : transferFunds s a b amount now1 now2 =
          (Outcome.success, (transferFunds s a b amount now1 now2).2) := by
        rw [← hok]
      obtain ⟨i, j, -, -, hlog⟩ := transferFunds_success_log hpair
      exact ⟨_, hlog, by simp⟩
    · exact same (by rw [transferFunds_failure_unchanged s a b amount now1 now2 hok])
  | calculateAndAddInterest n =>
    cases hstep
    unfold calculateAndAddInterest
    cases findAccountIndexByNumber s.accounts n <;> exact same rfl
  | closeAccount n =>
    cases hstep
    unfold closeAccount
    cases eraseAccount s.accounts n <;> exact same rfl
  | deleteAllAccounts =>
    cases hstep
    exact same rfl
  | freezeAccount n =>
    cases hstep
    unfold freezeAccount
    cases findAccountIndexByNumber s.accounts n with
    | none => exact same rfl
    | some i => simp only []; split_ifs <;> exact same rfl
  | unfreezeAccount n =>
    cases hstep
    unfold unfreezeAccount
    cases findAccountIndexByNumber s.accounts n with
    | none => exact same rfl
    | some i => simp only []; split_ifs <;> exact same rfl
  | createLoanAgreement name amount rate duration =>
    cases hstep
    exact same rfl
  | makeMonthlyRepayment id repayment =>
    cases hstep
    unfold makeMonthlyRepayment
    cases findLoanByID s.loanBook id with
    | none => exact same rfl
    | some i => simp only []; split_ifs <;> exact same rfl

theorem closeAccount_transactions (s : Bank) (n : Int) :
    (closeAccount s n).2.transactions = s.transactions := by
  unfold closeAccount
  cases eraseAccount s.accounts n <;> rfl

/-- C22. The log is append-only. For every call (create, deposit, withdraw,
transfer, interest, close, delete all, freeze, unfreeze, and the loan calls)
with any input, the log after the call is the log before it followed by the
entries appended (none, one or two), so the log before is an initial segment
of the log after; the same holds for every sequence of calls; and
`closeAccount` leaves the log exactly as it was, the entries of the closed
account included. -/
theorem log_is_append_only (s : Bank) :
    (∀ (op : Op) (s1 : Bank), step s op = some s1 →
      ∃ added, s1.transactions = s.transactions ++ added ∧ added.length ≤ 2) ∧
    (∀ (ops : List Op) (s1 : Bank), run s ops = some s1 →
      ∃ added, s1.transactions = s.transactions ++ added) ∧
    (∀ n : Int, (closeAccount s n).2.transactions = s.transactions ∧
      ∀ t ∈ s.transactions, t ∈ (closeAccount s n).2.transactions) := by
  refine ⟨fun op s1 h => step_appends_to_log h, ?_, fun n => ?_⟩
  · intro ops
    induction ops generalizing s with
    | nil =>
      intro s1 h
      simp only [run, Option.some.injEq] at h
      exact ⟨[], by simp [h]⟩
    | cons op rest ih =>
      intro s1 h
      simp only [run, Option.bind_eq_some] at h
      obtain ⟨s2, hstep, hrest⟩ := h
      obtain ⟨added1, h1, -⟩ := step_appends_to_log hstep
      obtain ⟨added2, h2⟩ := ih s2 s1 hrest
      exact ⟨added1 ++ added2, by rw [h2, h1, List.append_assoc]⟩
  · rw [closeAccount_transactions]
    exact ⟨rfl, fun t ht => ht⟩

/-- The scenario ledger with a log of two entries: closing account 101 leaves
both entries, the deposit of 50 appends one entry, `sampleOps` appends three,
and `log_is_append_only` there. -/
theorem log_is_append_only_witness :
    (closeAccount loggedBank 101 = (Outcome.success, ⟨[bob], [], sampleLog⟩) ∧
      step loggedBank (Op.depositFunds 101 50 noon) =
        some ⟨[⟨101, "Alice", 200, 5, false⟩, bob], [],
          sampleLog ++ [⟨3, 101, noon, "deposit", 50, 200⟩]⟩ ∧
      (run loggedBank sampleOps).map Bank.transactions =
        some (sampleLog ++ [⟨3, 101, noon, "deposit", 50, 200⟩,
          ⟨4, 101, noon, "transfer_out", 30, 170⟩, ⟨5, 102, noon, "transfer_in", 30, 30⟩])) ∧
    ((∀ (op : Op) (s1 : Bank), step loggedBank op = some s1 →
      ∃ added, s1.transactions = loggedBank.transactions ++ added ∧ added.length ≤ 2) ∧
    (∀ (ops : List Op) (s1 : Bank), run loggedBank ops = some s1 →
      ∃ added, s1.transactions = loggedBank.transactions ++ added) ∧
    (∀ n : Int, (closeAccount loggedBank n).2.transactions = loggedBank.transactions ∧
      ∀ t ∈ loggedBank.transactions, t ∈ (closeAccount loggedBank n).2.transactions)) :=
  ⟨by decide!, log_is_append_only loggedBank⟩

end BankSystem
